import Mathlib

/-!
# rtmp-debug: chunk demultiplexer, AMF0 decoder and command collator

A shallow embedding of `stream.go`, `message.go`, `finalize.go` and `util.go`.

Conventions
* a byte is a `Nat`; a Go `string` and a Go `[]byte` are lists of bytes (`GoString`);
* a reader is the list of bytes still to be read together with the error the
  reader reports once the bytes are used up (`io.EOF` after `Close`, the given
  error after `CloseWithError`);
* a Go `map[string]interface{}` is an association list read by its first
  match: `v[key] = value` puts the pair in front, the keys of the map are the
  distinct first components;
* loops are run on fuel; the fuel handed over by `nextObject` and `readMap` is
  shown to be enough for every input.
-/

namespace RtmpDebug

/-! ## Bytes, strings and errors -/

/-- Go strings are byte sequences. -/
abbrev GoString := List Nat

/-- The bytes of an ASCII literal of the source. -/
def lit (s : String) : GoString := s.toList.map Char.toNat

/-- Errors of the chunk reader and of the message decoder.
`ChunkError` is the wrapper of `util.go`; the other constructors are the
errors built with `fmt.Errorf` in the source and the two sentinels of `io`. -/
inductive Err where
  | EOF
  | ErrUnexpectedEOF
  | streamExiting
  | readLengthFailed (e : Err)
  | readFoundStrFailed (e : Err)
  | unknownType (b : Nat)
  | ChunkError (Op : String) (e : Err)
  | missedHeader (chunkStreamID : Nat)
  deriving DecidableEq, Repr

/-- The predicate `errIsEOF` of `util.go`. -/
def errIsEOF : Err → Bool
  | .EOF => true
  | .ErrUnexpectedEOF => true
  | .ChunkError _ e => errIsEOF e
  | _ => false

/-- The function `min` of `util.go`. -/
def min (a b : Nat) : Nat := if a < b then a else b

/-- The library call `io.ReadFull(reader, buf)` with `len(buf) = n` on a reader
holding `input` and ending with `endErr`: nothing is read for `n = 0`; when
the reader ends before any byte the reader's error is returned, when it ends
in the middle `io.ErrUnexpectedEOF` replaces a clean `io.EOF`. -/
def readFull (endErr : Err) (n : Nat) (input : List Nat) : Except Err (List Nat × List Nat) :=
  if n = 0 then .ok ([], input)
  else if n ≤ input.length then .ok (input.take n, input.drop n)
  else if input = [] then .error endErr
  else .error (if endErr = .EOF then .ErrUnexpectedEOF else endErr)

/-- Big-endian value of a byte list. -/
def beNat : List Nat → Nat
  | [] => 0
  | b :: bs => b * 256 ^ bs.length + beNat bs

/-- Little-endian value of a byte list. -/
def leNat : List Nat → Nat
  | [] => 0
  | b :: bs => b + 256 * leNat bs

/-! ## AMF0 values (`message.go`) -/

/-- The dynamic values (`interface{}`) built by the decoder: `float64` kept as
its eight big-endian bytes, `bool`, `string`, `map[string]interface{}`,
`[]interface{}`, and the nil interface. -/
inductive Value where
  | null
  | num (bits : List Nat)
  | bool (b : Bool)
  | str (s : GoString)
  | map (m : List (GoString × Value))
  | arr (a : List Value)

/-- Go map read `m[k]`: the first pair with that key. -/
def mapGet {β : Type} (k : GoString) : List (GoString × β) → Option β
  | [] => none
  | (k', v) :: rest => if k = k' then some v else mapGet k rest

/-- Result of a decoding function run on fuel. -/
inductive Res (α : Type) where
  | ok (a : α) (rest : List Nat)
  | err (e : Err)
  | fuel

/-- The function `readString` of `message.go`. -/
def readString (endErr : Err) (input : List Nat) : Except Err (GoString × List Nat) :=
  match readFull endErr 2 input with
  | .error e => .error (.readLengthFailed e)
  | .ok (lenstr, input1) =>
    match readFull endErr (beNat lenstr) input1 with
    | .error e => .error (.readFoundStrFailed e)
    | .ok (foundStr, input2) => .ok (foundStr, input2)

mutual
/-- The function `nextObject` of `message.go`. -/
def nextObjectF (endErr : Err) : Nat → List Nat → Res Value
  | 0, _ => .fuel
  | fuel + 1, input =>
    match readFull endErr 1 input with
    | .error e => .err e
    | .ok (b, input1) =>
      if b = [0] then
        match readFull endErr 8 input1 with
        | .error e => .err e
        | .ok (num, input2) => .ok (.num num) input2
      else if b = [1] then
        match readFull endErr 1 input1 with
        | .error e => .err e
        | .ok (boolval, input2) => if boolval = [0] then .ok (.bool false) input2 else .ok (.bool true) input2
      else if b = [2] then
        match readString endErr input1 with
        | .error e => .err e
        | .ok (s, input2) => .ok (.str s) input2
      else if b = [3] then
        match readMapF endErr fuel [] input1 with
        | .ok m input2 => .ok (.map m) input2
        | .err e => .err e
        | .fuel => .fuel
      else if b = [5] then .ok .null input1
      else if b = [8] then
        match readFull endErr 4 input1 with
        | .error e => .err (.readLengthFailed e)
        | .ok (arrayLen, input2) =>
          match readArrayF endErr fuel (beNat arrayLen) (List.replicate (beNat arrayLen) .null) input2 with
          | .ok a input3 => .ok (.arr a) input3
          | .err e => .err e
          | .fuel => .fuel
      else if b = [9] then .ok .null input1
      else .err (.unknownType b.headI)
/-- The loop of `readMap` of `message.go`, `v` being the map built so far. -/
def readMapF (endErr : Err) : Nat → List (GoString × Value) → List Nat → Res (List (GoString × Value))
  | 0, _, _ => .fuel
  | fuel + 1, v, input =>
    match readString endErr input with
    | .error e => .err e
    | .ok (key, input1) =>
      match nextObjectF endErr fuel input1 with
      | .err e => .err e
      | .fuel => .fuel
      | .ok .null input2 => .ok v input2
      | .ok value input2 => readMapF endErr fuel ((key, value) :: v) input2
/-- The loop of `readArray` of `message.go`: `todo` iterations are left,
`array` is the slice built so far. -/
def readArrayF (endErr : Err) : Nat → Nat → List Value → List Nat → Res (List Value)
  | 0, _, _, _ => .fuel
  | _ + 1, 0, array, input => .ok array input
  | fuel + 1, todo + 1, array, input =>
    match nextObjectF endErr fuel input with
    | .err e => .err e
    | .fuel => .fuel
    | .ok item input1 => readArrayF endErr fuel todo (array ++ [item]) input1
end

/-- The function `nextObject` of `message.go` on a whole reader; the fuel is
never used up (`nextObjectF_fuel`). -/
def nextObject (endErr : Err) (input : List Nat) : Res Value :=
  nextObjectF endErr (input.length + 1) input

/-- The function `readMap` of `message.go`: the loop started on the empty map. -/
def readMap (endErr : Err) (input : List Nat) : Res (List (GoString × Value)) :=
  readMapF endErr (input.length + 1) [] input

/-- The function `readArray` of `message.go`: the length, the slice made with
that length, then the loop appending to it. -/
def readArray (endErr : Err) (input : List Nat) : Res (List Value) :=
  match readFull endErr 4 input with
  | .error e => .err (.readLengthFailed e)
  | .ok (arrayLen, input1) =>
    readArrayF endErr (input1.length + 2) (beNat arrayLen) (List.replicate (beNat arrayLen) .null) input1

/-- The value loop of `processNewMessage`: `none` when the fuel is used up. -/
def valuesLoopF (endErr : Err) : Nat → List Value → List Nat → Option (Except Err (List Value))
  | 0, _, _ => none
  | fuel + 1, vals, input =>
    match nextObject endErr input with
    | .fuel => none
    | .err e =>
      if e = .ErrUnexpectedEOF ∨ e = .EOF then some (.ok vals) else some (.error e)
    | .ok .null input1 => valuesLoopF endErr fuel vals input1
    | .ok value input1 => valuesLoopF endErr fuel (vals ++ [value]) input1

/-- The decoding part of `processNewMessage`: the error it returns, or the
list `vals` it has collected when it reaches `if len(vals) > 0`. -/
def readValues (endErr : Err) (msgTypeID : Nat) (input : List Nat) : Option (Except Err (List Value)) :=
  if msgTypeID = 0x14 ∨ msgTypeID = 0x11 then
    if msgTypeID = 0x11 then
      match readFull endErr 1 input with
      | .error e => some (.error e)
      | .ok (_, input1) => valuesLoopF endErr (input1.length + 1) [] input1
    else valuesLoopF endErr (input.length + 1) [] input
  else some (.ok [])

/-! ## The command collator (`finalize.go`) -/

/-- Lexicographic order on Go strings, the order of `sort.Strings`. -/
def strLe : GoString → GoString → Bool
  | [], _ => true
  | _ :: _, [] => false
  | a :: as, b :: bs => if a < b then true else if b < a then false else strLe as bs

/-- The distinct keys of a Go map, as `sort.Strings` leaves them. -/
def sortedKeys {β : Type} (m : List (GoString × β)) : List GoString :=
  ((m.map Prod.fst).dedup).insertionSort (fun a b => strLe a b = true)

/-- The verb `%v` of `fmt` on a decoded value: a string is printed as it is;
how `fmt` prints a value of another dynamic type (`float64`, `bool`, a map,
a slice) is not fixed here and taken as `fmtOther`. -/
def sprintV (fmtOther : Value → GoString) : Value → GoString
  | .str s => s
  | v => fmtOther v

/-- Split at every `/` (byte 47). -/
def splitSlash : GoString → List GoString
  | [] => [[]]
  | c :: cs =>
    if c = 47 then [] :: splitSlash cs
    else match splitSlash cs with
      | [] => [[c]]
      | x :: xs => (c :: x) :: xs

/-- Join path elements with `/`. -/
def joinSlash : List GoString → GoString
  | [] => []
  | [x] => x
  | x :: y :: rest => x ++ 47 :: joinSlash (y :: rest)

/-- The element loop of `filepath.Clean`: `out` holds the elements written so
far, last one first; empty and `.` elements are dropped, `..` removes the
element before it when that is not itself `..`, is dropped at the root and is
kept at the start of a relative path. -/
def cleanElems (rooted : Bool) : List GoString → List GoString → List GoString
  | out, [] => out
  | out, e :: es =>
    if e = [] ∨ e = [46] then cleanElems rooted out es
    else if e = [46, 46] then
      match out with
      | [] => if rooted then cleanElems rooted [] es else cleanElems rooted [[46, 46]] es
      | top :: below =>
        if top = [46, 46] then cleanElems rooted ([46, 46] :: top :: below) es
        else cleanElems rooted below es
    else cleanElems rooted (e :: out) es

/-- The library function `filepath.Clean` for `/`-separated paths. -/
def filepathClean (path : GoString) : GoString :=
  if path = [] then [46]
  else
    let rooted := decide (path.head? = some 47)
    let out := joinSlash (cleanElems rooted [] (splitSlash path)).reverse
    if rooted then 47 :: out
    else if out = [] then [46] else out

/-- Strip the trailing `/` bytes of a path. -/
def stripTrailingSlash (path : GoString) : GoString :=
  (path.reverse.dropWhile (fun c => c = 47)).reverse

/-- The library function `filepath.Base` for `/`-separated paths. -/
def filepathBase (path : GoString) : GoString :=
  if path = [] then [46]
  else
    let p := stripTrailingSlash path
    let last := ((p.reverse.takeWhile (fun c => ¬ c = 47)).reverse)
    if last = [] then [47] else last

/-- The expression `strings.SplitN(f, "?", 2)[0]`: what stands before the
first `?` (byte 63), the whole string when there is none. -/
def beforeQuery (f : GoString) : GoString :=
  f.takeWhile (fun c => ¬ c = 63)

/-- State of a `MessageFinalizer`; `r` lists the strings sent on the result
channel, oldest first, `connect = none` is the nil map. -/
structure MessageFinalizer where
  r : List GoString
  complete : Bool
  connect : Option (List (GoString × Value))
  play : GoString

/-- The collator a flow starts with (`&MessageFinalizer{r: w.output}`). -/
def MessageFinalizer.init : MessageFinalizer :=
  { r := [], complete := false, connect := none, play := [] }

/-- The method `makeFilename`. -/
def makeFilename (c : MessageFinalizer) : GoString :=
  beforeQuery (filepathBase (filepathClean c.play))

/-- The function `addFlag`. -/
def addFlag (s : GoString) (v : GoString) : GoString :=
  lit " -" ++ s ++ lit " '" ++ v ++ lit "'"

/-- The read `c.connect[k]`, `none` standing for the nil interface both when
the key is missing and when the map is nil. -/
def connectGet (c : MessageFinalizer) (k : GoString) : Option Value :=
  match c.connect with
  | none => none
  | some m =>
    match mapGet k m with
    | some .null => none
    | r => r

/-- The keys ranged over by `for k := range c.connect`, after `sort.Strings`. -/
def connectKeys (c : MessageFinalizer) : List GoString :=
  match c.connect with
  | none => []
  | some m => sortedKeys m

/-- Printing of `c.connect[k]` with `%v`. -/
def connectShow (fmtOther : Value → GoString) (c : MessageFinalizer) (k : GoString) : GoString :=
  match c.connect with
  | none => fmtOther .null
  | some m =>
    match mapGet k m with
    | none => fmtOther .null
    | some v => sprintV fmtOther v

/-- One turn of the loop over the sorted keys in `RTMPDumpCommand`. -/
def flagFor (fmtOther : Value → GoString) (c : MessageFinalizer) (cmd : GoString) (k : GoString) : GoString :=
  let s := connectShow fmtOther c k
  if k = lit "app" then cmd ++ addFlag (lit "a") s
  else if k = lit "tcUrl" then cmd ++ addFlag (lit "t") s
  else if k = lit "pageUrl" then cmd ++ addFlag (lit "p") s
  else if k = lit "flashVer" then cmd ++ addFlag (lit "f") s
  else cmd

/-- The method `RTMPDumpCommand`. -/
def RTMPDumpCommand (fmtOther : Value → GoString) (c : MessageFinalizer) : MessageFinalizer :=
  if ¬ c.complete then c
  else
    let cmd := lit "rtmpdump"
    let cmd := match connectGet c (lit "tcUrl") with
      | some tc => cmd ++ lit " -r '" ++ sprintV fmtOther tc ++ lit "'"
      | none => cmd
    let cmd := cmd ++ addFlag (lit "y") c.play
    let cmd := (connectKeys c).foldl (flagFor fmtOther c) cmd
    let cmd := cmd ++ lit " -R -o '" ++ makeFilename c ++ lit "'"
    { c with r := c.r ++ [cmd] }

/-- Run-time faults of `add`. -/
inductive Panic where
  | indexOutOfRange (index length : Nat)
  | interfaceConversion
  deriving DecidableEq, Repr

/-- Lines 80-88 of `add`: the argument captured from a `connect` or `play`
command, or the run-time fault (`d[2]` outside the slice, a type assertion on
another dynamic type). -/
def addCapture (c : MessageFinalizer) (d : List Value) : Except Panic MessageFinalizer :=
  match d.head? with
  | some (.str cmd) =>
    if d.length ≥ 2 then
      if cmd = lit "connect" then
        match d.get? 2 with
        | none => .error (.indexOutOfRange 2 d.length)
        | some (.map m) => .ok { c with connect := some m }
        | some _ => .error .interfaceConversion
      else if cmd = lit "play" then
        match d.get? 2 with
        | none => .error (.indexOutOfRange 2 d.length)
        | some (.str s) => .ok { c with play := s }
        | some _ => .error .interfaceConversion
      else .ok c
    else .ok c
  | _ => .ok c

/-- The method `add`: the collator after the call, or the run-time fault that
stops it. -/
def add (fmtOther : Value → GoString) (c : MessageFinalizer) (d : List Value) : Except Panic MessageFinalizer :=
  if d.length = 0 then .ok c
  else
    match addCapture c d with
    | .error p => .error p
    | .ok c1 =>
      if ¬ c1.complete ∧ c1.connect.isSome ∧ c1.play.length > 0 then
        .ok (RTMPDumpCommand fmtOther { c1 with complete := true })
      else .ok c1

/-- The function `processNewMessage` of `message.go` run on the payload pipe
holding `input`: the error it returns and the collator it leaves, or the
run-time fault raised inside `add`; `none` when the fuel is used up. -/
def processNewMessage (fmtOther : Value → GoString) (endErr : Err) (input : List Nat)
    (finalizer : MessageFinalizer) (msgTypeID : Nat) :
    Option (Option Err × Except Panic MessageFinalizer) :=
  match readValues endErr msgTypeID input with
  | none => none
  | some (.error e) => some (some e, .ok finalizer)
  | some (.ok vals) =>
    if vals.length > 0 then some (none, add fmtOther finalizer vals)
    else some (none, .ok finalizer)

/-! ## The chunk demultiplexer (`stream.go`) -/

/-- The struct `header`; `uint24` is a list of three bytes. -/
structure header where
  Timestamp : List Nat
  MessageLength : List Nat
  TypeID : Nat
  deriving DecidableEq, Repr

/-- A payload pipe: the type id its decoder was started with and the bytes
written to it so far. -/
structure Pipe where
  typeID : Nat
  data : List Nat
  deriving DecidableEq, Repr

/-- The struct `RTMPMessage`; `writer = none` is the nil writer. -/
structure RTMPMessage where
  hdr : header
  headerOk : Bool
  streamID : Nat
  remainingLength : Nat
  writer : Option Pipe
  deriving DecidableEq, Repr

/-- The zero value `&RTMPMessage{}`. -/
def RTMPMessage.empty : RTMPMessage :=
  { hdr := { Timestamp := [0, 0, 0], MessageLength := [0, 0, 0], TypeID := 0 },
    headerOk := false, streamID := 0, remainingLength := 0, writer := none }

/-- The struct `rtmpStream`. `track` is read by its first match. `closed`
lists the pipes whose writer was closed with `Close`, oldest first, and
`aborted` the pipes closed with `CloseWithError` when the flow exits. -/
structure rtmpStream where
  track : List (Nat × RTMPMessage)
  chunkSize : Nat
  closed : List Pipe
  aborted : List Pipe
  deriving Repr

/-- The stream made by `rtmpStreamWrapper.New`. -/
def rtmpStream.new : rtmpStream :=
  { track := [], chunkSize := 128, closed := [], aborted := [] }

/-- The read `s.track[chunkStreamID]`. -/
def trackGet (chunkStreamID : Nat) : List (Nat × RTMPMessage) → Option RTMPMessage
  | [] => none
  | (k, m) :: rest => if chunkStreamID = k then some m else trackGet chunkStreamID rest

/-- The message `s.track[chunkStreamID]` points to, after the changes made
through the pointer `msg`. -/
def rtmpStream.store (s : rtmpStream) (chunkStreamID : Nat) (msg : RTMPMessage) : rtmpStream :=
  { s with track := (chunkStreamID, msg) :: s.track }

/-- Lines 127-143 of `processChunk`: the chunk stream id from the low six bits
of the first byte and the one or two bytes that may follow. -/
def readChunkStreamID (low : Nat) (buf : List Nat) : Except Err (Nat × List Nat) :=
  if low = 0 then
    match readFull .EOF 1 buf with
    | .error e => .error (.ChunkError "read chunkStreamID=0 next byte" e)
    | .ok (b2, buf1) => .ok ((beNat b2 + 64) % 2 ^ 32, buf1)
  else if low = 1 then
    match readFull .EOF 2 buf with
    | .error e => .error (.ChunkError "read chunkStreamID=1 next bytes" e)
    | .ok (b23, buf1) => .ok ((beNat b23 + 64) % 2 ^ 32, buf1)
  else .ok (low, buf)

/-- Lines 157-171 of `processChunk`: the message header of format 0 and 1 and
the stream id of format 0. -/
def readMessageHeader (headerFormat : Nat) (msg : RTMPMessage) (buf : List Nat) :
    Option Err × RTMPMessage × List Nat :=
  if headerFormat = 0 ∨ headerFormat = 1 then
    match readFull .EOF 7 buf with
    | .error e => (some (.ChunkError "read message header" e), msg, [])
    | .ok (h, buf1) =>
      let msg1 := { msg with
        hdr := { Timestamp := h.take 3, MessageLength := (h.drop 3).take 3, TypeID := (h.drop 6).headI },
        headerOk := true }
      if headerFormat = 0 then
        match readFull .EOF 4 buf1 with
        | .error e => (some (.ChunkError "read streamID" e), msg1, [])
        | .ok (sid, buf2) => (none, { msg1 with streamID := leNat sid }, buf2)
      else (none, msg1, buf1)
  else (none, msg, buf)

/-- Lines 184-199 of `processChunk`: the timestamp delta of format 2 and the
extended timestamp. -/
def readTimestamps (headerFormat : Nat) (msg : RTMPMessage) (buf : List Nat) :
    Option Err × RTMPMessage × List Nat :=
  let r : Option Err × RTMPMessage × List Nat :=
    if headerFormat = 2 then
      match readFull .EOF 3 buf with
      | .error e => (some (.ChunkError "read timestampDelta" e), msg, [])
      | .ok (ts, buf1) => (none, { msg with hdr := { msg.hdr with Timestamp := ts } }, buf1)
    else (none, msg, buf)
  match r with
  | (some e, msg1, buf1) => (some e, msg1, buf1)
  | (none, msg1, buf1) =>
    if msg1.hdr.Timestamp = [255, 255, 255] then
      match readFull .EOF 4 buf1 with
      | .error e => (some (.ChunkError "read extendedTimestamp" e), msg1, [])
      | .ok (_, buf2) => (none, msg1, buf2)
    else (none, msg1, buf1)

/-- Lines 215-223 of `processChunk`: the special case for "set chunk size";
returns the chunk size of the stream as well. -/
def readChunkSize (chunkSize : Nat) (msg : RTMPMessage) (buf : List Nat) :
    Option Err × Nat × RTMPMessage × List Nat :=
  if msg.hdr.TypeID = 1 ∧ msg.remainingLength ≥ 4 then
    match readFull .EOF 4 buf with
    | .error e => (some (.ChunkError "read chunkSize" e), chunkSize, msg, [])
    | .ok (cs, buf1) => (none, beNat cs, { msg with remainingLength := msg.remainingLength - 4 }, buf1)
  else (none, chunkSize, msg, buf)

/-- The method `sendMessagePayload`. The write to the pipe does not fail: the
reading end is never closed, the decoder drains it until the writer closes. -/
def sendMessagePayload (chunkSize : Nat) (buf : List Nat) (chunkStreamID : Nat) (msg : RTMPMessage) :
    Option Err × RTMPMessage × List Nat :=
  let rl := min chunkSize msg.remainingLength
  let msg1 := { msg with remainingLength := msg.remainingLength - rl }
  if rl > 0 then
    match readFull .EOF rl buf with
    | .error e =>
      (some (.ChunkError ("read streamID " ++ toString chunkStreamID ++ ": " ++ toString rl ++ " bytes") e),
        msg1, [])
    | .ok (bx, buf1) =>
      (none, { msg1 with writer := msg1.writer.map (fun w => { w with data := w.data ++ bx }) }, buf1)
  else (none, msg1, buf)

/-- Lines 151-234 of `processChunk`, once the header format and the chunk
stream id are known: the error returned (`none` for nil), the stream after
the call and the bytes left in the reader. -/
def processMessageChunk (s : rtmpStream) (headerFormat chunkStreamID : Nat) (buf2 : List Nat) :
    Option Err × rtmpStream × List Nat :=
  let msg := (trackGet chunkStreamID s.track).getD RTMPMessage.empty
  match readMessageHeader headerFormat msg buf2 with
  | (some e, msg1, buf3) => (some e, s.store chunkStreamID msg1, buf3)
  | (none, msg1, buf3) =>
    if ¬ msg1.headerOk then (some (.missedHeader chunkStreamID), s.store chunkStreamID msg1, buf3)
    else
      let msg2 :=
        if msg1.writer.isNone then { msg1 with writer := some { typeID := msg1.hdr.TypeID, data := [] } }
        else msg1
      match readTimestamps headerFormat msg2 buf3 with
      | (some e, msg3, buf4) => (some e, s.store chunkStreamID msg3, buf4)
      | (none, msg3, buf4) =>
        let msg4 :=
          if msg3.remainingLength = 0 then
            { msg3 with remainingLength := beNat msg3.hdr.MessageLength % 2 ^ 32 }
          else msg3
        match readChunkSize s.chunkSize msg4 buf4 with
        | (some e, chunkSize, msg5, buf5) =>
          (some e, { s with chunkSize := chunkSize }.store chunkStreamID msg5, buf5)
        | (none, chunkSize, msg5, buf5) =>
          match sendMessagePayload chunkSize buf5 chunkStreamID msg5 with
          | (some e, msg6, buf6) => (some e, { s with chunkSize := chunkSize }.store chunkStreamID msg6, buf6)
          | (none, msg6, buf6) =>
            if msg6.remainingLength = 0 then
              (none,
                { s with chunkSize := chunkSize, closed := s.closed ++ msg6.writer.toList }.store
                  chunkStreamID { msg6 with writer := none },
                buf6)
            else (none, { s with chunkSize := chunkSize }.store chunkStreamID msg6, buf6)

/-- The method `processChunk`: the basic header (lines 117-143), then the
rest of the chunk. -/
def processChunk (s : rtmpStream) (buf : List Nat) : Option Err × rtmpStream × List Nat :=
  match readFull .EOF 1 buf with
  | .error e => (some (.ChunkError "read headertype" e), s, [])
  | .ok (b1, buf1) =>
    let headerFormat := b1.headI / 64
    match readChunkStreamID (b1.headI % 64) buf1 with
    | .error e => (some e, s, [])
    | .ok (chunkStreamID, buf2) => processMessageChunk s headerFormat chunkStreamID buf2

/-- Repeated calls of `processChunk`, `n` of them, stopping at the first error. -/
def processChunks : Nat → rtmpStream → List Nat → Option Err × rtmpStream × List Nat
  | 0, s, buf => (none, s, buf)
  | n + 1, s, buf =>
    match processChunk s buf with
    | (some e, s1, buf1) => (some e, s1, buf1)
    | (none, s1, buf1) => processChunks n s1 buf1

/-- The chunk loop of `parseStream`: the stream at the first error of
`processChunk`; `none` when the fuel is used up. -/
def chunkLoop : Nat → rtmpStream → List Nat → Option rtmpStream
  | 0, _, _ => none
  | fuel + 1, s, buf =>
    match processChunk s buf with
    | (some _, s1, _) => some s1
    | (none, s1, buf1) => chunkLoop fuel s1 buf1

/-- The writers found open by the deferred function of `parseStream`. -/
def openPipes (track : List (Nat × RTMPMessage)) : List Pipe :=
  ((track.map Prod.fst).dedup).filterMap (fun k => (trackGet k track).bind (fun m => m.writer))

/-- The deferred function of `parseStream`: every open writer is closed with
the error "stream exiting". -/
def rtmpStream.exit (s : rtmpStream) : rtmpStream :=
  { s with aborted := openPipes s.track }

/-- The body of `parseStream` on a new stream. -/
def parseStreamBody (s : rtmpStream) (r : List Nat) : Option rtmpStream :=
  match r with
  | [] => some s
  | d :: buf =>
    if d ≠ 0x03 then some s
    else
      match readFull .EOF 0x600 buf with
      | .error _ => some s
      | .ok (_, buf1) =>
        match readFull .EOF 0x600 buf1 with
        | .error _ => some s
        | .ok (_, buf2) => chunkLoop (buf2.length + 1) s buf2

/-- The method `parseStream` of a stream made by `New`, on the bytes of a flow. -/
def parseStream (r : List Nat) : Option rtmpStream :=
  (parseStreamBody rtmpStream.new r).map rtmpStream.exit

/-- The decoders started by a flow (the goroutines running
`processNewMessage`), each with the pipe it reads and the error that ends the
pipe. A decoder calls `add` only after it has read its pipe to the end. -/
def decoders (s : rtmpStream) : List (Err × Pipe) :=
  s.closed.map (fun p => (Err.EOF, p)) ++ s.aborted.map (fun p => (Err.streamExiting, p))

/-- The decoders of a flow running to their end one after the other in the
given order, all on the collator of the flow. A run-time fault stops the
program. `none` when a decoder uses up its fuel. -/
def runDecoders (fmtOther : Value → GoString) : MessageFinalizer → List (Err × Pipe) → Option MessageFinalizer
  | c, [] => some c
  | c, (endErr, p) :: rest =>
    match processNewMessage fmtOther endErr p.data c p.typeID with
    | none => none
    | some (_, .error _) => some c
    | some (_, .ok c1) => runDecoders fmtOther c1 rest

/-- A sequence of `add` calls on one collator, in order; a run-time fault
stops the program, so the calls after it do not happen. -/
def addSeq (fmtOther : Value → GoString) : MessageFinalizer → List (List Value) → MessageFinalizer
  | c, [] => c
  | c, d :: ds =>
    match add fmtOther c d with
    | .error _ => c
    | .ok c1 => addSeq fmtOther c1 ds

/-- The text ` -<flag> '<m.key>'` when the map has the key, nothing when it
has not. -/
def optFlag (fmtOther : Value → GoString) (m : List (GoString × Value)) (flag key : GoString) : GoString :=
  match mapGet key m with
  | some v => lit " -" ++ flag ++ lit " \'" ++ sprintV fmtOther v ++ lit "\'"
  | none => []

/-- The command line the specification gives for a connect map and a play
target: `-r`, `-y`, then `-a`, `-f`, `-p`, `-t`, then `-R -o`. -/
def specCommand (fmtOther : Value → GoString) (m : List (GoString × Value)) (s : GoString) : GoString :=
  lit "rtmpdump" ++ optFlag fmtOther m (lit "r") (lit "tcUrl") ++
    (lit " -y \'" ++ s ++ lit "\'") ++
    optFlag fmtOther m (lit "a") (lit "app") ++
    optFlag fmtOther m (lit "f") (lit "flashVer") ++
    optFlag fmtOther m (lit "p") (lit "pageUrl") ++
    optFlag fmtOther m (lit "t") (lit "tcUrl") ++
    (lit " -R -o \'" ++ makeFilename { MessageFinalizer.init with play := s } ++ lit "\'")

/-- The four keys of the connect map that give a flag, in the order of
`sort.Strings`. -/
def flagKeys : List GoString := [lit "app", lit "flashVer", lit "pageUrl", lit "tcUrl"]

/-- An entry of an encoded map: the key, the bytes encoding the value, and the
value those bytes stand for. -/
structure MapEntry where
  key : GoString
  bytes : List Nat
  value : Value

/-- Big-endian `uint16`. -/
def u16be (n : Nat) : List Nat := [n / 256 % 256, n % 256]

/-- A key on the wire: its length as `uint16`, then its bytes. -/
def encKey (k : GoString) : List Nat := u16be k.length ++ k

/-- The entries of a map on the wire, one after the other. -/
def encEntries : List MapEntry → List Nat
  | [] => []
  | x :: xs => encKey x.key ++ x.bytes ++ encEntries xs

/-! ## Chunking, as the specification describes the wire -/

/-- A message as a sender puts it on a chunk stream: `timestamp` is the 3-byte
field, `streamID` the 4 bytes of the message stream id as they are on the wire. -/
structure WireMessage where
  csid : Nat
  timestamp : List Nat
  typeID : Nat
  streamID : List Nat
  payload : List Nat

/-- Big-endian `uint24`. -/
def u24be (n : Nat) : List Nat := [n / 65536 % 256, n / 256 % 256, n % 256]

/-- The basic header for a format and a chunk stream id (2..65599): one byte
for an id below 64, the one-byte extension for an id below 320, the two-byte
extension above. -/
def basicHeader (fmt csid : Nat) : List Nat :=
  if csid < 64 then [fmt * 64 + csid]
  else if csid < 320 then [fmt * 64, csid - 64]
  else [fmt * 64 + 1, (csid - 64) / 256, (csid - 64) % 256]

/-- The payload cut into the pieces carried by successive chunks of size `c`:
`min(c, remaining)` bytes each, one empty piece for an empty payload. -/
def splitPayload (c : Nat) : Nat → List Nat → List (List Nat)
  | 0, _ => []
  | fuel + 1, p => if p.length ≤ c then [p] else p.take c :: splitPayload c fuel (p.drop c)

/-- A format-0 chunk: basic header, timestamp, message length, type, message
stream id, then a piece of the payload. -/
def fmt0Chunk (M : WireMessage) (piece : List Nat) : List Nat :=
  basicHeader 0 M.csid ++ (M.timestamp ++ u24be M.payload.length ++ [M.typeID] ++ (M.streamID ++ piece))

/-- A format-3 chunk: the basic header, then a piece of the payload. -/
def fmt3Chunk (M : WireMessage) (piece : List Nat) : List Nat :=
  basicHeader 3 M.csid ++ piece

/-- The chunks of a message for chunk size `c`: a format-0 chunk with the
first piece, then format-3 chunks with the next pieces. -/
def chunksOf (c : Nat) (M : WireMessage) : List (List Nat) :=
  match splitPayload c (M.payload.length + 1) M.payload with
  | [] => []
  | first :: more => fmt0Chunk M first :: more.map (fmt3Chunk M)

/-- The bytes of a list of chunks on the wire. -/
def wire : List (List Nat) → List Nat
  | [] => []
  | x :: xs => x ++ wire xs

/-- The list `zs` interleaves `xs` and `ys`, each kept in its own order. -/
inductive Interleave : List (List Nat) → List (List Nat) → List (List Nat) → Prop where
  | nil : Interleave [] [] []
  | left (x : List Nat) {xs ys zs : List (List Nat)} :
      Interleave xs ys zs → Interleave (x :: xs) ys (x :: zs)
  | right (y : List Nat) {xs ys zs : List (List Nat)} :
      Interleave xs ys zs → Interleave xs (y :: ys) (y :: zs)

/-- What a sender may assume of a message: a chunk stream id that has an
encoding, a 3-byte timestamp other than `FF FF FF`, a type other than "set
chunk size", a 4-byte stream id and a length that fits in 24 bits. -/
def WireMessage.ok (M : WireMessage) : Prop :=
  2 ≤ M.csid ∧ M.csid ≤ 65599 ∧ M.timestamp.length = 3 ∧ M.timestamp ≠ [255, 255, 255] ∧
    M.typeID ≠ 1 ∧ M.streamID.length = 4 ∧ M.payload.length < 2 ^ 24

/-- No message is in progress on the chunk stream: no slot yet, or a slot with
nothing left to receive and no writer. -/
def idle (s : rtmpStream) (csid : Nat) : Prop :=
  ∀ m, trackGet csid s.track = some m → m.remainingLength = 0 ∧ m.writer = none

/-- The pipe a decoder of the message reads when all of it has been written. -/
def WireMessage.pipe (M : WireMessage) : Pipe := { typeID := M.typeID, data := M.payload }

/-- The slot of a chunk stream while the message is being received: its
header, what is left to receive, and the writer. -/
def WireMessage.slot (M : WireMessage) (remaining : Nat) (writer : Option Pipe) : RTMPMessage :=
  { hdr := { Timestamp := M.timestamp, MessageLength := u24be M.payload.length, TypeID := M.typeID },
    headerOk := true, streamID := leNat M.streamID, remainingLength := remaining, writer := writer }

/-- The chunks `xs` are what is left to send of the message when the slot of
its chunk stream is `slot`: all of them before the first chunk, the format-3
chunks of the rest `q` of the payload when `d` has been written to the pipe,
none when the pipe has been closed. -/
def Pending (c : Nat) (M : WireMessage) (slot : Option RTMPMessage) (xs : List (List Nat)) : Prop :=
  ((∀ m, slot = some m → m.remainingLength = 0 ∧ m.writer = none) ∧ xs = chunksOf c M) ∨
  (∃ d q fuel, d ++ q = M.payload ∧ q ≠ [] ∧ q.length < fuel ∧
    slot = some (M.slot q.length (some (Pipe.mk M.typeID d))) ∧
    xs = (splitPayload c fuel q).map (fmt3Chunk M)) ∨
  (slot = some (M.slot 0 none) ∧ xs = [])

/-- The AMF0 encoding of `"connect"`, `1.0`, `{app: "live"}`, the map closed
by `00 00 09`. -/
def connectPayload : List Nat :=
  [2, 0, 7] ++ lit "connect" ++ [0, 0x3F, 0xF0, 0, 0, 0, 0, 0, 0] ++
    ([3, 0, 3] ++ lit "app" ++ [2, 0, 4] ++ lit "live" ++ [0, 0, 9])

/-- The AMF0 encoding of `"play"`, `2.0`, `"stream"`. -/
def playPayload : List Nat :=
  [2, 0, 4] ++ lit "play" ++ [0, 0x40, 0, 0, 0, 0, 0, 0, 0] ++ ([2, 0, 6] ++ lit "stream")

/-- The text of an error, as its method `Error` gives it. -/
def Err.text : Err → String
  | .EOF => "EOF"
  | .ErrUnexpectedEOF => "unexpected EOF"
  | .streamExiting => "stream exiting"
  | .readLengthFailed e => "read length failed: " ++ e.text
  | .readFoundStrFailed e => "read foundStr failed: " ++ e.text
  | .unknownType b => "unknown message object type " ++ toString b
  | .ChunkError Op e => Op ++ ": " ++ e.text
  | .missedHeader n => "dropping stream, we missed the header of chunkStreamID " ++ toString n

/-- Lines 177-182 of `processChunk`: a slot without a writer gets a new pipe,
whose decoder is started with the type of the header. -/
def openWriter (msg : RTMPMessage) : RTMPMessage :=
  if msg.writer.isNone then { msg with writer := some { typeID := msg.hdr.TypeID, data := [] } }
  else msg

/-- Lines 203-206 of `processChunk`: with nothing left to receive, the chunk
starts a message of the length given by the header. -/
def startMessage (msg : RTMPMessage) : RTMPMessage :=
  if msg.remainingLength = 0 then
    { msg with remainingLength := beNat msg.hdr.MessageLength % 2 ^ 32 }
  else msg

/-- Lines 229-234 of `processChunk`: the stream when the call returns nil. -/
def closeOut (s : rtmpStream) (chunkSize chunkStreamID : Nat) (msg6 : RTMPMessage) : rtmpStream :=
  if msg6.remainingLength = 0 then
    { s with chunkSize := chunkSize, closed := s.closed ++ msg6.writer.toList }.store
      chunkStreamID { msg6 with writer := none }
  else { s with chunkSize := chunkSize }.store chunkStreamID msg6

/-- Length of the basic header that starts with the byte `h`. -/
def basicHeaderLen (h : Nat) : Nat :=
  if h % 64 = 0 then 2 else if h % 64 = 1 then 3 else 1

/-- Length of the message header of a format: 11, 7, 3, 0. -/
def messageHeaderLen (fmt : Nat) : Nat :=
  if fmt = 0 then 11 else if fmt = 1 then 7 else if fmt = 2 then 3 else 0

/-! ## Scalar values on the wire (specification side) -/

/-- A value that is a number, a boolean or a string. -/
inductive Scalar where
  | num (bits : List Nat)
  | bool (b : Bool)
  | str (s : GoString)

/-- The AMF0 encoding of a scalar: tag 0x00 and the eight bytes of the double,
tag 0x01 and one byte, tag 0x02 and the string with its 16-bit length. -/
def Scalar.enc : Scalar → List Nat
  | .num bits => 0 :: bits
  | .bool b => [1, if b then 1 else 0]
  | .str s => 2 :: encKey s

/-- The value a scalar stands for. -/
def Scalar.value : Scalar → Value
  | .num bits => .num bits
  | .bool b => .bool b
  | .str s => .str s

/-- A scalar that can be encoded: a double has eight bytes, the length of a
string fits 16 bits. -/
def Scalar.ok : Scalar → Prop
  | .num bits => bits.length = 8
  | .bool _ => True
  | .str s => s.length < 65536

/-- A map entry with a scalar value, with its bytes. -/
def scalarEntry (x : GoString × Scalar) : MapEntry :=
  { key := x.1, bytes := x.2.enc, value := x.2.value }

/-! ## Sequences of encoded values (specification side) -/

/-- An encoded value: its bytes on the wire, and the value they stand for. -/
structure EncodedValue where
  bytes : List Nat
  value : Value

/-- The encodings of a list of values, one after the other. -/
def encValues : List EncodedValue → List Nat
  | [] => []
  | x :: xs => x.bytes ++ encValues xs

/-- The test `value == nil` on a decoded value. -/
def Value.isNull : Value → Bool
  | .null => true
  | _ => false

/-- The values `processNewMessage` appends to `vals`: those that are not nil. -/
def keptValues (items : List EncodedValue) : List Value :=
  (items.map (fun x => x.value)).filter (fun v => !v.isNull)

/-! ## Accounting of payload bytes (specification side) -/

/-- The chunk stream id `processChunk` reads from the basic header at the
front of `buf` (lines 117-143), `none` when the bytes are missing. -/
def chunkStreamIDOf (buf : List Nat) : Option Nat :=
  match readFull .EOF 1 buf with
  | .error _ => none
  | .ok (b1, buf1) =>
    match readChunkStreamID (b1.headI % 64) buf1 with
    | .error _ => none
    | .ok (chunkStreamID, _) => some chunkStreamID

/-- The message length declared by the header of a slot, as line 202 reads it. -/
def declaredLength (m : RTMPMessage) : Nat := beNat m.hdr.MessageLength % 2 ^ 32

/-- Account of one message: the length declared by the header in force when
the message began, and the bytes the "set chunk size" case (lines 215-223)
took from it, which are not written to the pipe. -/
structure Account where
  declared : Nat
  skipped : Nat
  deriving DecidableEq, Repr

/-- The accounts of a flow: of the message in progress on each chunk stream
(read by first match), and of the closed messages, oldest first. -/
structure Ledger where
  inProgress : List (Nat × Account)
  closed : List Account
  deriving DecidableEq, Repr

def Ledger.empty : Ledger := { inProgress := [], closed := [] }

def accountGet (chunkStreamID : Nat) : List (Nat × Account) → Option Account
  | [] => none
  | (k, a) :: rest => if chunkStreamID = k then some a else accountGet chunkStreamID rest

/-- The ledger after a call of `processChunk` on `buf` that took the stream
from `s` to `s1`. The call begins a message when nothing was left to receive
on the slot; it takes 4 bytes for the chunk size when the type is 1 and at
least 4 bytes are left; it closes the message when nothing is left after it. -/
def Ledger.record (l : Ledger) (s s1 : rtmpStream) (buf : List Nat) : Ledger :=
  match chunkStreamIDOf buf with
  | none => l
  | some csid =>
    let old := (trackGet csid s.track).getD RTMPMessage.empty
    let new := (trackGet csid s1.track).getD RTMPMessage.empty
    let start := if old.remainingLength = 0 then declaredLength new else old.remainingLength
    let begun : Account :=
      if old.remainingLength = 0 then { declared := declaredLength new, skipped := 0 }
      else (accountGet csid l.inProgress).getD { declared := 0, skipped := 0 }
    let a : Account :=
      { declared := begun.declared,
        skipped := begun.skipped + (if new.hdr.TypeID = 1 ∧ start ≥ 4 then 4 else 0) }
    if new.remainingLength = 0 then { l with closed := l.closed ++ [a] }
    else { l with inProgress := (csid, a) :: l.inProgress }

/-- The ledger of `n` calls of `processChunk`, beside `processChunks`. -/
def ledgerOf : Nat → rtmpStream → List Nat → Ledger → Ledger
  | 0, _, _, l => l
  | n + 1, s, buf, l =>
    match processChunk s buf with
    | (some _, _, _) => l
    | (none, s1, buf1) => ledgerOf n s1 buf1 (l.record s s1 buf)

/-- The ledger agrees with the stream: each closed pipe holds the declared
length of its message less the skipped bytes, each message in progress has a
writer and an account that adds up, and no byte is skipped while no header of
type 1 has been stored. -/
def Accounted (s : rtmpStream) (l : Ledger) : Prop :=
  List.Forall₂ (fun p a => p.data.length + a.skipped = a.declared) s.closed l.closed ∧
  (∀ csid m, trackGet csid s.track = some m →
    (m.remainingLength = 0 → m.writer = none) ∧
    (m.remainingLength ≠ 0 → ∃ p a, m.writer = some p ∧ accountGet csid l.inProgress = some a ∧
      p.data.length + a.skipped + m.remainingLength = a.declared)) ∧
  ((∀ c m, (c, m) ∈ s.track → m.hdr.TypeID ≠ 1) →
    (∀ a ∈ l.closed, a.skipped = 0) ∧ ∀ c a, (c, a) ∈ l.inProgress → a.skipped = 0)

/-! ## Theorems: the command collator -/

theorem RTMPDumpCommand_complete (fmtOther : Value → GoString) (c : MessageFinalizer)
    (h : c.complete = true) :
    ∃ cmd, RTMPDumpCommand fmtOther c = { c with r := c.r ++ [cmd] } := by
  unfold RTMPDumpCommand
  simp only [h, not_true_eq_false, if_false]
  exact ⟨_, rfl⟩

theorem addCapture_ok (c c0 : MessageFinalizer) (d : List Value)
    (h : addCapture c d = .ok c0) : c0.r = c.r ∧ c0.complete = c.complete := by
  unfold addCapture at h
  repeat' split at h
  all_goals first
    | (injection h with h; subst h; exact ⟨rfl, rfl⟩)
    | (exact absurd h (by simp))

/-- What `add` does when it returns: the capture, then at most one send. -/
theorem add_ok_cases (fmtOther : Value → GoString) (c c1 : MessageFinalizer) (d : List Value)
    (h : add fmtOther c d = .ok c1) :
    ∃ c0 : MessageFinalizer, c0.r = c.r ∧ c0.complete = c.complete ∧
      (c1 = c0 ∨ (c.complete = false ∧ c0.connect.isSome ∧ c0.play.length > 0 ∧
        c1 = RTMPDumpCommand fmtOther { c0 with complete := true })) := by
  unfold add at h
  split at h
  · exact ⟨c, rfl, rfl, Or.inl (by injection h with h; exact h.symm)⟩
  · split at h
    · exact absurd h (by simp)
    · rename_i c0 hcap
      have hc0 := addCapture_ok c c0 d hcap
      refine ⟨c0, hc0.1, hc0.2, ?_⟩
      split at h
      · rename_i h1
        right
        injection h with h
        refine ⟨?_, h1.2.1, h1.2.2, h.symm⟩
        have := h1.1
        rw [hc0.2] at this
        simpa using this
      · left
        injection h with h
        exact h.symm

theorem add_keeps_bound (fmtOther : Value → GoString) (c c1 : MessageFinalizer) (d : List Value)
    (h : add fmtOther c d = .ok c1) (hinv : (c.complete = false → c.r = []) ∧ c.r.length ≤ 1) :
    (c1.complete = false → c1.r = []) ∧ c1.r.length ≤ 1 := by
  obtain ⟨c0, hr, hc, hcase⟩ := add_ok_cases fmtOther c c1 d h
  rcases hcase with h1 | ⟨hf, -, -, h1⟩
  · subst h1
    rw [hr, hc]
    exact hinv
  · obtain ⟨cmd, hcmd⟩ := RTMPDumpCommand_complete fmtOther { c0 with complete := true } rfl
    rw [hcmd] at h1
    subst h1
    simp [hr, hinv.1 hf]

theorem addSeq_keeps_bound (fmtOther : Value → GoString) (ds : List (List Value)) :
    ∀ c : MessageFinalizer, ((c.complete = false → c.r = []) ∧ c.r.length ≤ 1) →
      (((addSeq fmtOther c ds).complete = false → (addSeq fmtOther c ds).r = []) ∧
        (addSeq fmtOther c ds).r.length ≤ 1) := by
  induction ds with
  | nil => intro c h; exact h
  | cons d ds ih =>
    intro c h
    unfold addSeq
    split
    · exact h
    · rename_i c1 hadd
      exact ih c1 (add_keeps_bound fmtOther c c1 d hadd h)

theorem add_after_complete (fmtOther : Value → GoString) (c c1 : MessageFinalizer) (d : List Value)
    (hc : c.complete = true) (h : add fmtOther c d = .ok c1) :
    c1.complete = true ∧ c1.r = c.r := by
  obtain ⟨c0, hr, hc0, hcase⟩ := add_ok_cases fmtOther c c1 d h
  rcases hcase with h1 | ⟨hf, -⟩
  · subst h1
    exact ⟨hc0.trans hc, hr⟩
  · rw [hc] at hf
    exact absurd hf (by simp)

theorem addSeq_after_complete (fmtOther : Value → GoString) (ds : List (List Value)) :
    ∀ c : MessageFinalizer, c.complete = true →
      (addSeq fmtOther c ds).complete = true ∧ (addSeq fmtOther c ds).r = c.r := by
  induction ds with
  | nil => intro c h; exact ⟨h, rfl⟩
  | cons d ds ih =>
    intro c h
    unfold addSeq
    split
    · exact ⟨h, rfl⟩
    · rename_i c1 hadd
      obtain ⟨h1, h2⟩ := add_after_complete fmtOther c c1 d h hadd
      obtain ⟨h3, h4⟩ := ih c1 h1
      exact ⟨h3, h4.trans h2⟩

/-- C4: for every sequence of `add` calls on a collator in its initial state at
most one string is sent on the output channel, and from a collator whose
`complete` flag is set every further sequence of calls leaves the flag set and
sends nothing. -/
theorem add_sends_at_most_once (fmtOther : Value → GoString) (ds : List (List Value)) :
    (addSeq fmtOther MessageFinalizer.init ds).r.length ≤ 1 ∧
      ∀ c : MessageFinalizer, c.complete = true →
        (addSeq fmtOther c ds).complete = true ∧ (addSeq fmtOther c ds).r = c.r :=
  ⟨(addSeq_keeps_bound fmtOther ds MessageFinalizer.init ⟨fun _ => rfl, by simp [MessageFinalizer.init]⟩).2,
    addSeq_after_complete fmtOther ds⟩

theorem lit_play_ne_connect : lit "play" ≠ lit "connect" := by decide

/-- C5: from the initial collator, `connect` with a map followed by `play` with
a non-empty target, and the same two calls in the other order, each send
nothing in the first call and exactly one string in the second, the same
string in both orders. -/
theorem connect_play_either_order (fmtOther : Value → GoString) (m : List (GoString × Value))
    (s : GoString) (t1 t2 : Value) (hs : s ≠ []) :
    ∃ (cmd : GoString) (ca cb cp cq : MessageFinalizer),
      add fmtOther MessageFinalizer.init [.str (lit "connect"), t1, .map m] = .ok ca ∧ ca.r = [] ∧
      add fmtOther ca [.str (lit "play"), t2, .str s] = .ok cb ∧ cb.r = [cmd] ∧
      add fmtOther MessageFinalizer.init [.str (lit "play"), t2, .str s] = .ok cp ∧ cp.r = [] ∧
      add fmtOther cp [.str (lit "connect"), t1, .map m] = .ok cq ∧ cq.r = [cmd] := by
  have hlen : 0 < s.length := List.length_pos.mpr hs
  have hne := lit_play_ne_connect
  obtain ⟨cmd, hcmd⟩ := RTMPDumpCommand_complete fmtOther
    { r := [], complete := true, connect := some m, play := s } rfl
  refine ⟨cmd, { MessageFinalizer.init with connect := some m },
    { r := [cmd], complete := true, connect := some m, play := s },
    { MessageFinalizer.init with play := s },
    { r := [cmd], complete := true, connect := some m, play := s }, ?_, rfl, ?_, rfl, ?_, rfl, ?_, rfl⟩
  · simp [add, addCapture, MessageFinalizer.init]
  · simp [add, addCapture, MessageFinalizer.init, hne, hlen, hcmd]
  · simp [add, addCapture, MessageFinalizer.init, hne]
  · simp [add, addCapture, MessageFinalizer.init, hlen, hcmd]

theorem connect_play_either_order_witness :
    lit "stream" ≠ [] ∧
    ∃ (cmd : GoString) (ca cb cp cq : MessageFinalizer),
      add (fun _ => []) MessageFinalizer.init
        [.str (lit "connect"), .num [63, 240, 0, 0, 0, 0, 0, 0], .map [(lit "app", .str (lit "live"))]] = .ok ca ∧
      ca.r = [] ∧
      add (fun _ => []) ca [.str (lit "play"), .num [64, 0, 0, 0, 0, 0, 0, 0], .str (lit "stream")] = .ok cb ∧
      cb.r = [cmd] ∧
      add (fun _ => []) MessageFinalizer.init
        [.str (lit "play"), .num [64, 0, 0, 0, 0, 0, 0, 0], .str (lit "stream")] = .ok cp ∧
      cp.r = [] ∧
      add (fun _ => []) cp
        [.str (lit "connect"), .num [63, 240, 0, 0, 0, 0, 0, 0], .map [(lit "app", .str (lit "live"))]] = .ok cq ∧
      cq.r = [cmd] :=
  ⟨by decide, connect_play_either_order (fun _ => []) [(lit "app", .str (lit "live"))] (lit "stream")
    (.num [63, 240, 0, 0, 0, 0, 0, 0]) (.num [64, 0, 0, 0, 0, 0, 0, 0]) (by decide)⟩

/-- C8 (fails on the code): a `connect` command with no argument at index 2
makes `add` stop on an index out of range, and one whose argument at index 2
is a number, a boolean, a string, an array or nil makes it stop on the failed
type assertion, whatever the collator. -/
theorem add_connect_without_map_faults (fmtOther : Value → GoString) (c : MessageFinalizer)
    (t : Value) (bits : List Nat) (b : Bool) (s : GoString) (a : List Value) :
    add fmtOther c [.str (lit "connect"), t] = .error (.indexOutOfRange 2 2) ∧
    add fmtOther c [.str (lit "connect"), t, .num bits] = .error .interfaceConversion ∧
    add fmtOther c [.str (lit "connect"), t, .bool b] = .error .interfaceConversion ∧
    add fmtOther c [.str (lit "connect"), t, .str s] = .error .interfaceConversion ∧
    add fmtOther c [.str (lit "connect"), t, .arr a] = .error .interfaceConversion ∧
    add fmtOther c [.str (lit "connect"), t, .null] = .error .interfaceConversion := by
  simp [add, addCapture]

/-! ### The order of the flags -/

theorem strLe_refl (a : GoString) : strLe a a = true := by
  induction a with
  | nil => rfl
  | cons x xs ih => simp [strLe, ih]

theorem strLe_total (a : GoString) : ∀ b : GoString, strLe a b = true ∨ strLe b a = true := by
  induction a with
  | nil => intro b; left; cases b <;> rfl
  | cons x xs ih =>
    intro b
    cases b with
    | nil => right; rfl
    | cons y ys =>
      simp only [strLe]
      rcases Nat.lt_trichotomy x y with h | h | h
      · left; simp [h]
      · subst h; simpa using ih ys
      · right; simp [h]

theorem strLe_trans (a : GoString) :
    ∀ b c : GoString, strLe a b = true → strLe b c = true → strLe a c = true := by
  induction a with
  | nil => intro b c _ _; cases c <;> rfl
  | cons x xs ih =>
    intro b c hab hbc
    cases b with
    | nil => simp [strLe] at hab
    | cons y ys =>
      cases c with
      | nil => simp [strLe] at hbc
      | cons z zs =>
        simp only [strLe] at hab hbc ⊢
        split_ifs at hab hbc ⊢ <;> first
          | rfl
          | omega
          | (have hxy : x = y := by omega
             have hyz : y = z := by omega
             exact ih ys zs hab hbc)

theorem strLe_antisymm (a : GoString) :
    ∀ b : GoString, strLe a b = true → strLe b a = true → a = b := by
  induction a with
  | nil => intro b _ hba; cases b with
    | nil => rfl
    | cons y ys => simp [strLe] at hba
  | cons x xs ih =>
    intro b hab hba
    cases b with
    | nil => simp [strLe] at hab
    | cons y ys =>
      simp only [strLe] at hab hba
      split_ifs at hab hba <;> first
        | omega
        | (have hxy : x = y := by omega
           rw [hxy, ih ys hab hba])

instance strLe_isTotal : IsTotal GoString (fun a b => strLe a b = true) := ⟨strLe_total⟩

instance strLe_isTrans : IsTrans GoString (fun a b => strLe a b = true) := ⟨strLe_trans⟩

instance strLe_isAntisymm : IsAntisymm GoString (fun a b => strLe a b = true) := ⟨strLe_antisymm⟩

theorem mem_sortedKeys {β : Type} (m : List (GoString × β)) (k : GoString) :
    k ∈ sortedKeys m ↔ (mapGet k m).isSome = true := by
  unfold sortedKeys
  rw [(List.perm_insertionSort _ _).mem_iff, List.mem_dedup]
  induction m with
  | nil => simp [mapGet]
  | cons p rest ih =>
    obtain ⟨k1, v⟩ := p
    simp only [List.map_cons, List.mem_cons, mapGet]
    by_cases h : k = k1
    · simp [h]
    · simp [h, ih]

theorem sortedKeys_filter {β : Type} (m : List (GoString × β)) :
    (sortedKeys m).filter (fun k => decide (k ∈ flagKeys)) =
      flagKeys.filter (fun k => decide (k ∈ sortedKeys m)) := by
  have hs : List.Sorted (fun a b => strLe a b = true) (sortedKeys m) := List.sorted_insertionSort _ _
  have hn : (sortedKeys m).Nodup := (List.perm_insertionSort _ _).nodup_iff.mpr (List.nodup_dedup _)
  have hs4 : List.Sorted (fun a b => strLe a b = true) flagKeys := by
    unfold flagKeys List.Sorted
    decide
  have hn4 : flagKeys.Nodup := by
    unfold flagKeys
    decide
  refine List.eq_of_perm_of_sorted ?_ (hs.filter _) (hs4.filter _)
  rw [List.perm_ext_iff_of_nodup (hn.filter _) (hn4.filter _)]
  intro a
  simp only [List.mem_filter, decide_eq_true_eq]
  exact And.comm

theorem flagFor_append (fmtOther : Value → GoString) (c : MessageFinalizer) (cmd k : GoString) :
    flagFor fmtOther c cmd k = cmd ++ flagFor fmtOther c [] k := by
  unfold flagFor
  simp only
  split_ifs <;> simp

theorem foldl_flagFor (fmtOther : Value → GoString) (c : MessageFinalizer) (ks : List GoString) :
    ∀ cmd : GoString, ks.foldl (flagFor fmtOther c) cmd =
      cmd ++ ks.foldr (fun k acc => flagFor fmtOther c [] k ++ acc) [] := by
  induction ks with
  | nil => intro cmd; simp
  | cons k ks ih =>
    intro cmd
    rw [List.foldl_cons, ih, flagFor_append, List.foldr_cons, List.append_assoc]

theorem flagFor_other (fmtOther : Value → GoString) (c : MessageFinalizer) (k : GoString)
    (h : k ∉ flagKeys) : flagFor fmtOther c [] k = [] := by
  simp only [flagKeys, List.mem_cons, List.mem_singleton, List.not_mem_nil, or_false, not_or] at h
  unfold flagFor
  simp [h.1, h.2.1, h.2.2.1, h.2.2.2]

theorem foldr_flagFor_filter (fmtOther : Value → GoString) (c : MessageFinalizer) (ks : List GoString) :
    ks.foldr (fun k acc => flagFor fmtOther c [] k ++ acc) [] =
      (ks.filter (fun k => decide (k ∈ flagKeys))).foldr (fun k acc => flagFor fmtOther c [] k ++ acc) [] := by
  induction ks with
  | nil => rfl
  | cons k ks ih =>
    by_cases h : k ∈ flagKeys
    · simp [List.filter_cons, h, ih]
    · simp [List.filter_cons, h, ih, flagFor_other fmtOther c k h]

theorem flags_in_order (fmtOther : Value → GoString) (c : MessageFinalizer)
    (m : List (GoString × Value)) (hm : c.connect = some m) :
    (flagKeys.filter (fun k => decide (k ∈ sortedKeys m))).foldr
        (fun k acc => flagFor fmtOther c [] k ++ acc) [] =
      optFlag fmtOther m (lit "a") (lit "app") ++ (optFlag fmtOther m (lit "f") (lit "flashVer") ++
        (optFlag fmtOther m (lit "p") (lit "pageUrl") ++ optFlag fmtOther m (lit "t") (lit "tcUrl"))) := by
  have n1 : lit "flashVer" ≠ lit "app" := by decide
  have n2 : lit "flashVer" ≠ lit "tcUrl" := by decide
  have n3 : lit "flashVer" ≠ lit "pageUrl" := by decide
  have n4 : lit "pageUrl" ≠ lit "app" := by decide
  have n5 : lit "pageUrl" ≠ lit "tcUrl" := by decide
  have n6 : lit "tcUrl" ≠ lit "app" := by decide
  rcases h1 : mapGet (lit "app") m with _ | v1 <;>
  rcases h2 : mapGet (lit "flashVer") m with _ | v2 <;>
  rcases h3 : mapGet (lit "pageUrl") m with _ | v3 <;>
  rcases h4 : mapGet (lit "tcUrl") m with _ | v4 <;>
  simp [flagKeys, List.filter_cons, mem_sortedKeys, optFlag, flagFor, connectShow, addFlag, hm,
    h1, h2, h3, h4, n1, n2, n3, n4, n5, n6]

/-- C6: for a complete collator holding the connect map `m` (no key of which
is bound to the nil interface, as in every map built by `readMap`) and the
play target `s`, `RTMPDumpCommand` sends the string `rtmpdump`, ` -r '<tcUrl>'`
when `m` has `tcUrl`, ` -y '<s>'`, then ` -a '<app>'`, ` -f '<flashVer>'`,
` -p '<pageUrl>'`, ` -t '<tcUrl>'` for the keys `m` has, in that order, then
` -R -o '<filename>'`; no other key adds anything. -/
theorem RTMPDumpCommand_spec (fmtOther : Value → GoString) (c : MessageFinalizer)
    (m : List (GoString × Value)) (hc : c.complete = true) (hm : c.connect = some m)
    (hnull : ∀ k, mapGet k m ≠ some .null) :
    RTMPDumpCommand fmtOther c = { c with r := c.r ++ [specCommand fmtOther m c.play] } := by
  have hr : (match connectGet c (lit "tcUrl") with
      | some tc => lit "rtmpdump" ++ lit " -r \'" ++ sprintV fmtOther tc ++ lit "\'"
      | none => lit "rtmpdump") = lit "rtmpdump" ++ optFlag fmtOther m (lit "r") (lit "tcUrl") := by
    unfold connectGet optFlag
    rw [hm]
    simp only
    rcases h : mapGet (lit "tcUrl") m with _ | v
    · simp
    · cases v with
      | null => exact absurd h (hnull _)
      | _ => simp [lit]
  unfold RTMPDumpCommand
  simp only [hc, not_true_eq_false, if_false]
  rw [hr, foldl_flagFor, foldr_flagFor_filter]
  have hk : connectKeys c = sortedKeys m := by simp [connectKeys, hm]
  rw [hk, sortedKeys_filter, flags_in_order fmtOther c m hm]
  simp [specCommand, addFlag, makeFilename, MessageFinalizer.init, lit]

theorem RTMPDumpCommand_spec_witness :
    RTMPDumpCommand (fun _ => [])
        { r := [], complete := true, play := lit "s",
          connect := some [(lit "tcUrl", .str (lit "rtmp://host/app")), (lit "x", .bool true),
            (lit "app", .str (lit "app"))] } =
      { r := [lit "rtmpdump -r \'rtmp://host/app\' -y \'s\' -a \'app\' -t \'rtmp://host/app\' -R -o \'s\'"],
        complete := true, play := lit "s",
        connect := some [(lit "tcUrl", .str (lit "rtmp://host/app")), (lit "x", .bool true),
            (lit "app", .str (lit "app"))] } :=
  (RTMPDumpCommand_spec (fun _ => [])
    { r := [], complete := true, play := lit "s",
      connect := some [(lit "tcUrl", .str (lit "rtmp://host/app")), (lit "x", .bool true),
        (lit "app", .str (lit "app"))] }
    [(lit "tcUrl", .str (lit "rtmp://host/app")), (lit "x", .bool true), (lit "app", .str (lit "app"))]
    rfl rfl (by
      intro k h
      simp only [mapGet] at h
      split_ifs at h <;> simp at h)).trans (by rfl)

/-! ## Theorems: the AMF0 decoder -/

theorem readFull_ok (e : Err) (n : Nat) (i a r : List Nat) (h : readFull e n i = .ok (a, r)) :
    i = a ++ r ∧ a.length = n := by
  unfold readFull at h
  split_ifs at h with h0 h1 h2
  · injection h with h
    injection h with ha hr
    subst ha hr h0
    exact ⟨rfl, rfl⟩
  · injection h with h
    injection h with ha hr
    subst ha hr
    exact ⟨(List.take_append_drop n i).symm, List.length_take_of_le h1⟩

theorem readFull_ok_length (e : Err) (n : Nat) (i a r : List Nat) (h : readFull e n i = .ok (a, r)) :
    r.length + n = i.length := by
  obtain ⟨h1, h2⟩ := readFull_ok e n i a r h
  rw [h1, List.length_append, h2]
  omega

theorem readFull_append (e : Err) (a r : List Nat) : readFull e a.length (a ++ r) = .ok (a, r) := by
  unfold readFull
  split_ifs with h0 h1 h2
  · rw [List.length_eq_zero] at h0
    subst h0
    rfl
  · simp
  · simp at h1
  · simp at h1

theorem readString_ok_length (e : Err) (i s r : List Nat) (h : readString e i = .ok (s, r)) :
    r.length + 2 ≤ i.length := by
  unfold readString at h
  split at h
  · exact absurd h (by simp)
  · rename_i l i1 h1
    split at h
    · exact absurd h (by simp)
    · rename_i fs i2 h2
      injection h with h
      injection h with hs hr
      subst hr
      have := readFull_ok_length _ _ _ _ _ h1
      have := readFull_ok_length _ _ _ _ _ h2
      omega

/-- Every successful decoding step uses up input: at least the tag byte of a
value, at least the last key and the end marker of a map. -/
theorem decode_progress (e : Err) : ∀ f : Nat,
    (∀ i v r, nextObjectF e f i = .ok v r → r.length < i.length) ∧
    (∀ m i m1 r, readMapF e f m i = .ok m1 r → r.length < i.length) ∧
    (∀ n a i a1 r, readArrayF e f n a i = .ok a1 r → r.length ≤ i.length) := by
  intro f
  induction f with
  | zero => simp [nextObjectF, readMapF, readArrayF]
  | succ f ih =>
    obtain ⟨ihN, ihM, ihA⟩ := ih
    refine ⟨?_, ?_, ?_⟩
    · intro i v r h
      simp only [nextObjectF] at h
      split at h
      · exact absurd h (by simp)
      · rename_i b i1 hb
        have hb1 := readFull_ok_length _ _ _ _ _ hb
        split_ifs at h
        · split at h
          · exact absurd h (by simp)
          · rename_i x i2 h2
            have := readFull_ok_length _ _ _ _ _ h2
            injection h with _ hr
            subst hr
            omega
        · split at h
          · exact absurd h (by simp)
          · rename_i x i2 h2
            have := readFull_ok_length _ _ _ _ _ h2
            split_ifs at h <;> (injection h with _ hr; subst hr; omega)
        · split at h
          · exact absurd h (by simp)
          · rename_i x i2 h2
            have := readString_ok_length _ _ _ _ h2
            injection h with _ hr
            subst hr
            omega
        · split at h
          · rename_i m i2 h2
            have := ihM _ _ _ _ h2
            injection h with _ hr
            subst hr
            omega
          · exact absurd h (by simp)
          · exact absurd h (by simp)
        · injection h with _ hr
          subst hr
          omega
        · split at h
          · exact absurd h (by simp)
          · rename_i x i2 h2
            have := readFull_ok_length _ _ _ _ _ h2
            split at h
            · rename_i a i3 h3
              have := ihA _ _ _ _ _ h3
              injection h with _ hr
              subst hr
              omega
            · exact absurd h (by simp)
            · exact absurd h (by simp)
        · injection h with _ hr
          subst hr
          omega
    · intro m i m1 r h
      simp only [readMapF] at h
      split at h
      · exact absurd h (by simp)
      · rename_i key i1 h1
        have := readString_ok_length _ _ _ _ h1
        split at h
        · exact absurd h (by simp)
        · exact absurd h (by simp)
        · rename_i i2 h2
          have := ihN _ _ _ h2
          injection h with _ hr
          subst hr
          omega
        · rename_i value i2 _ h2
          have := ihN _ _ _ h2
          have := ihM _ _ _ _ h
          omega
    · intro n a i a1 r h
      cases n with
      | zero =>
        simp only [readArrayF] at h
        injection h with _ hr
        subst hr
        exact le_refl _
      | succ n =>
        simp only [readArrayF] at h
        split at h
        · exact absurd h (by simp)
        · exact absurd h (by simp)
        · rename_i item i1 h1
          have := ihN _ _ _ h1
          have := ihA _ _ _ _ _ h
          omega

theorem readMapF_succ (e : Err) (f : Nat) (v : List (GoString × Value)) (input : List Nat) :
    readMapF e (f + 1) v input =
      match readString e input with
      | .error e => .err e
      | .ok (key, input1) =>
        match nextObjectF e f input1 with
        | .err e => .err e
        | .fuel => .fuel
        | .ok .null input2 => .ok v input2
        | .ok value input2 => readMapF e f ((key, value) :: v) input2 := by
  rw [readMapF]

theorem readArrayF_succ (e : Err) (f todo : Nat) (array : List Value) (input : List Nat) :
    readArrayF e (f + 1) (todo + 1) array input =
      match nextObjectF e f input with
      | .err e => .err e
      | .fuel => .fuel
      | .ok item input1 => readArrayF e f todo (array ++ [item]) input1 := by
  rw [readArrayF]

/-- One more unit of fuel does not change a result that was reached. -/
theorem decode_fuel_step (e : Err) : ∀ f : Nat,
    (∀ i, nextObjectF e f i = .fuel ∨ nextObjectF e (f + 1) i = nextObjectF e f i) ∧
    (∀ m i, readMapF e f m i = .fuel ∨ readMapF e (f + 1) m i = readMapF e f m i) ∧
    (∀ n a i, readArrayF e f n a i = .fuel ∨ readArrayF e (f + 1) n a i = readArrayF e f n a i) := by
  intro f
  induction f with
  | zero => simp [nextObjectF, readMapF, readArrayF]
  | succ f ih =>
    obtain ⟨ihN, ihM, ihA⟩ := ih
    refine ⟨?_, ?_, ?_⟩
    · intro i
      rcases hb : readFull e 1 i with err | ⟨b, i1⟩
      · right
        simp only [nextObjectF, hb]
      · by_cases h3 : b = [3]
        · subst h3
          rcases ihM [] i1 with h | h
          · left
            simp [nextObjectF, hb, h]
          · right
            simp [nextObjectF, hb, h]
        · by_cases h8 : b = [8]
          · subst h8
            rcases hl : readFull e 4 i1 with err | ⟨al, i2⟩
            · right
              simp [nextObjectF, hb, hl]
            · rcases ihA (beNat al) (List.replicate (beNat al) .null) i2 with h | h
              · left
                simp [nextObjectF, hb, hl, h]
              · right
                simp [nextObjectF, hb, hl, h]
          · right
            simp [nextObjectF, hb, h3, h8]
    · intro m i
      rw [readMapF_succ e (f + 1) m i, readMapF_succ e f m i]
      rcases hs : readString e i with err | ⟨key, i1⟩
      · right
        rfl
      · rcases ihN i1 with h | h
        · left
          simp only [h]
        · rcases hv : nextObjectF e f i1 with ⟨v, i2⟩ | err | _
          · rw [hv] at h
            simp only [h, hv]
            cases v with
            | null => right; rfl
            | num bits => exact ihM ((key, .num bits) :: m) i2
            | bool b => exact ihM ((key, .bool b) :: m) i2
            | str x => exact ihM ((key, .str x) :: m) i2
            | map x => exact ihM ((key, .map x) :: m) i2
            | arr x => exact ihM ((key, .arr x) :: m) i2
          · rw [hv] at h
            right
            simp only [h, hv]
          · left
            simp only [hv]
    · intro n a i
      cases n with
      | zero => right; simp [readArrayF]
      | succ n =>
        rw [readArrayF_succ e (f + 1) n a i, readArrayF_succ e f n a i]
        rcases ihN i with h | h
        · left
          simp only [h]
        · rcases hv : nextObjectF e f i with ⟨v, i1⟩ | err | _
          · rw [hv] at h
            simp only [h, hv]
            exact ihA n (a ++ [v]) i1
          · rw [hv] at h
            right
            simp only [h, hv]
          · left
            simp only [hv]

/-- Fuel above the length of the input is never used up. -/
theorem decode_fuel_enough (e : Err) : ∀ f : Nat,
    (∀ i, i.length < f → nextObjectF e f i ≠ .fuel) ∧
    (∀ m i, i.length < f → readMapF e f m i ≠ .fuel) ∧
    (∀ n a i, i.length + 1 < f → readArrayF e f n a i ≠ .fuel) := by
  intro f
  induction f with
  | zero => simp
  | succ f ih =>
    obtain ⟨ihN, ihM, ihA⟩ := ih
    refine ⟨?_, ?_, ?_⟩
    · intro i hi
      rcases hb : readFull e 1 i with err | ⟨b, i1⟩
      · simp [nextObjectF, hb]
      · have hb1 := readFull_ok_length _ _ _ _ _ hb
        by_cases h3 : b = [3]
        · subst h3
          have := ihM [] i1 (by omega)
          rcases hm : readMapF e f [] i1 with ⟨v, i2⟩ | err | _
          · simp [nextObjectF, hb, hm]
          · simp [nextObjectF, hb, hm]
          · exact absurd hm this
        · by_cases h8 : b = [8]
          · subst h8
            rcases hl : readFull e 4 i1 with err | ⟨al, i2⟩
            · simp [nextObjectF, hb, hl]
            · have hl1 := readFull_ok_length _ _ _ _ _ hl
              have := ihA (beNat al) (List.replicate (beNat al) .null) i2 (by omega)
              rcases ha : readArrayF e f (beNat al) (List.replicate (beNat al) .null) i2 with ⟨v, i3⟩ | err | _
              · simp [nextObjectF, hb, hl, ha]
              · simp [nextObjectF, hb, hl, ha]
              · exact absurd ha this
          · simp only [nextObjectF, hb, h3, h8, if_false]
            split_ifs <;> (try split) <;> (try split_ifs) <;> simp
    · intro m i hi
      rcases hs : readString e i with err | ⟨key, i1⟩
      · simp [readMapF, hs]
      · have hs1 := readString_ok_length _ _ _ _ hs
        have hN := ihN i1 (by omega)
        rcases hv : nextObjectF e f i1 with ⟨v, i2⟩ | err | _
        · have hp := (decode_progress e f).1 _ _ _ hv
          have hM := fun m1 => ihM m1 i2 (by omega)
          cases v <;> simp [readMapF, hs, hv, hM]
        · simp [readMapF, hs, hv]
        · exact absurd hv hN
    · intro n a i hi
      cases n with
      | zero => simp [readArrayF]
      | succ n =>
        have hN := ihN i (by omega)
        rcases hv : nextObjectF e f i with ⟨v, i1⟩ | err | _
        · have hp := (decode_progress e f).1 _ _ _ hv
          have hA := ihA n (a ++ [v]) i1 (by omega)
          simp [readArrayF, hv, hA]
        · simp [readArrayF, hv]
        · exact absurd hv hN

theorem nextObjectF_of_le (e : Err) (i : List Nat) (f : Nat) (h : nextObjectF e f i ≠ .fuel) :
    ∀ g, f ≤ g → nextObjectF e g i = nextObjectF e f i := by
  intro g hg
  induction g, hg using Nat.le_induction with
  | base => rfl
  | succ g _ ih =>
    rcases (decode_fuel_step e g).1 i with h1 | h1
    · rw [ih] at h1
      exact absurd h1 h
    · rw [h1, ih]

theorem readMapF_of_le (e : Err) (m : List (GoString × Value)) (i : List Nat) (f : Nat)
    (h : readMapF e f m i ≠ .fuel) : ∀ g, f ≤ g → readMapF e g m i = readMapF e f m i := by
  intro g hg
  induction g, hg using Nat.le_induction with
  | base => rfl
  | succ g _ ih =>
    rcases (decode_fuel_step e g).2.1 m i with h1 | h1
    · rw [ih] at h1
      exact absurd h1 h
    · rw [h1, ih]

/-- The function `nextObject` always returns: the fuel it starts with is
never used up. -/
theorem nextObject_returns (e : Err) (i : List Nat) : nextObject e i ≠ .fuel :=
  (decode_fuel_enough e (i.length + 1)).1 i (Nat.lt_succ_self _)

/-- The function `readMap` always returns. -/
theorem readMap_returns (e : Err) (i : List Nat) : readMap e i ≠ .fuel :=
  (decode_fuel_enough e (i.length + 1)).2.1 [] i (Nat.lt_succ_self _)

theorem nextObjectF_eq (e : Err) (i : List Nat) (f : Nat) (h : i.length < f) :
    nextObjectF e f i = nextObject e i :=
  nextObjectF_of_le e i (i.length + 1) (nextObject_returns e i) f h

theorem readMapF_eq (e : Err) (m : List (GoString × Value)) (i : List Nat) (f : Nat)
    (h : i.length < f) : readMapF e f m i = readMapF e (i.length + 1) m i :=
  readMapF_of_le e m i (i.length + 1)
    ((decode_fuel_enough e (i.length + 1)).2.1 m i (Nat.lt_succ_self _)) f h

theorem beNat_u16be (n : Nat) (h : n < 65536) : beNat (u16be n) = n := by
  simp only [u16be, beNat, List.length_cons, List.length_nil]
  omega

theorem readString_encKey (e : Err) (k r : List Nat) (h : k.length < 65536) :
    readString e (encKey k ++ r) = .ok (k, r) := by
  have h1 : readFull e 2 (u16be k.length ++ (k ++ r)) = .ok (u16be k.length, k ++ r) :=
    readFull_append e (u16be k.length) (k ++ r)
  unfold readString encKey
  rw [List.append_assoc, h1]
  simp only [beNat_u16be _ h]
  rw [readFull_append]

theorem nextObjectF_null (e : Err) (f : Nat) (i r : List Nat)
    (h : nextObjectF e f i = .ok .null r) : i.head? = some 5 ∨ i.head? = some 9 := by
  cases f with
  | zero => simp [nextObjectF] at h
  | succ f =>
    simp only [nextObjectF] at h
    split at h
    · exact absurd h (by simp)
    · rename_i b i1 hb
      obtain ⟨hi, hlen⟩ := readFull_ok _ _ _ _ _ hb
      split_ifs at h with h0 h1 h2 h3 h5 h8 h9
      · split at h <;> simp at h
      · split at h
        · simp at h
        · split_ifs at h <;> simp at h
      · split at h <;> simp at h
      · split at h <;> simp at h
      · left
        rw [hi, h5]
        rfl
      · split at h
        · simp at h
        · split at h <;> simp at h
      · right
        rw [hi, h9]
        rfl

theorem nextObjectF_end (e : Err) (f : Nat) (t : Nat) (r : List Nat) (ht : t = 5 ∨ t = 9) :
    nextObjectF e (f + 1) (t :: r) = .ok .null r := by
  rcases ht with h | h <;> subst h <;> simp [nextObjectF, readFull]

theorem readMapF_entries (e : Err) (kT : GoString) (t : Nat) (rest : List Nat)
    (hkT : kT.length < 65536) (ht : t = 5 ∨ t = 9) :
    ∀ (entries : List MapEntry) (acc : List (GoString × Value)) (f : Nat),
      (∀ x ∈ entries, x.key.length < 65536) →
      (∀ x ∈ entries, (x.bytes.head? ≠ some 5 ∧ x.bytes.head? ≠ some 9) ∧
        ∀ more, nextObject e (x.bytes ++ more) = .ok x.value more) →
      (encEntries entries ++ (encKey kT ++ t :: rest)).length < f →
      readMapF e f acc (encEntries entries ++ (encKey kT ++ t :: rest)) =
        .ok ((entries.map (fun x => (x.key, x.value))).reverse ++ acc) rest := by
  intro entries
  induction entries with
  | nil =>
    intro acc f _ _ hf
    cases f with
    | zero => exact absurd hf (Nat.not_lt_zero _)
    | succ f =>
      cases f with
      | zero =>
        simp [encEntries, encKey, u16be] at hf
      | succ f =>
        simp only [encEntries, List.nil_append, List.map_nil, List.reverse_nil]
        rw [readMapF_succ, readString_encKey e kT _ hkT]
        simp only [nextObjectF_end e f t rest ht]
  | cons x xs ih =>
    intro acc f hk hv hf
    cases f with
    | zero => exact absurd hf (Nat.not_lt_zero _)
    | succ f =>
      have hx := hv x (List.mem_cons_self _ _)
      have hlen : (encEntries (x :: xs) ++ (encKey kT ++ t :: rest)).length =
          (encKey x.key).length + (x.bytes.length +
            (encEntries xs ++ (encKey kT ++ t :: rest)).length) := by
        simp only [encEntries, List.length_append]
        omega
      have hshape : encEntries (x :: xs) ++ (encKey kT ++ t :: rest) =
          encKey x.key ++ (x.bytes ++ (encEntries xs ++ (encKey kT ++ t :: rest))) := by
        simp only [encEntries, List.append_assoc]
      rw [hlen] at hf
      have hk2 : (encKey x.key).length = x.key.length + 2 := by
        simp [encKey, u16be]
      rw [hshape, readMapF_succ, readString_encKey e x.key _ (hk x (List.mem_cons_self _ _)),
        ]
      simp only []
      rw [nextObjectF_eq e _ f (by rw [List.length_append]; omega), hx.2]
      have hnn : x.value ≠ .null := by
        intro hn
        have h1 := hx.2 []
        rw [hn] at h1
        unfold nextObject at h1
        have := nextObjectF_null e _ _ _ h1
        rw [List.append_nil] at this
        rcases this with h | h
        · exact hx.1.1 h
        · exact hx.1.2 h
      have hrec := ih ((x.key, x.value) :: acc) f
        (fun y hy => hk y (List.mem_cons_of_mem _ hy))
        (fun y hy => hv y (List.mem_cons_of_mem _ hy)) (by omega)
      rw [List.map_cons, List.reverse_cons, List.append_assoc, List.singleton_append]
      rw [← hrec]
      cases hval : x.value with
      | null => exact absurd hval hnn
      | _ => rfl

theorem mapGet_reverse_entries (k : GoString) (entries : List MapEntry) :
    mapGet k ((entries.map (fun x => (x.key, x.value))).reverse) =
      ((entries.filter (fun x => decide (x.key = k))).getLast?).map (fun x => x.value) := by
  induction entries using List.reverseRecOn with
  | nil => rfl
  | append_singleton l x ih =>
    rw [List.map_append, List.reverse_append, List.filter_append]
    simp only [List.map_cons, List.map_nil, List.reverse_cons, List.reverse_nil, List.nil_append,
      List.singleton_append, mapGet, List.filter_cons, List.filter_nil]
    by_cases h : k = x.key
    · subst h
      simp
    · have h1 : ¬ x.key = k := fun h2 => h h2.symm
      simp [h, h1, ih]

/-- The loop of `readMap` never binds a key to the nil interface. -/
theorem readMapF_no_null (e : Err) : ∀ (f : Nat) (acc : List (GoString × Value)) (i : List Nat)
    (m : List (GoString × Value)) (r : List Nat), readMapF e f acc i = .ok m r →
    (∀ k, mapGet k acc ≠ some .null) → ∀ k, mapGet k m ≠ some .null := by
  intro f
  induction f with
  | zero => intro acc i m r h; simp [readMapF] at h
  | succ f ih =>
    intro acc i m r h hacc
    rw [readMapF_succ] at h
    split at h
    · exact absurd h (by simp)
    · rename_i key i1 h1
      split at h
      · exact absurd h (by simp)
      · exact absurd h (by simp)
      · injection h with hm _
        subst hm
        exact hacc
      · rename_i value i2 hnn h2
        refine ih _ _ _ _ h ?_
        intro k
        simp only [mapGet]
        split_ifs
        · intro hv
          injection hv with hv
          exact hnn hv
        · exact hacc k

/-- A map decoded by `nextObject` binds no key to the nil interface. -/
theorem nextObject_map_no_null (e : Err) (i r : List Nat) (m : List (GoString × Value))
    (h : nextObject e i = .ok (.map m) r) : ∀ k, mapGet k m ≠ some .null := by
  unfold nextObject at h
  simp only [nextObjectF] at h
  split at h
  · exact absurd h (by simp)
  · split_ifs at h
    · split at h <;> simp at h
    · split at h
      · simp at h
      · split_ifs at h <;> simp at h
    · split at h <;> simp at h
    · split at h
      · rename_i m1 i2 h2
        injection h with hm _
        injection hm with hm
        subst hm
        exact readMapF_no_null e _ _ _ _ _ h2 (by intro k; simp [mapGet])
      · simp at h
      · simp at h
    · simp at h
    · split at h
      · simp at h
      · split at h <;> simp at h
    · simp at h

/-- The loop of `readMap` over entries whose bytes `nextObject` decodes to the
value kept in the entry (hypothesis `hv`), followed by a key and one byte 0x05
or 0x09: `readMap` returns, uses up exactly those bytes, and binds every key
to the value of the last entry with that key; the final key is bound only
when an entry has it. What `nextObject` makes of the bytes of a value is not
part of this lemma. -/
theorem readMap_entries (e : Err) (entries : List MapEntry) (kT : GoString) (t : Nat)
    (rest : List Nat) (hkT : kT.length < 65536) (ht : t = 5 ∨ t = 9)
    (hk : ∀ x ∈ entries, x.key.length < 65536)
    (hv : ∀ x ∈ entries, (x.bytes.head? ≠ some 5 ∧ x.bytes.head? ≠ some 9) ∧
      ∀ more, nextObject e (x.bytes ++ more) = .ok x.value more) :
    ∃ m, readMap e (encEntries entries ++ (encKey kT ++ t :: rest)) = .ok m rest ∧
      (∀ k, mapGet k m =
        ((entries.filter (fun x => decide (x.key = k))).getLast?).map (fun x => x.value)) ∧
      ((mapGet kT m).isSome = true → ∃ x ∈ entries, x.key = kT) := by
  refine ⟨(entries.map (fun x => (x.key, x.value))).reverse, ?_, ?_, ?_⟩
  · have := readMapF_entries e kT t rest hkT ht entries [] _ hk hv (Nat.lt_succ_self _)
    rw [List.append_nil] at this
    exact this
  · exact fun k => mapGet_reverse_entries k entries
  · intro h
    rw [mapGet_reverse_entries] at h
    rcases hl : (entries.filter (fun x => decide (x.key = kT))).getLast? with _ | x
    · rw [hl] at h
      simp at h
    · have hx := List.mem_of_getLast?_eq_some hl
      rw [List.mem_filter] at hx
      exact ⟨x, hx.1, by simpa using hx.2⟩

theorem readMap_entries_witness :
    ∃ m, readMap .EOF
        (encEntries [⟨lit "a", [1, 1], .bool true⟩, ⟨lit "b", [1, 0], .bool false⟩,
            ⟨lit "a", [2, 0, 1, 120], .str (lit "x")⟩] ++ (encKey (lit "b") ++ 9 :: [7])) = .ok m [7] ∧
      (∀ k, mapGet k m =
        (([⟨lit "a", [1, 1], .bool true⟩, ⟨lit "b", [1, 0], .bool false⟩,
            ⟨lit "a", [2, 0, 1, 120], .str (lit "x")⟩] : List MapEntry).filter
              (fun x => decide (x.key = k))).getLast?.map (fun x => x.value)) ∧
      ((mapGet (lit "b") m).isSome = true →
        ∃ x ∈ ([⟨lit "a", [1, 1], .bool true⟩, ⟨lit "b", [1, 0], .bool false⟩,
            ⟨lit "a", [2, 0, 1, 120], .str (lit "x")⟩] : List MapEntry), x.key = lit "b") :=
  readMap_entries .EOF
    [⟨lit "a", [1, 1], .bool true⟩, ⟨lit "b", [1, 0], .bool false⟩,
      ⟨lit "a", [2, 0, 1, 120], .str (lit "x")⟩] (lit "b") 9 [7] (by decide) (Or.inr rfl)
    (by
      intro x hx
      simp only [List.mem_cons, List.mem_singleton, List.not_mem_nil, or_false] at hx
      rcases hx with h | h | h <;> subst h <;> decide)
    (by
      intro x hx
      simp only [List.mem_cons, List.mem_singleton, List.not_mem_nil, or_false] at hx
      rcases hx with h | h | h <;> subst h <;> refine ⟨⟨by decide, by decide⟩, ?_⟩ <;> intro more <;>
        simp [nextObject, nextObjectF, readFull, readString, beNat, lit])

/-- C9 (fails on the code): on `08 00 00 00 01 01 01`, the encoding of an array
holding the one value `true`, `nextObject` uses up the seven bytes and returns
a slice of two elements, the nil interface and then `true`; on an array of two
booleans it returns four elements. `readArray` makes the slice with the
declared length and appends to it. -/
theorem readArray_keeps_nil_prefix :
    nextObject .EOF [8, 0, 0, 0, 1, 1, 1] = .ok (.arr [.null, .bool true]) [] ∧
      readArray .EOF [0, 0, 0, 1, 1, 1] = .ok [.null, .bool true] [] ∧
      nextObject .EOF [8, 0, 0, 0, 2, 1, 1, 1, 0] =
        .ok (.arr [.null, .null, .bool true, .bool false]) [] :=
  ⟨rfl, rfl, rfl⟩

/-- C7 (fails on the code): for the play target `movie.mp4?auth=a/b`, whose
part before `?` is `movie.mp4`, `makeFilename` returns `b`, the part of the
query string after its last `/`; the two targets the claim names, whose query
strings have no `/`, give `movie.mp4` and `path`. -/
theorem makeFilename_query_with_slash :
    makeFilename { MessageFinalizer.init with play := lit "movie.mp4?auth=a/b" } = lit "b" ∧
      makeFilename { MessageFinalizer.init with play := lit "movie.mp4?auth=xyz" } = lit "movie.mp4" ∧
      makeFilename { MessageFinalizer.init with play := lit "some/long/path?optional&args" } =
        lit "path" := by
  decide

/-! ## Theorems: the chunk demultiplexer -/

theorem readFull_append_of_length (e : Err) (n : Nat) (a r : List Nat) (h : a.length = n) :
    readFull e n (a ++ r) = .ok (a, r) := by
  subst h
  exact readFull_append e a r

theorem processChunk_basicHeader (s : rtmpStream) (fmt csid : Nat) (X : List Nat)
    (h2 : 2 ≤ csid) (h3 : csid ≤ 65599) :
    processChunk s (basicHeader fmt csid ++ X) = processMessageChunk s fmt csid X := by
  unfold basicHeader
  split_ifs with h64 h320
  · have hd : (fmt * 64 + csid) / 64 = fmt := by omega
    have hm : (fmt * 64 + csid) % 64 = csid := by omega
    have h0 : csid ≠ 0 := by omega
    have h1 : csid ≠ 1 := by omega
    simp [processChunk, readFull, readChunkStreamID, hd, hm, h0, h1]
  · have hd : (fmt * 64) / 64 = fmt := by omega
    have hm : (fmt * 64) % 64 = 0 := by omega
    have hc : (csid - 64 + 64) % 4294967296 = csid := by omega
    simp [processChunk, readFull, readChunkStreamID, hd, hm, beNat, hc]
  · have hd : (fmt * 64 + 1) / 64 = fmt := by omega
    have hm : (fmt * 64 + 1) % 64 = 1 := by omega
    have hc : ((csid - 64) / 256 * 256 + (csid - 64) % 256 + 64) % 4294967296 = csid := by omega
    simp [processChunk, readFull, readChunkStreamID, hd, hm, beNat, hc]

theorem readMessageHeader_fmt0 (msg : RTMPMessage) (ts len sid Y : List Nat) (ty : Nat)
    (hts : ts.length = 3) (hlen : len.length = 3) (hsid : sid.length = 4) :
    readMessageHeader 0 msg (ts ++ len ++ [ty] ++ (sid ++ Y)) =
      (none, { msg with hdr := { Timestamp := ts, MessageLength := len, TypeID := ty },
                        headerOk := true, streamID := leNat sid }, Y) := by
  have h7 : readFull .EOF 7 (ts ++ len ++ [ty] ++ (sid ++ Y)) = .ok (ts ++ len ++ [ty], sid ++ Y) :=
    readFull_append_of_length _ _ _ _ (by simp [hts, hlen])
  have h4 : readFull .EOF 4 (sid ++ Y) = .ok (sid, Y) := readFull_append_of_length _ _ _ _ hsid
  have t1 : (ts ++ len ++ [ty]).take 3 = ts := by
    rw [List.append_assoc, List.take_append_of_le_length (by omega), List.take_of_length_le (by omega)]
  have t2 : ((ts ++ len ++ [ty]).drop 3).take 3 = len := by
    rw [List.append_assoc, List.drop_append_of_le_length (by omega), List.drop_of_length_le (by omega),
      List.nil_append, List.take_append_of_le_length (by omega), List.take_of_length_le (by omega)]
  have t3 : ((ts ++ len ++ [ty]).drop 6).headI = ty := by
    have : (ts ++ len).length = 6 := by simp [hts, hlen]
    rw [List.drop_append_of_le_length (by omega), List.drop_of_length_le (by omega)]
    rfl
  simp only [readMessageHeader, true_or, if_true, h7, h4, t1, t2, t3]

theorem readTimestamps_none (fmt : Nat) (msg : RTMPMessage) (X : List Nat) (hf : fmt ≠ 2)
    (hts : msg.hdr.Timestamp ≠ [255, 255, 255]) : readTimestamps fmt msg X = (none, msg, X) := by
  simp [readTimestamps, hf, hts]

theorem readChunkSize_none (c : Nat) (msg : RTMPMessage) (X : List Nat) (hty : msg.hdr.TypeID ≠ 1) :
    readChunkSize c msg X = (none, c, msg, X) := by
  simp [readChunkSize, hty]

theorem sendMessagePayload_piece (c csid : Nat) (msg : RTMPMessage) (piece rest : List Nat)
    (hp : piece.length = min c msg.remainingLength) :
    sendMessagePayload c (piece ++ rest) csid msg =
      (none, { msg with remainingLength := msg.remainingLength - piece.length,
                        writer := msg.writer.map (fun w => { w with data := w.data ++ piece }) }, rest) := by
  unfold sendMessagePayload
  simp only [← hp]
  split_ifs with h
  · rw [readFull_append]
  · have : piece = [] := List.length_eq_zero.mp (by omega)
    subst this
    cases hw : msg.writer <;> simp

/-- The rest of a chunk once its header is read, for a message that is not
"set chunk size" and has no extended timestamp: the piece is written to the
pipe of the slot, which is closed when nothing is left. -/
theorem processMessageChunk_piece (s : rtmpStream) (fmt csid : Nat) (buf2 piece rest : List Nat)
    (msg1 : RTMPMessage) (R : Nat)
    (hH : readMessageHeader fmt ((trackGet csid s.track).getD RTMPMessage.empty) buf2 =
      (none, msg1, piece ++ rest))
    (hok : msg1.headerOk = true) (hf : fmt ≠ 2) (hts : msg1.hdr.Timestamp ≠ [255, 255, 255])
    (hty : msg1.hdr.TypeID ≠ 1)
    (hR : R = if msg1.remainingLength = 0 then beNat msg1.hdr.MessageLength % 2 ^ 32
      else msg1.remainingLength)
    (hp : piece.length = min s.chunkSize R) :
    processMessageChunk s fmt csid buf2 =
      if R - piece.length = 0 then
        (none,
          { s with closed := s.closed ++
              [Pipe.mk (msg1.writer.getD (Pipe.mk msg1.hdr.TypeID [])).typeID
                ((msg1.writer.getD (Pipe.mk msg1.hdr.TypeID [])).data ++ piece)] }.store csid
            { msg1 with remainingLength := 0, writer := none }, rest)
      else
        (none,
          s.store csid { msg1 with remainingLength := R - piece.length,
                                   writer := some (Pipe.mk (msg1.writer.getD (Pipe.mk msg1.hdr.TypeID [])).typeID
                ((msg1.writer.getD (Pipe.mk msg1.hdr.TypeID [])).data ++ piece)) },
          rest) := by
  obtain ⟨hdr, headerOk, streamID, remainingLength, writer⟩ := msg1
  simp only at hok hts hty hR
  subst hok
  unfold processMessageChunk
  simp only [hH, not_true_eq_false, if_false]
  have hp1 : piece.length = min s.chunkSize
      (if remainingLength = 0 then beNat hdr.MessageLength % 2 ^ 32 else remainingLength) := by
    rw [hp, hR]
  rcases writer with _ | w
  · simp only [Option.isNone_none, if_true]
    rw [readTimestamps_none _ _ _ hf hts]
    simp only
    rw [readChunkSize_none _ _ _ (by split_ifs <;> exact hty)]
    simp only
    rw [sendMessagePayload_piece _ _ _ piece rest (by rw [hp1]; split_ifs <;> rfl)]
    by_cases h0 : remainingLength = 0
    · simp only [h0, if_true] at hR ⊢
      subst hR
      norm_num at hp ⊢
      split_ifs with h <;> simp [rtmpStream.store, h]
    · simp only [h0, if_false] at hR ⊢
      subst hR
      split_ifs with h <;> simp [rtmpStream.store, h]
  · simp only [Option.isNone_some, if_false, Bool.false_eq_true]
    rw [readTimestamps_none _ _ _ hf hts]
    simp only
    rw [readChunkSize_none _ _ _ (by split_ifs <;> exact hty)]
    simp only
    rw [sendMessagePayload_piece _ _ _ piece rest (by rw [hp1]; split_ifs <;> rfl)]
    by_cases h0 : remainingLength = 0
    · simp only [h0, if_true] at hR ⊢
      subst hR
      norm_num at hp ⊢
      split_ifs with h <;> simp [rtmpStream.store, h]
    · simp only [h0, if_false] at hR ⊢
      subst hR
      split_ifs with h <;> simp [rtmpStream.store, h]

theorem beNat_u24be (n : Nat) (h : n < 2 ^ 24) : beNat (u24be n) = n := by
  simp only [u24be, beNat, List.length_cons, List.length_nil]
  omega

theorem trackGet_store_self (s : rtmpStream) (csid : Nat) (m : RTMPMessage) :
    trackGet csid (s.store csid m).track = some m := by
  simp [rtmpStream.store, trackGet]

theorem trackGet_store_other (s : rtmpStream) (csid j : Nat) (m : RTMPMessage) (h : j ≠ csid) :
    trackGet j (s.store csid m).track = trackGet j s.track := by
  simp [rtmpStream.store, trackGet, h]

/-- The first chunk of a message on an idle chunk stream. -/
theorem processChunk_fmt0 (s : rtmpStream) (M : WireMessage) (piece rest : List Nat)
    (hM : M.ok) (hidle : idle s M.csid)
    (hp : piece.length = min s.chunkSize M.payload.length) :
    processChunk s (fmt0Chunk M piece ++ rest) =
      if M.payload.length - piece.length = 0 then
        (none, { s with closed := s.closed ++ [Pipe.mk M.typeID piece] }.store M.csid (M.slot 0 none), rest)
      else
        (none, s.store M.csid (M.slot (M.payload.length - piece.length) (some (Pipe.mk M.typeID piece))),
          rest) := by
  obtain ⟨h2, h3, hts, hff, hty, hsid, hL⟩ := hM
  have hshape : fmt0Chunk M piece ++ rest = basicHeader 0 M.csid ++
      (M.timestamp ++ u24be M.payload.length ++ [M.typeID] ++ (M.streamID ++ (piece ++ rest))) := by
    simp [fmt0Chunk, List.append_assoc]
  have hrem : ((trackGet M.csid s.track).getD RTMPMessage.empty).remainingLength = 0 ∧
      ((trackGet M.csid s.track).getD RTMPMessage.empty).writer = none := by
    rcases hg : trackGet M.csid s.track with _ | m
    · exact ⟨rfl, rfl⟩
    · exact hidle m hg
  rw [hshape, processChunk_basicHeader s 0 M.csid _ h2 h3]
  rw [processMessageChunk_piece s 0 M.csid _ piece rest _ M.payload.length
    (readMessageHeader_fmt0 _ M.timestamp (u24be M.payload.length) M.streamID (piece ++ rest) M.typeID
      hts (by simp [u24be]) hsid) rfl (by decide) hff hty
    (by
      simp only [hrem.1, if_true, beNat_u24be _ hL]
      have : M.payload.length < 2 ^ 32 := lt_trans hL (by norm_num)
      exact (Nat.mod_eq_of_lt this).symm) hp]
  simp [hrem.1, hrem.2, WireMessage.slot]

/-- A format-3 chunk of a message in progress. -/
theorem processChunk_fmt3 (s : rtmpStream) (M : WireMessage) (d piece rest : List Nat) (r : Nat)
    (hM : M.ok) (hr : r ≠ 0)
    (hslot : trackGet M.csid s.track = some (M.slot r (some (Pipe.mk M.typeID d))))
    (hp : piece.length = min s.chunkSize r) :
    processChunk s (fmt3Chunk M piece ++ rest) =
      if r - piece.length = 0 then
        (none, { s with closed := s.closed ++ [Pipe.mk M.typeID (d ++ piece)] }.store M.csid (M.slot 0 none),
          rest)
      else
        (none, s.store M.csid (M.slot (r - piece.length) (some (Pipe.mk M.typeID (d ++ piece)))),
          rest) := by
  obtain ⟨h2, h3, hts, hff, hty, hsid, hL⟩ := hM
  have hshape : fmt3Chunk M piece ++ rest = basicHeader 3 M.csid ++ (piece ++ rest) := by
    simp [fmt3Chunk, List.append_assoc]
  rw [hshape, processChunk_basicHeader s 3 M.csid _ h2 h3]
  rw [processMessageChunk_piece s 3 M.csid _ piece rest (M.slot r (some (Pipe.mk M.typeID d))) r
    (by simp [readMessageHeader, hslot]) rfl (by decide) hff hty
    (by simp [WireMessage.slot, hr]) hp]
  simp [WireMessage.slot]

theorem splitPayload_ne_nil (c f : Nat) (q : List Nat) : splitPayload c (f + 1) q ≠ [] := by
  simp only [splitPayload]
  split_ifs <;> simp

theorem length_take_chunk (c : Nat) (q : List Nat) (h : ¬ q.length ≤ c) :
    (q.take c).length = min c q.length := by
  rw [List.length_take]
  unfold min
  rw [if_pos (by omega)]
  omega

theorem length_last_chunk (c : Nat) (q : List Nat) (h : q.length ≤ c) :
    q.length = min c q.length := by
  unfold min
  rw [if_neg (by omega)]

/-- One call of `processChunk` on the next chunk of a message: the chunk is
used up, the other slots, the chunk size and the aborted pipes are left as
they are, and the pipe of the message is closed, holding the payload, exactly
when that was the last chunk. -/
theorem processChunk_pending (s : rtmpStream) (M : WireMessage) (x : List Nat)
    (xs : List (List Nat)) (rest : List Nat) (hM : M.ok) (hc : 1 ≤ s.chunkSize)
    (h : Pending s.chunkSize M (trackGet M.csid s.track) (x :: xs)) :
    ∃ s1, processChunk s (x ++ rest) = (none, s1, rest) ∧ s1.chunkSize = s.chunkSize ∧
      s1.aborted = s.aborted ∧
      (∀ j, j ≠ M.csid → trackGet j s1.track = trackGet j s.track) ∧
      Pending s.chunkSize M (trackGet M.csid s1.track) xs ∧
      s1.closed = s.closed ++ (if xs = [] then [M.pipe] else []) := by
  rcases h with ⟨hid, hx⟩ | ⟨d, q, fuel, hdq, hq, hfuel, hslot, hx⟩ | ⟨_, hx⟩
  · unfold chunksOf at hx
    simp only [splitPayload] at hx
    split_ifs at hx with hle
    · simp only [List.map_nil, List.cons.injEq] at hx
      obtain ⟨hx1, hx2⟩ := hx
      subst hx1 hx2
      refine ⟨{ s with closed := s.closed ++ [Pipe.mk M.typeID M.payload] }.store M.csid (M.slot 0 none), ?_, ?_⟩
      · rw [processChunk_fmt0 s M M.payload rest hM hid (length_last_chunk _ _ hle)]
        rw [if_pos (by omega)]
      · exact ⟨rfl, rfl, fun j hj => trackGet_store_other _ _ _ _ hj,
          Or.inr (Or.inr ⟨trackGet_store_self _ _ _, rfl⟩), by simp [WireMessage.pipe, rtmpStream.store]⟩
    · simp only [List.cons.injEq] at hx
      obtain ⟨hx1, hx2⟩ := hx
      have hlen : (M.payload.take s.chunkSize).length = s.chunkSize := by
        rw [List.length_take]; omega
      have hpos : 0 < M.payload.length := by omega
      obtain ⟨f, hf⟩ : ∃ f, M.payload.length = f + 1 := ⟨M.payload.length - 1, by omega⟩
      have hne : xs ≠ [] := by
        rw [hx2, hf]
        simp only [ne_eq, List.map_eq_nil_iff]
        exact splitPayload_ne_nil _ _ _
      subst hx1
      refine ⟨s.store M.csid (M.slot (M.payload.length - (M.payload.take s.chunkSize).length)
        (some (Pipe.mk M.typeID (M.payload.take s.chunkSize)))), ?_, ?_⟩
      · rw [processChunk_fmt0 s M _ rest hM hid (length_take_chunk _ _ hle)]
        rw [if_neg (by rw [hlen]; omega)]
      · refine ⟨rfl, rfl, fun j hj => trackGet_store_other _ _ _ _ hj, ?_, by simp [hne, rtmpStream.store]⟩
        refine Or.inr (Or.inl ⟨M.payload.take s.chunkSize, M.payload.drop s.chunkSize,
          M.payload.length, List.take_append_drop _ _, ?_, ?_, ?_, hx2⟩)
        · intro h0
          have := congrArg List.length h0
          simp at this
          omega
        · rw [List.length_drop]; omega
        · rw [trackGet_store_self, hlen, List.length_drop]
  · cases fuel with
    | zero => exact absurd hfuel (Nat.not_lt_zero _)
    | succ f =>
      have hq0 : q.length ≠ 0 := fun h0 => hq (List.length_eq_zero.mp h0)
      simp only [splitPayload] at hx
      split_ifs at hx with hle
      · simp only [List.map_cons, List.map_nil, List.cons.injEq] at hx
        obtain ⟨hx1, hx2⟩ := hx
        subst hx1 hx2
        refine ⟨{ s with closed := s.closed ++ [Pipe.mk M.typeID (d ++ q)] }.store M.csid (M.slot 0 none), ?_, ?_⟩
        · rw [processChunk_fmt3 s M d q rest q.length hM hq0 hslot (length_last_chunk _ _ hle)]
          rw [if_pos (by omega)]
        · exact ⟨rfl, rfl, fun j hj => trackGet_store_other _ _ _ _ hj,
            Or.inr (Or.inr ⟨trackGet_store_self _ _ _, rfl⟩),
            by simp [WireMessage.pipe, rtmpStream.store, hdq]⟩
      · simp only [List.map_cons, List.cons.injEq] at hx
        obtain ⟨hx1, hx2⟩ := hx
        have hlen : (q.take s.chunkSize).length = s.chunkSize := by
          rw [List.length_take]; omega
        obtain ⟨g, hg⟩ : ∃ g, f = g + 1 := ⟨f - 1, by omega⟩
        have hne : xs ≠ [] := by
          rw [hx2, hg]
          simp only [ne_eq, List.map_eq_nil_iff]
          exact splitPayload_ne_nil _ _ _
        subst hx1
        refine ⟨s.store M.csid (M.slot (q.length - (q.take s.chunkSize).length)
          (some (Pipe.mk M.typeID (d ++ q.take s.chunkSize)))), ?_, ?_⟩
        · rw [processChunk_fmt3 s M d _ rest q.length hM hq0 hslot (length_take_chunk _ _ hle)]
          rw [if_neg (by rw [hlen]; omega)]
        · refine ⟨rfl, rfl, fun j hj => trackGet_store_other _ _ _ _ hj, ?_, by simp [hne, rtmpStream.store]⟩
          refine Or.inr (Or.inl ⟨d ++ q.take s.chunkSize, q.drop s.chunkSize, f, ?_, ?_, ?_, ?_, hx2⟩)
          · rw [List.append_assoc, List.take_append_drop, hdq]
          · intro h0
            have := congrArg List.length h0
            simp at this
            omega
          · rw [List.length_drop]; omega
          · rw [trackGet_store_self, hlen, List.length_drop]
  · exact absurd hx (by simp)

theorem chunksOf_ne_nil (c : Nat) (M : WireMessage) : chunksOf c M ≠ [] := by
  unfold chunksOf
  simp only [splitPayload]
  split_ifs <;> simp

theorem pending_nil (c : Nat) (M : WireMessage) (slot : Option RTMPMessage)
    (h : Pending c M slot []) : slot = some (M.slot 0 none) := by
  rcases h with ⟨_, hx⟩ | ⟨d, q, fuel, _, _, hfuel, _, hx⟩ | ⟨h, _⟩
  · exact absurd hx.symm (chunksOf_ne_nil c M)
  · cases fuel with
    | zero => exact absurd hfuel (Nat.not_lt_zero _)
    | succ f =>
      have := splitPayload_ne_nil c f q
      simp only [List.nil_eq, List.map_eq_nil_iff] at hx
      exact absurd hx this
  · exact h

theorem processChunks_succ (n : Nat) (s s1 : rtmpStream) (buf buf1 : List Nat)
    (h : processChunk s buf = (none, s1, buf1)) :
    processChunks (n + 1) s buf = processChunks n s1 buf1 := by
  simp only [processChunks, h]

/-- The chunks still to come of one message, processed one after the other. -/
theorem processChunks_pending (M : WireMessage) (hM : M.ok) (rest : List Nat) :
    ∀ (xs : List (List Nat)) (s : rtmpStream), 1 ≤ s.chunkSize → xs ≠ [] →
      Pending s.chunkSize M (trackGet M.csid s.track) xs →
      ∃ s1, processChunks xs.length s (wire xs ++ rest) = (none, s1, rest) ∧
        s1.chunkSize = s.chunkSize ∧ s1.aborted = s.aborted ∧
        (∀ j, j ≠ M.csid → trackGet j s1.track = trackGet j s.track) ∧
        trackGet M.csid s1.track = some (M.slot 0 none) ∧
        s1.closed = s.closed ++ [M.pipe] := by
  intro xs
  induction xs with
  | nil => intro s _ h _; exact absurd rfl h
  | cons x xs ih =>
    intro s hc _ hp
    obtain ⟨s1, h1, hcs, hab, hoth, hpend, hcl⟩ :=
      processChunk_pending s M x xs (wire xs ++ rest) hM hc hp
    have hstep : processChunks (x :: xs).length s (wire (x :: xs) ++ rest) =
        processChunks xs.length s1 (wire xs ++ rest) := by
      rw [List.length_cons]
      exact processChunks_succ _ _ _ _ _ (by simpa [wire, List.append_assoc] using h1)
    by_cases hxs : xs = []
    · subst hxs
      refine ⟨s1, ?_, hcs, hab, hoth, pending_nil _ _ _ hpend, by simpa using hcl⟩
      rw [hstep]
      rfl
    · rw [← hcs] at hpend
      obtain ⟨s2, h2, hcs2, hab2, hoth2, hslot2, hcl2⟩ := ih s1 (by omega) hxs hpend
      refine ⟨s2, hstep.trans h2, hcs2.trans hcs, hab2.trans hab,
        fun j hj => (hoth2 j hj).trans (hoth j hj), hslot2, ?_⟩
      rw [hcl2, hcl, if_neg hxs, List.append_nil]

/-- C2: on one chunk stream with no message in progress, for every chunk size
`c >= 1`, every message other than "set chunk size" with a timestamp other than
`FF FF FF` and a payload `p` shorter than 2^24, running `processChunk` once for
each chunk of the message (a format-0 chunk with the first `min(c, L)` bytes,
then format-3 chunks with the next `min(c, remaining)` bytes) uses up exactly
those chunks, closes exactly one pipe, which holds exactly `p` and was opened
with the type of the message, and leaves the slot without a writer; when
`L <= c` the message is the single format-0 chunk, so the pipe is the same as
when `p` arrives in one chunk. -/
theorem dechunk_single_stream (s : rtmpStream) (M : WireMessage) (rest : List Nat)
    (hM : M.ok) (hc : 1 ≤ s.chunkSize) (hidle : idle s M.csid) :
    (∃ s1, processChunks (chunksOf s.chunkSize M).length s (wire (chunksOf s.chunkSize M) ++ rest) =
          (none, s1, rest) ∧
        s1.closed = s.closed ++ [{ typeID := M.typeID, data := M.payload }] ∧
        trackGet M.csid s1.track = some (M.slot 0 none) ∧
        (∀ j, j ≠ M.csid → trackGet j s1.track = trackGet j s.track) ∧
        s1.chunkSize = s.chunkSize ∧ s1.aborted = s.aborted) ∧
      (M.payload.length ≤ s.chunkSize → chunksOf s.chunkSize M = [fmt0Chunk M M.payload]) := by
  constructor
  · obtain ⟨s1, h1, hcs, hab, hoth, hslot, hcl⟩ :=
      processChunks_pending M hM rest (chunksOf s.chunkSize M) s hc (chunksOf_ne_nil _ _)
        (Or.inl ⟨hidle, rfl⟩)
    exact ⟨s1, h1, hcl, hslot, hoth, hcs, hab⟩
  · intro hle
    simp [chunksOf, splitPayload, hle]

/-- Chunks of two messages on two chunk streams, interleaved. -/
theorem processChunks_interleaved (A B : WireMessage) (hA : A.ok) (hB : B.ok)
    (hne : A.csid ≠ B.csid) (rest : List Nat) (xs ys zs : List (List Nat))
    (hz : Interleave xs ys zs) :
    ∀ s : rtmpStream, 1 ≤ s.chunkSize →
      Pending s.chunkSize A (trackGet A.csid s.track) xs →
      Pending s.chunkSize B (trackGet B.csid s.track) ys →
      ∃ s1 done, processChunks zs.length s (wire zs ++ rest) = (none, s1, rest) ∧
        s1.closed = s.closed ++ done ∧
        done.Perm ((if xs = [] then [] else [A.pipe]) ++ (if ys = [] then [] else [B.pipe])) ∧
        Pending s.chunkSize A (trackGet A.csid s1.track) [] ∧
        Pending s.chunkSize B (trackGet B.csid s1.track) [] ∧
        s1.chunkSize = s.chunkSize ∧ s1.aborted = s.aborted ∧
        (∀ j, j ≠ A.csid → j ≠ B.csid → trackGet j s1.track = trackGet j s.track) := by
  induction hz with
  | nil =>
    intro s _ hpA hpB
    exact ⟨s, [], rfl, by simp, by simp, hpA, hpB, rfl, rfl, fun _ _ _ => rfl⟩
  | @left x xs ys zs _ ih =>
    intro s hc hpA hpB
    obtain ⟨s1, h1, hcs, hab, hoth, hpend, hcl⟩ :=
      processChunk_pending s A x xs (wire zs ++ rest) hA hc hpA
    have hpB1 : Pending s1.chunkSize B (trackGet B.csid s1.track) ys := by
      rw [hcs, hoth B.csid (Ne.symm hne)]
      exact hpB
    rw [← hcs] at hpend
    obtain ⟨s2, done, h2, hcl2, hperm, hA2, hB2, hcs2, hab2, hoth2⟩ := ih s1 (by omega) hpend hpB1
    refine ⟨s2, (if xs = [] then [A.pipe] else []) ++ done, ?_, ?_, ?_, ?_, ?_,
      hcs2.trans hcs, hab2.trans hab, fun j hjA hjB => (hoth2 j hjA hjB).trans (hoth j hjA)⟩
    · rw [List.length_cons, processChunks_succ _ _ _ _ _ (by simpa [wire, List.append_assoc] using h1)]
      exact h2
    · rw [hcl2, hcl, List.append_assoc]
    · by_cases hxs : xs = []
      · simp only [hxs, if_true, List.nil_append] at hperm ⊢
        simpa using hperm
      · simp only [hxs, if_false, List.nil_append] at hperm ⊢
        simpa using hperm
    · rw [← hcs]; exact hA2
    · rw [← hcs]; exact hB2
  | @right y xs ys zs _ ih =>
    intro s hc hpA hpB
    obtain ⟨s1, h1, hcs, hab, hoth, hpend, hcl⟩ :=
      processChunk_pending s B y ys (wire zs ++ rest) hB hc hpB
    have hpA1 : Pending s1.chunkSize A (trackGet A.csid s1.track) xs := by
      rw [hcs, hoth A.csid hne]
      exact hpA
    rw [← hcs] at hpend
    obtain ⟨s2, done, h2, hcl2, hperm, hA2, hB2, hcs2, hab2, hoth2⟩ := ih s1 (by omega) hpA1 hpend
    refine ⟨s2, (if ys = [] then [B.pipe] else []) ++ done, ?_, ?_, ?_, ?_, ?_,
      hcs2.trans hcs, hab2.trans hab, fun j hjA hjB => (hoth2 j hjA hjB).trans (hoth j hjB)⟩
    · rw [List.length_cons, processChunks_succ _ _ _ _ _ (by simpa [wire, List.append_assoc] using h1)]
      exact h2
    · rw [hcl2, hcl, List.append_assoc]
    · by_cases hys : ys = []
      · simp only [hys, if_true, List.append_nil] at hperm ⊢
        simp only [List.cons_ne_nil, if_false]
        exact (List.perm_append_comm).trans (List.Perm.append_right _ hperm)
      · simp only [hys, if_false] at hperm ⊢
        simpa using hperm
    · rw [← hcs]; exact hA2
    · rw [← hcs]; exact hB2

theorem dechunk_single_stream_witness :
    (∃ s1, processChunks
          (chunksOf 2 ⟨3, [0, 0, 0], 20, [0, 0, 0, 0], [7, 8, 9]⟩).length
          { rtmpStream.new with chunkSize := 2 }
          (wire (chunksOf 2 ⟨3, [0, 0, 0], 20, [0, 0, 0, 0], [7, 8, 9]⟩) ++ [195]) =
          (none, s1, [195]) ∧
        s1.closed = [] ++ [{ typeID := 20, data := [7, 8, 9] }] ∧
        trackGet 3 s1.track = some (WireMessage.slot ⟨3, [0, 0, 0], 20, [0, 0, 0, 0], [7, 8, 9]⟩ 0 none) ∧
        (∀ j, j ≠ 3 → trackGet j s1.track = trackGet j []) ∧
        s1.chunkSize = 2 ∧ s1.aborted = []) ∧
      (3 ≤ 2 → chunksOf 2 ⟨3, [0, 0, 0], 20, [0, 0, 0, 0], [7, 8, 9]⟩ =
        [fmt0Chunk ⟨3, [0, 0, 0], 20, [0, 0, 0, 0], [7, 8, 9]⟩ [7, 8, 9]]) :=
  dechunk_single_stream { rtmpStream.new with chunkSize := 2 }
    ⟨3, [0, 0, 0], 20, [0, 0, 0, 0], [7, 8, 9]⟩ [195]
    (by unfold WireMessage.ok; decide) (by decide)
    (by intro m h; simp [trackGet, rtmpStream.new] at h)

/-- C3: for two messages (neither "set chunk size", timestamps other than
`FF FF FF`) on two different chunk streams with no message in progress, and
every interleaving of their chunks that keeps the chunks of each message in
order, running `processChunk` once for each chunk uses up exactly the chunks
and closes exactly two pipes, one holding exactly the payload of the first
message and one holding exactly the payload of the second, each opened with
the type of its message; both slots are left without a writer. -/
theorem demux_interleaved (s : rtmpStream) (A B : WireMessage) (zs : List (List Nat))
    (rest : List Nat) (hA : A.ok) (hB : B.ok) (hne : A.csid ≠ B.csid) (hc : 1 ≤ s.chunkSize)
    (hiA : idle s A.csid) (hiB : idle s B.csid)
    (hz : Interleave (chunksOf s.chunkSize A) (chunksOf s.chunkSize B) zs) :
    ∃ s1 done, processChunks zs.length s (wire zs ++ rest) = (none, s1, rest) ∧
      s1.closed = s.closed ++ done ∧
      done.Perm [{ typeID := A.typeID, data := A.payload }, { typeID := B.typeID, data := B.payload }] ∧
      trackGet A.csid s1.track = some (A.slot 0 none) ∧
      trackGet B.csid s1.track = some (B.slot 0 none) ∧
      (∀ j, j ≠ A.csid → j ≠ B.csid → trackGet j s1.track = trackGet j s.track) := by
  obtain ⟨s1, done, h1, hcl, hperm, hpA, hpB, -, -, hoth⟩ :=
    processChunks_interleaved A B hA hB hne rest _ _ zs hz s hc (Or.inl ⟨hiA, rfl⟩)
      (Or.inl ⟨hiB, rfl⟩)
  refine ⟨s1, done, h1, hcl, ?_, pending_nil _ _ _ hpA, pending_nil _ _ _ hpB, hoth⟩
  simpa [chunksOf_ne_nil, WireMessage.pipe] using hperm

theorem chunksOf_witness_A :
    chunksOf 2 ⟨3, [0, 0, 0], 20, [0, 0, 0, 0], [7, 8, 9]⟩ =
      [[3, 0, 0, 0, 0, 0, 3, 20, 0, 0, 0, 0, 7, 8], [195, 9]] := by
  decide

theorem chunksOf_witness_B :
    chunksOf 2 ⟨70, [0, 0, 1], 18, [1, 0, 0, 0], [4, 5, 6]⟩ =
      [[0, 6, 0, 0, 1, 0, 0, 3, 18, 1, 0, 0, 0, 4, 5], [192, 6, 6]] := by
  decide

theorem demux_interleaved_witness :
    ∃ s1 done, processChunks 4 { rtmpStream.new with chunkSize := 2 }
        (wire [[3, 0, 0, 0, 0, 0, 3, 20, 0, 0, 0, 0, 7, 8],
          [0, 6, 0, 0, 1, 0, 0, 3, 18, 1, 0, 0, 0, 4, 5], [192, 6, 6], [195, 9]] ++ []) =
        (none, s1, []) ∧
      s1.closed = [] ++ done ∧
      done.Perm [{ typeID := 20, data := [7, 8, 9] }, { typeID := 18, data := [4, 5, 6] }] ∧
      trackGet 3 s1.track = some (WireMessage.slot ⟨3, [0, 0, 0], 20, [0, 0, 0, 0], [7, 8, 9]⟩ 0 none) ∧
      trackGet 70 s1.track = some (WireMessage.slot ⟨70, [0, 0, 1], 18, [1, 0, 0, 0], [4, 5, 6]⟩ 0 none) ∧
      (∀ j, j ≠ 3 → j ≠ 70 → trackGet j s1.track = trackGet j []) :=
  demux_interleaved { rtmpStream.new with chunkSize := 2 }
    ⟨3, [0, 0, 0], 20, [0, 0, 0, 0], [7, 8, 9]⟩ ⟨70, [0, 0, 1], 18, [1, 0, 0, 0], [4, 5, 6]⟩
    [[3, 0, 0, 0, 0, 0, 3, 20, 0, 0, 0, 0, 7, 8],
      [0, 6, 0, 0, 1, 0, 0, 3, 18, 1, 0, 0, 0, 4, 5], [192, 6, 6], [195, 9]] []
    (by unfold WireMessage.ok; decide) (by unfold WireMessage.ok; decide) (by decide) (by decide)
    (by intro m h; simp [trackGet, rtmpStream.new] at h)
    (by intro m h; simp [trackGet, rtmpStream.new] at h)
    (by
      show Interleave (chunksOf 2 ⟨3, [0, 0, 0], 20, [0, 0, 0, 0], [7, 8, 9]⟩)
        (chunksOf 2 ⟨70, [0, 0, 1], 18, [1, 0, 0, 0], [4, 5, 6]⟩) _
      rw [chunksOf_witness_A, chunksOf_witness_B]
      exact Interleave.left _ (Interleave.right _ (Interleave.right _ (Interleave.left _ Interleave.nil))))

/-! ## Theorems: a whole flow -/

theorem perm_two {α : Type} (l : List α) (a b : α) (h : l.Perm [a, b]) :
    l = [a, b] ∨ l = [b, a] := by
  obtain ⟨x, y, rfl⟩ := List.length_eq_two.mp (by simpa using h.length_eq)
  have hx : x ∈ [a, b] := h.subset (List.mem_cons_self _ _)
  simp only [List.mem_cons, List.mem_singleton, List.not_mem_nil, or_false] at hx
  rcases hx with rfl | rfl
  · left
    have := List.perm_singleton.mp (List.Perm.cons_inv h)
    rw [this]
  · right
    have h2 : [x, y].Perm [x, a] := h.trans (List.Perm.swap _ _ _)
    have := List.perm_singleton.mp (List.Perm.cons_inv h2)
    rw [this]

theorem openPipes_eq_nil (track : List (Nat × RTMPMessage))
    (h : ∀ k m, trackGet k track = some m → m.writer = none) : openPipes track = [] := by
  unfold openPipes
  rw [List.filterMap_eq_nil_iff]
  intro k _
  rcases hk : trackGet k track with _ | m
  · rfl
  · simp [h k m hk]

theorem chunkLoop_step (n : Nat) (s s1 : rtmpStream) (buf buf1 : List Nat)
    (h : processChunk s buf = (none, s1, buf1)) :
    chunkLoop (n + 1) s buf = chunkLoop n s1 buf1 := by
  simp only [chunkLoop, h]

theorem chunkLoop_end (n : Nat) (s : rtmpStream) : chunkLoop (n + 1) s [] = some s := by
  simp [chunkLoop, processChunk, readFull]

theorem readValues_connectPayload :
    readValues .EOF 0x14 connectPayload =
      some (.ok [.str (lit "connect"), .num [0x3F, 0xF0, 0, 0, 0, 0, 0, 0],
        .map [(lit "app", .str (lit "live"))]]) := by
  rfl

theorem readValues_playPayload :
    readValues .EOF 0x14 playPayload =
      some (.ok [.str (lit "play"), .num [0x40, 0, 0, 0, 0, 0, 0, 0], .str (lit "stream")]) := by
  rfl

theorem runDecoders_connect_play (fmtOther : Value → GoString) :
    (runDecoders fmtOther MessageFinalizer.init
        [(Err.EOF, Pipe.mk 0x14 connectPayload), (Err.EOF, Pipe.mk 0x14 playPayload)]).map
        (fun c => c.r) = some [lit "rtmpdump -y 'stream' -a 'live' -R -o 'stream'"] := by
  rfl

theorem runDecoders_play_connect (fmtOther : Value → GoString) :
    (runDecoders fmtOther MessageFinalizer.init
        [(Err.EOF, Pipe.mk 0x14 playPayload), (Err.EOF, Pipe.mk 0x14 connectPayload)]).map
        (fun c => c.r) = some [lit "rtmpdump -y 'stream' -a 'live' -R -o 'stream'"] := by
  rfl

/-- C1: for the flow made of the byte 0x03, 3072 handshake bytes, a format-0
chunk on chunk stream 3 of type 0x14 carrying the AMF0 encoding of `connect`,
`1.0`, `{app: "live"}` and a format-0 chunk on chunk stream 3 of type 0x14
carrying the AMF0 encoding of `play`, `2.0`, `stream`, each header giving the
length of its payload, `parseStream` returns, and whatever the order in which
the decoders it started reach the collator, exactly one string is sent on the
result channel: `rtmpdump -y 'stream' -a 'live' -R -o 'stream'`. -/
theorem flow_connect_play (fmtOther : Value → GoString) (hs ts1 sid1 ts2 sid2 : List Nat)
    (hhs : hs.length = 3072)
    (hts1 : ts1.length = 3) (hff1 : ts1 ≠ [255, 255, 255]) (hsid1 : sid1.length = 4)
    (hts2 : ts2.length = 3) (hff2 : ts2 ≠ [255, 255, 255]) (hsid2 : sid2.length = 4) :
    ∃ s, parseStream (3 :: (hs ++ (fmt0Chunk ⟨3, ts1, 0x14, sid1, connectPayload⟩ connectPayload ++
          fmt0Chunk ⟨3, ts2, 0x14, sid2, playPayload⟩ playPayload))) = some s ∧
      ∀ order, order.Perm (decoders s) →
        (runDecoders fmtOther MessageFinalizer.init order).map (fun c => c.r) =
          some [lit "rtmpdump -y 'stream' -a 'live' -R -o 'stream'"] := by
  have hM1 : (WireMessage.mk 3 ts1 0x14 sid1 connectPayload).ok :=
    ⟨by show 2 ≤ 3; decide, by show 3 ≤ 65599; decide, hts1, hff1, by show 20 ≠ 1; decide, hsid1,
      by show connectPayload.length < 2 ^ 24; decide⟩
  have hM2 : (WireMessage.mk 3 ts2 0x14 sid2 playPayload).ok :=
    ⟨by show 2 ≤ 3; decide, by show 3 ≤ 65599; decide, hts2, hff2, by show 20 ≠ 1; decide, hsid2,
      by show playPayload.length < 2 ^ 24; decide⟩
  have hx1 : chunksOf 128 ⟨3, ts1, 0x14, sid1, connectPayload⟩ =
      [fmt0Chunk ⟨3, ts1, 0x14, sid1, connectPayload⟩ connectPayload] := by
    have : connectPayload.length ≤ 128 := by decide
    simp [chunksOf, splitPayload, this]
  have hx2 : chunksOf 128 ⟨3, ts2, 0x14, sid2, playPayload⟩ =
      [fmt0Chunk ⟨3, ts2, 0x14, sid2, playPayload⟩ playPayload] := by
    have : playPayload.length ≤ 128 := by decide
    simp [chunksOf, splitPayload, this]
  obtain ⟨s1, h1, hcs1, hab1, hoth1, hpend1, hcl1⟩ :=
    processChunk_pending rtmpStream.new ⟨3, ts1, 0x14, sid1, connectPayload⟩ _ []
      (fmt0Chunk ⟨3, ts2, 0x14, sid2, playPayload⟩ playPayload) hM1 (by decide)
      (Or.inl ⟨by intro m h; simp [trackGet, rtmpStream.new] at h, hx1.symm⟩)
  have hslot1 := pending_nil _ _ _ hpend1
  have hc1 : s1.chunkSize = 128 := hcs1
  obtain ⟨s2, h2, hcs2, hab2, hoth2, hpend2, hcl2⟩ :=
    processChunk_pending s1 ⟨3, ts2, 0x14, sid2, playPayload⟩ _ [] [] hM2 (by omega)
      (Or.inl ⟨by
        intro m h
        rw [show (WireMessage.mk 3 ts2 0x14 sid2 playPayload).csid =
          (WireMessage.mk 3 ts1 0x14 sid1 connectPayload).csid from rfl, hslot1] at h
        injection h with h
        subst h
        exact ⟨rfl, rfl⟩, by rw [hc1]; exact hx2.symm⟩)
  have hslot2 := pending_nil _ _ _ hpend2
  rw [List.append_nil] at h2
  refine ⟨s2.exit, ?_, ?_⟩
  · have hsplit : hs = hs.take 1536 ++ hs.drop 1536 := (List.take_append_drop _ _).symm
    have hl1 : (hs.take 1536).length = 1536 := by rw [List.length_take]; omega
    have hl2 : (hs.drop 1536).length = 1536 := by rw [List.length_drop]; omega
    have hlen : ∃ k, (fmt0Chunk ⟨3, ts1, 0x14, sid1, connectPayload⟩ connectPayload ++
        fmt0Chunk ⟨3, ts2, 0x14, sid2, playPayload⟩ playPayload).length + 1 = k + 1 + 1 + 1 := by
      refine ⟨(fmt0Chunk ⟨3, ts1, 0x14, sid1, connectPayload⟩ connectPayload ++
        fmt0Chunk ⟨3, ts2, 0x14, sid2, playPayload⟩ playPayload).length - 2, ?_⟩
      simp only [fmt0Chunk, List.length_append, hts1, hts2]
      omega
    obtain ⟨k, hk⟩ := hlen
    unfold parseStream parseStreamBody
    simp only [ne_eq, not_true_eq_false, if_false]
    rw [hsplit, List.append_assoc, readFull_append_of_length _ _ _ _ hl1]
    simp only
    rw [readFull_append_of_length _ _ _ _ hl2]
    simp only
    rw [hk, chunkLoop_step _ _ _ _ _ h1, chunkLoop_step _ _ _ _ _ h2, chunkLoop_end]
    rfl
  · intro order horder
    have hopen : openPipes s2.track = [] := by
      apply openPipes_eq_nil
      intro j m hj
      by_cases h3 : j = 3
      · subst h3
        rw [show (3 : Nat) = (WireMessage.mk 3 ts2 0x14 sid2 playPayload).csid from rfl, hslot2] at hj
        injection hj with hj
        subst hj
        rfl
      · rw [hoth2 j h3, hoth1 j h3] at hj
        simp [trackGet, rtmpStream.new] at hj
    have hdec : decoders s2.exit =
        [(Err.EOF, Pipe.mk 0x14 connectPayload), (Err.EOF, Pipe.mk 0x14 playPayload)] := by
      simp [decoders, rtmpStream.exit, hopen, hcl2, hcl1, rtmpStream.new, WireMessage.pipe]
    rw [hdec] at horder
    rcases perm_two _ _ _ horder with h | h
    · rw [h]
      exact runDecoders_connect_play fmtOther
    · rw [h]
      exact runDecoders_play_connect fmtOther

theorem flow_connect_play_witness :
    ∃ s, parseStream (3 :: (List.replicate 3072 0 ++
          (fmt0Chunk ⟨3, [0, 0, 0], 0x14, [0, 0, 0, 0], connectPayload⟩ connectPayload ++
          fmt0Chunk ⟨3, [0, 0, 0], 0x14, [0, 0, 0, 0], playPayload⟩ playPayload))) = some s ∧
      ∀ order, order.Perm (decoders s) →
        (runDecoders (fun _ => []) MessageFinalizer.init order).map (fun c => c.r) =
          some [lit "rtmpdump -y 'stream' -a 'live' -R -o 'stream'"] :=
  flow_connect_play (fun _ => []) (List.replicate 3072 0) [0, 0, 0] [0, 0, 0, 0] [0, 0, 0] [0, 0, 0, 0]
    (List.length_replicate _ _) rfl (by decide) rfl rfl (by decide) rfl

/-! ## Theorems: later claims -/

/-- C12: for every byte `b`, every payload `p`, every way the pipe ends and
every collator, `processNewMessage` with type 0x11 on `b :: p` returns the same
error and leaves the collator in the same state (so delivers the same value
list) as `processNewMessage` with type 0x14 on `p`. -/
theorem amf3_is_amf0_behind_one_byte (fmtOther : Value → GoString) (e : Err) (b : Nat)
    (p : List Nat) (c : MessageFinalizer) :
    processNewMessage fmtOther e (b :: p) c 0x11 = processNewMessage fmtOther e p c 0x14 ∧
      readValues e 0x11 (b :: p) = readValues e 0x14 p := by
  have h : readValues e 0x11 (b :: p) = readValues e 0x14 p := by
    simp [readValues, readFull]
  exact ⟨by simp only [processNewMessage, h], h⟩

/-- C13: `processChunk` takes the format to be the first byte `h` shifted right
by 6 and the chunk stream id to be the low six bits of `h` when they are 2..63,
`64 + b` for the next byte `b` when they are 0, and `64 + (256 * b1 + b2)` for
the next two bytes when they are 1; so the one-byte extension with `b` and the
two-byte extension with `00 b` lead to the same call on the same slot. -/
theorem basic_header_decoding (s : rtmpStream) (h b b1 b2 : Nat) (rest : List Nat)
    (hb : b < 256) (hb1 : b1 < 256) (hb2 : b2 < 256) :
    (2 ≤ h % 64 → processChunk s (h :: rest) = processMessageChunk s (h / 64) (h % 64) rest) ∧
    (h % 64 = 0 →
      processChunk s (h :: b :: rest) = processMessageChunk s (h / 64) (64 + b) rest) ∧
    (h % 64 = 1 →
      processChunk s (h :: b1 :: b2 :: rest) =
        processMessageChunk s (h / 64) (64 + (256 * b1 + b2)) rest) ∧
    (∀ f, processChunk s (f * 64 :: b :: rest) = processChunk s ((f * 64 + 1) :: 0 :: b :: rest)) := by
  refine ⟨?_, ?_, ?_, ?_⟩
  · intro h2
    have h0 : h % 64 ≠ 0 := by omega
    have h1 : h % 64 ≠ 1 := by omega
    simp [processChunk, readFull, readChunkStreamID, h0, h1]
  · intro h0
    have hc : (b + 64) % 4294967296 = 64 + b := by omega
    simp [processChunk, readFull, readChunkStreamID, h0, beNat, hc]
  · intro h1
    have hc : (b1 * 256 + b2 + 64) % 4294967296 = 64 + (256 * b1 + b2) := by omega
    simp [processChunk, readFull, readChunkStreamID, h1, beNat, hc]
  · intro f
    have hd1 : (f * 64) / 64 = f := by omega
    have hm1 : (f * 64) % 64 = 0 := by omega
    have hd2 : (f * 64 + 1) / 64 = f := by omega
    have hm2 : (f * 64 + 1) % 64 = 1 := by omega
    have hc : (b + 64) % 4294967296 = b + 64 := by omega
    simp [processChunk, readFull, readChunkStreamID, hd1, hm1, hd2, hm2, beNat, hc]

theorem basic_header_decoding_witness :
    (2 ≤ 195 % 64 →
      processChunk rtmpStream.new (195 :: [9]) = processMessageChunk rtmpStream.new (195 / 64) (195 % 64) [9]) ∧
    (195 % 64 = 0 →
      processChunk rtmpStream.new (195 :: 6 :: [9]) = processMessageChunk rtmpStream.new (195 / 64) (64 + 6) [9]) ∧
    (195 % 64 = 1 →
      processChunk rtmpStream.new (195 :: 1 :: 2 :: [9]) =
        processMessageChunk rtmpStream.new (195 / 64) (64 + (256 * 1 + 2)) [9]) ∧
    (∀ f, processChunk rtmpStream.new (f * 64 :: 6 :: [9]) =
      processChunk rtmpStream.new ((f * 64 + 1) :: 0 :: 6 :: [9])) :=
  basic_header_decoding rtmpStream.new 195 6 1 2 [9] (by decide) (by decide) (by decide)

/-- C14: on a chunk stream id `N` with no header seen so far, a chunk of format
2 or 3 makes `processChunk` return the error whose text is "dropping stream, we
missed the header of chunkStreamID N", for which `errIsEOF` is false; the bytes
after the basic header are not read, no pipe is opened or closed, and the slot
of `N` is left as it was (the empty message when there was none). -/
theorem missed_header (s : rtmpStream) (fmt N : Nat) (rest : List Nat)
    (hN2 : 2 ≤ N) (hN : N ≤ 65599) (hfmt : fmt = 2 ∨ fmt = 3)
    (hnew : ∀ m, trackGet N s.track = some m → m.headerOk = false) :
    processChunk s (basicHeader fmt N ++ rest) =
        (some (.missedHeader N), s.store N ((trackGet N s.track).getD RTMPMessage.empty), rest) ∧
      (Err.missedHeader N).text =
        "dropping stream, we missed the header of chunkStreamID " ++ toString N ∧
      errIsEOF (.missedHeader N) = false ∧
      (s.store N ((trackGet N s.track).getD RTMPMessage.empty)).closed = s.closed ∧
      (trackGet N s.track = none →
        trackGet N (s.store N ((trackGet N s.track).getD RTMPMessage.empty)).track =
          some RTMPMessage.empty) ∧
      (∀ m, trackGet N s.track = some m →
        trackGet N (s.store N ((trackGet N s.track).getD RTMPMessage.empty)).track = some m) ∧
      (∀ j, j ≠ N →
        trackGet j (s.store N ((trackGet N s.track).getD RTMPMessage.empty)).track =
          trackGet j s.track) := by
  have hok : ((trackGet N s.track).getD RTMPMessage.empty).headerOk = false := by
    rcases hg : trackGet N s.track with _ | m
    · rfl
    · exact hnew m hg
  refine ⟨?_, rfl, rfl, rfl, ?_, ?_, fun j hj => trackGet_store_other _ _ _ _ hj⟩
  · rw [processChunk_basicHeader s fmt N rest hN2 hN]
    unfold processMessageChunk
    rcases hfmt with h | h <;> subst h <;> simp [readMessageHeader, hok]
  · intro h
    rw [trackGet_store_self, h]
    rfl
  · intro m h
    rw [trackGet_store_self, h]
    rfl

theorem missed_header_witness :
    processChunk rtmpStream.new (basicHeader 3 5 ++ [1, 2, 3]) =
        (some (.missedHeader 5),
          rtmpStream.new.store 5 ((trackGet 5 rtmpStream.new.track).getD RTMPMessage.empty), [1, 2, 3]) ∧
      (Err.missedHeader 5).text =
        "dropping stream, we missed the header of chunkStreamID " ++ toString 5 ∧
      errIsEOF (.missedHeader 5) = false ∧
      (rtmpStream.new.store 5 ((trackGet 5 rtmpStream.new.track).getD RTMPMessage.empty)).closed =
        rtmpStream.new.closed ∧
      (trackGet 5 rtmpStream.new.track = none →
        trackGet 5 (rtmpStream.new.store 5
          ((trackGet 5 rtmpStream.new.track).getD RTMPMessage.empty)).track =
          some RTMPMessage.empty) ∧
      (∀ m, trackGet 5 rtmpStream.new.track = some m →
        trackGet 5 (rtmpStream.new.store 5
          ((trackGet 5 rtmpStream.new.track).getD RTMPMessage.empty)).track = some m) ∧
      (∀ j, j ≠ 5 →
        trackGet j (rtmpStream.new.store 5
          ((trackGet 5 rtmpStream.new.track).getD RTMPMessage.empty)).track =
          trackGet j rtmpStream.new.track) :=
  missed_header rtmpStream.new 3 5 [1, 2, 3] (by decide) (by decide) (Or.inr rfl)
    (by intro m h; simp [trackGet, rtmpStream.new] at h)

theorem processMessageChunk_eq (s : rtmpStream) (fmt csid : Nat) (buf2 : List Nat) :
    processMessageChunk s fmt csid buf2 =
      match readMessageHeader fmt ((trackGet csid s.track).getD RTMPMessage.empty) buf2 with
      | (some e, msg1, buf3) => (some e, s.store csid msg1, buf3)
      | (none, msg1, buf3) =>
        if ¬ msg1.headerOk then (some (.missedHeader csid), s.store csid msg1, buf3)
        else
          match readTimestamps fmt (openWriter msg1) buf3 with
          | (some e, msg3, buf4) => (some e, s.store csid msg3, buf4)
          | (none, msg3, buf4) =>
            match readChunkSize s.chunkSize (startMessage msg3) buf4 with
            | (some e, chunkSize, msg5, buf5) =>
              (some e, { s with chunkSize := chunkSize }.store csid msg5, buf5)
            | (none, chunkSize, msg5, buf5) =>
              match sendMessagePayload chunkSize buf5 csid msg5 with
              | (some e, msg6, buf6) => (some e, { s with chunkSize := chunkSize }.store csid msg6, buf6)
              | (none, msg6, buf6) =>
                if msg6.remainingLength = 0 then
                  (none,
                    { s with chunkSize := chunkSize, closed := s.closed ++ msg6.writer.toList }.store
                      csid { msg6 with writer := none },
                    buf6)
                else (none, { s with chunkSize := chunkSize }.store csid msg6, buf6) := by
  rfl

/-- A call of `processMessageChunk` that returns nil has gone through its four
reads without error. -/
theorem processMessageChunk_ok (s s1 : rtmpStream) (fmt csid : Nat) (buf2 buf6 : List Nat)
    (h : processMessageChunk s fmt csid buf2 = (none, s1, buf6)) :
    ∃ msg1 buf3 msg3 buf4 cs msg5 buf5 msg6,
      readMessageHeader fmt ((trackGet csid s.track).getD RTMPMessage.empty) buf2 = (none, msg1, buf3) ∧
      msg1.headerOk = true ∧
      readTimestamps fmt (openWriter msg1) buf3 = (none, msg3, buf4) ∧
      readChunkSize s.chunkSize (startMessage msg3) buf4 = (none, cs, msg5, buf5) ∧
      sendMessagePayload cs buf5 csid msg5 = (none, msg6, buf6) ∧
      s1 = closeOut s cs csid msg6 := by
  rw [processMessageChunk_eq] at h
  rcases h1 : readMessageHeader fmt ((trackGet csid s.track).getD RTMPMessage.empty) buf2 with
    ⟨_ | e1, msg1, buf3⟩
  swap
  · rw [h1] at h
    simp at h
  rw [h1] at h
  dsimp only at h
  by_cases hok : msg1.headerOk = true
  swap
  · simp [hok] at h
  rw [if_neg (by simp [hok])] at h
  rcases h3 : readTimestamps fmt (openWriter msg1) buf3 with ⟨_ | e3, msg3, buf4⟩
  swap
  · rw [h3] at h
    simp at h
  rw [h3] at h
  dsimp only at h
  rcases h5 : readChunkSize s.chunkSize (startMessage msg3) buf4 with ⟨_ | e5, cs, msg5, buf5⟩
  swap
  · rw [h5] at h
    simp at h
  rw [h5] at h
  dsimp only at h
  rcases h6 : sendMessagePayload cs buf5 csid msg5 with ⟨_ | e6, msg6, buf7⟩
  swap
  · rw [h6] at h
    simp at h
  rw [h6] at h
  dsimp only at h
  refine ⟨msg1, buf3, msg3, buf4, cs, msg5, buf5, msg6, rfl, hok, h3, h5, ?_, ?_⟩
  · by_cases h0 : msg6.remainingLength = 0
    · rw [if_pos h0] at h
      simp only [Prod.mk.injEq, true_and] at h
      rw [← h.2]
      exact h6
    · rw [if_neg h0] at h
      simp only [Prod.mk.injEq, true_and] at h
      rw [← h.2]
      exact h6
  · unfold closeOut
    by_cases h0 : msg6.remainingLength = 0
    · rw [if_pos h0] at h ⊢
      simp only [Prod.mk.injEq, true_and] at h
      exact h.1.symm
    · rw [if_neg h0] at h ⊢
      simp only [Prod.mk.injEq, true_and] at h
      exact h.1.symm

theorem readMessageHeader_ok (fmt : Nat) (msg msg1 : RTMPMessage) (buf buf3 : List Nat)
    (h : readMessageHeader fmt msg buf = (none, msg1, buf3)) :
    ∃ mh, buf = mh ++ buf3 ∧
      mh.length = (if fmt = 0 then 11 else if fmt = 1 then 7 else 0) ∧
      msg1.remainingLength = msg.remainingLength ∧ msg1.writer = msg.writer ∧
      (fmt = 0 ∨ fmt = 1 →
        msg1.hdr = { Timestamp := mh.take 3, MessageLength := (mh.drop 3).take 3,
                     TypeID := (mh.drop 6).headI } ∧ msg1.headerOk = true) ∧
      (fmt = 0 → msg1.streamID = leNat (mh.drop 7)) ∧
      (fmt ≠ 0 → msg1.streamID = msg.streamID) ∧
      (fmt ≠ 0 → fmt ≠ 1 → msg1 = msg) := by
  unfold readMessageHeader at h
  by_cases h01 : fmt = 0 ∨ fmt = 1
  · rw [if_pos h01] at h
    rcases h7 : readFull .EOF 7 buf with e | ⟨hb, buf1⟩
    · rw [h7] at h
      simp at h
    · rw [h7] at h
      dsimp only at h
      obtain ⟨hsplit, hlen⟩ := readFull_ok _ _ _ _ _ h7
      by_cases h0 : fmt = 0
      · rw [if_pos h0] at h
        rcases h4 : readFull .EOF 4 buf1 with e | ⟨sid, buf2⟩
        · rw [h4] at h
          simp at h
        · rw [h4] at h
          dsimp only at h
          obtain ⟨hsplit4, hlen4⟩ := readFull_ok _ _ _ _ _ h4
          simp only [Prod.mk.injEq, true_and] at h
          obtain ⟨hm, hb3⟩ := h
          subst hm hb3
          refine ⟨hb ++ sid, by rw [hsplit, hsplit4, List.append_assoc], by simp [h0, hlen, hlen4],
            rfl, rfl, ?_, ?_, fun hn => absurd h0 hn, fun hn => absurd h0 hn⟩
          · intro _
            refine ⟨?_, rfl⟩
            have t1 : (hb ++ sid).take 3 = hb.take 3 := by
              rw [List.take_append_of_le_length (by omega)]
            have t2 : ((hb ++ sid).drop 3).take 3 = (hb.drop 3).take 3 := by
              rw [List.drop_append_of_le_length (by omega),
                List.take_append_of_le_length (by rw [List.length_drop]; omega)]
            have t3 : ((hb ++ sid).drop 6).headI = (hb.drop 6).headI := by
              rw [List.drop_append_of_le_length (by omega)]
              have : (hb.drop 6) ≠ [] := by
                intro hnil
                have := congrArg List.length hnil
                simp at this
                omega
              obtain ⟨x, xs, hx⟩ := List.exists_cons_of_ne_nil this
              rw [hx]
              rfl
            rw [t1, t2, t3]
          · intro _
            have : (hb ++ sid).drop 7 = sid := by
              rw [List.drop_append_of_le_length (by omega), List.drop_of_length_le (by omega)]
              rfl
            rw [this]
      · rw [if_neg h0] at h
        simp only [Prod.mk.injEq, true_and] at h
        obtain ⟨hm, hb3⟩ := h
        subst hm hb3
        have h1 : fmt = 1 := by omega
        refine ⟨hb, hsplit, by simp [h0, h1, hlen], rfl, rfl, fun _ => ⟨rfl, rfl⟩,
          fun hn => absurd hn h0, fun _ => rfl, fun _ hn => absurd h1 hn⟩
  · rw [if_neg h01] at h
    simp only [Prod.mk.injEq, true_and] at h
    obtain ⟨hm, hb3⟩ := h
    subst hm hb3
    have h0 : fmt ≠ 0 := fun hn => h01 (Or.inl hn)
    have h1 : fmt ≠ 1 := fun hn => h01 (Or.inr hn)
    exact ⟨[], rfl, by simp [h0, h1], rfl, rfl, fun hn => absurd hn h01, fun hn => absurd hn h0,
      fun _ => rfl, fun _ _ => rfl⟩

theorem readTimestamps_ok (fmt : Nat) (msg msg3 : RTMPMessage) (buf buf4 : List Nat)
    (h : readTimestamps fmt msg buf = (none, msg3, buf4)) :
    ∃ td ext, buf = td ++ (ext ++ buf4) ∧
      td.length = (if fmt = 2 then 3 else 0) ∧
      ext.length = (if msg3.hdr.Timestamp = [255, 255, 255] then 4 else 0) ∧
      msg3 = (if fmt = 2 then { msg with hdr := { msg.hdr with Timestamp := td } } else msg) := by
  unfold readTimestamps at h
  by_cases h2 : fmt = 2
  · simp only [h2, if_true] at h ⊢
    rcases h3 : readFull .EOF 3 buf with e | ⟨ts, buf1⟩
    · rw [h3] at h
      simp at h
    · rw [h3] at h
      dsimp only at h
      obtain ⟨hsplit, hlen⟩ := readFull_ok _ _ _ _ _ h3
      by_cases hff : ts = [255, 255, 255]
      · rw [if_pos hff] at h
        rcases h4 : readFull .EOF 4 buf1 with e | ⟨x, buf2⟩
        · rw [h4] at h
          simp at h
        · rw [h4] at h
          dsimp only at h
          obtain ⟨hsplit4, hlen4⟩ := readFull_ok _ _ _ _ _ h4
          simp only [Prod.mk.injEq, true_and] at h
          obtain ⟨hm, hb⟩ := h
          subst hm hb
          exact ⟨ts, x, by rw [hsplit, hsplit4], hlen, by simp [hff, hlen4], rfl⟩
      · rw [if_neg hff] at h
        simp only [Prod.mk.injEq, true_and] at h
        obtain ⟨hm, hb⟩ := h
        subst hm hb
        exact ⟨ts, [], by simpa using hsplit, hlen, by simp [hff], rfl⟩
  · simp only [h2, if_false] at h ⊢
    by_cases hff : msg.hdr.Timestamp = [255, 255, 255]
    · rw [if_pos hff] at h
      rcases h4 : readFull .EOF 4 buf with e | ⟨x, buf2⟩
      · rw [h4] at h
        simp at h
      · rw [h4] at h
        dsimp only at h
        obtain ⟨hsplit4, hlen4⟩ := readFull_ok _ _ _ _ _ h4
        simp only [Prod.mk.injEq, true_and] at h
        obtain ⟨hm, hb⟩ := h
        subst hm hb
        exact ⟨[], x, by simpa using hsplit4, rfl, by simp [hff, hlen4], rfl⟩
    · rw [if_neg hff] at h
      simp only [Prod.mk.injEq, true_and] at h
      obtain ⟨hm, hb⟩ := h
      subst hm hb
      exact ⟨[], [], rfl, rfl, by simp [hff], rfl⟩

theorem readChunkSize_ok (c cs : Nat) (msg msg5 : RTMPMessage) (buf buf5 : List Nat)
    (h : readChunkSize c msg buf = (none, cs, msg5, buf5)) :
    ∃ cb, buf = cb ++ buf5 ∧
      cb.length = (if msg.hdr.TypeID = 1 ∧ msg.remainingLength ≥ 4 then 4 else 0) ∧
      msg5 = { msg with remainingLength := msg.remainingLength - cb.length } ∧
      cs = (if msg.hdr.TypeID = 1 ∧ msg.remainingLength ≥ 4 then beNat cb else c) := by
  unfold readChunkSize at h
  by_cases h1 : msg.hdr.TypeID = 1 ∧ msg.remainingLength ≥ 4
  · rw [if_pos h1] at h
    rcases h4 : readFull .EOF 4 buf with e | ⟨x, buf1⟩
    · rw [h4] at h
      simp at h
    · rw [h4] at h
      dsimp only at h
      obtain ⟨hsplit, hlen⟩ := readFull_ok _ _ _ _ _ h4
      simp only [Prod.mk.injEq, true_and] at h
      obtain ⟨hcs, hm, hb⟩ := h
      subst hcs hm hb
      exact ⟨x, hsplit, by simp [h1, hlen], by simp [hlen], by simp [h1]⟩
  · rw [if_neg h1] at h
    simp only [Prod.mk.injEq, true_and] at h
    obtain ⟨hcs, hm, hb⟩ := h
    subst hcs hm hb
    exact ⟨[], rfl, by simp [h1], by simp, by simp [h1]⟩

theorem sendMessagePayload_ok (cs csid : Nat) (msg msg6 : RTMPMessage) (buf buf6 : List Nat)
    (h : sendMessagePayload cs buf csid msg = (none, msg6, buf6)) :
    ∃ bx, buf = bx ++ buf6 ∧ bx.length = min cs msg.remainingLength ∧
      bx.length ≤ msg.remainingLength ∧
      msg6 = { msg with remainingLength := msg.remainingLength - bx.length,
                        writer := msg.writer.map (fun w => { w with data := w.data ++ bx }) } := by
  have hmin : min cs msg.remainingLength ≤ msg.remainingLength := by
    unfold min
    split_ifs <;> omega
  unfold sendMessagePayload at h
  dsimp only at h
  by_cases hpos : min cs msg.remainingLength > 0
  · rw [if_pos hpos] at h
    rcases hr : readFull .EOF (min cs msg.remainingLength) buf with e | ⟨bx, buf1⟩
    · rw [hr] at h
      simp at h
    · rw [hr] at h
      dsimp only at h
      obtain ⟨hsplit, hlen⟩ := readFull_ok _ _ _ _ _ hr
      simp only [Prod.mk.injEq, true_and] at h
      obtain ⟨hm, hb⟩ := h
      subst hm hb
      exact ⟨bx, hsplit, hlen, by omega, by rw [hlen]⟩
  · rw [if_neg hpos] at h
    simp only [Prod.mk.injEq, true_and] at h
    obtain ⟨hm, hb⟩ := h
    subst hm hb
    have h0 : min cs msg.remainingLength = 0 := by omega
    refine ⟨[], rfl, h0.symm, Nat.zero_le _, ?_⟩
    rw [h0]
    cases hw : msg.writer <;> simp

theorem processChunk_header_ok (s s1 : rtmpStream) (buf buf6 : List Nat)
    (h : processChunk s buf = (none, s1, buf6)) :
    ∃ hb csid bh buf2, buf = bh ++ buf2 ∧ bh.head? = some hb ∧ bh.length = basicHeaderLen hb ∧
      processMessageChunk s (hb / 64) csid buf2 = (none, s1, buf6) := by
  unfold processChunk at h
  rcases h1 : readFull .EOF 1 buf with e | ⟨b1, buf1⟩
  · rw [h1] at h
    simp at h
  · rw [h1] at h
    dsimp only at h
    obtain ⟨hsplit, hlen⟩ := readFull_ok _ _ _ _ _ h1
    obtain ⟨hb, rfl⟩ : ∃ hb, b1 = [hb] := by
      match b1, hlen with
      | [x], _ => exact ⟨x, rfl⟩
    simp only [List.headI_cons] at h
    unfold readChunkStreamID at h
    unfold basicHeaderLen
    by_cases h0 : hb % 64 = 0
    · rw [if_pos h0] at h
      rcases h2 : readFull .EOF 1 buf1 with e | ⟨b2, buf2⟩
      · rw [h2] at h
        simp at h
      · rw [h2] at h
        dsimp only at h
        obtain ⟨hsplit2, hlen2⟩ := readFull_ok _ _ _ _ _ h2
        exact ⟨hb, _, hb :: b2, buf2, by rw [hsplit, hsplit2]; rfl, rfl, by simp [h0, hlen2], h⟩
    · rw [if_neg h0] at h
      by_cases h1' : hb % 64 = 1
      · rw [if_pos h1'] at h
        rcases h2 : readFull .EOF 2 buf1 with e | ⟨b2, buf2⟩
        · rw [h2] at h
          simp at h
        · rw [h2] at h
          dsimp only at h
          obtain ⟨hsplit2, hlen2⟩ := readFull_ok _ _ _ _ _ h2
          exact ⟨hb, _, hb :: b2, buf2, by rw [hsplit, hsplit2]; rfl, rfl, by simp [h1', hlen2], h⟩
      · rw [if_neg h1'] at h
        dsimp only at h
        exact ⟨hb, _, [hb], buf1, hsplit, rfl, by simp [h0, h1'], h⟩

theorem openWriter_writer (m : RTMPMessage) :
    (openWriter m).writer = some (m.writer.getD (Pipe.mk m.hdr.TypeID [])) := by
  obtain ⟨hdr, ok, sid, rem, w⟩ := m
  cases w <;> rfl

/-- What a call of `processChunk` that returns nil has read and done: the
bytes of the basic header `bh`, of the message header `mh` (for format 2 the
timestamp delta), of the extended timestamp `ext`, of the chunk size `cb` and
of the payload `bx`; `old` is the slot before the call, `new` the slot after
it, `start` what was left to receive when the header had been read. -/
theorem processChunk_shape (s s1 : rtmpStream) (buf buf6 : List Nat)
    (h : processChunk s buf = (none, s1, buf6)) :
    ∃ (hb csid start : Nat) (old new : RTMPMessage) (bh mh ext cb bx : List Nat),
      buf = bh ++ (mh ++ (ext ++ (cb ++ (bx ++ buf6)))) ∧
      bh.head? = some hb ∧ bh.length = basicHeaderLen hb ∧
      mh.length = messageHeaderLen (hb / 64) ∧
      ext.length = (if new.hdr.Timestamp = [255, 255, 255] then 4 else 0) ∧
      old = (trackGet csid s.track).getD RTMPMessage.empty ∧
      s1.track = (csid, new) :: s.track ∧ s1.aborted = s.aborted ∧
      start = (if old.remainingLength = 0 then beNat new.hdr.MessageLength % 2 ^ 32
        else old.remainingLength) ∧
      cb.length = (if new.hdr.TypeID = 1 ∧ start ≥ 4 then 4 else 0) ∧
      s1.chunkSize = (if new.hdr.TypeID = 1 ∧ start ≥ 4 then beNat cb else s.chunkSize) ∧
      bx.length = min s1.chunkSize (start - cb.length) ∧
      new.remainingLength + bx.length + cb.length = start ∧
      new.headerOk = true ∧
      (new.remainingLength = 0 → new.writer = none ∧
        s1.closed = s.closed ++ [Pipe.mk (old.writer.getD (Pipe.mk new.hdr.TypeID [])).typeID
          ((old.writer.getD (Pipe.mk new.hdr.TypeID [])).data ++ bx)]) ∧
      (new.remainingLength ≠ 0 → s1.closed = s.closed ∧
        new.writer = some (Pipe.mk (old.writer.getD (Pipe.mk new.hdr.TypeID [])).typeID
          ((old.writer.getD (Pipe.mk new.hdr.TypeID [])).data ++ bx))) ∧
      (hb / 64 = 0 →
        new.hdr = { Timestamp := mh.take 3, MessageLength := (mh.drop 3).take 3,
                    TypeID := (mh.drop 6).headI } ∧ new.streamID = leNat (mh.drop 7)) ∧
      (hb / 64 = 1 →
        new.hdr = { Timestamp := mh.take 3, MessageLength := (mh.drop 3).take 3,
                    TypeID := (mh.drop 6).headI } ∧ new.streamID = old.streamID) ∧
      (hb / 64 = 2 →
        new.hdr = { old.hdr with Timestamp := mh } ∧ new.streamID = old.streamID) ∧
      (hb / 64 ≠ 0 → hb / 64 ≠ 1 → hb / 64 ≠ 2 →
        new.hdr = old.hdr ∧ new.streamID = old.streamID) := by
  obtain ⟨hb, csid, bh, buf2, hbuf, hhead, hbhlen, hcall⟩ := processChunk_header_ok s s1 buf buf6 h
  obtain ⟨msg1, buf3, msg3, buf4, cs, msg5, buf5, msg6, h1, hok, h3, h5, h6, hs1⟩ :=
    processMessageChunk_ok s s1 (hb / 64) csid buf2 buf6 hcall
  obtain ⟨mh0, hmh, hmhlen, hrem1, hw1, hf01, hf0, hfn0, hfn01⟩ := readMessageHeader_ok _ _ _ _ _ h1
  obtain ⟨td, ext, htd, htdlen, hextlen, hmsg3⟩ := readTimestamps_ok _ _ _ _ _ h3
  obtain ⟨cb, hcb, hcblen, hmsg5, hcs⟩ := readChunkSize_ok _ _ _ _ _ _ h5
  obtain ⟨bx, hbx, hbxlen, hbxle, hmsg6⟩ := sendMessagePayload_ok _ _ _ _ _ _ h6
  -- the slot left in the track
  have hnew : ∃ new, s1.track = (csid, new) :: s.track ∧ s1.aborted = s.aborted ∧ s1.chunkSize = cs ∧
      new.hdr = msg6.hdr ∧ new.headerOk = msg6.headerOk ∧ new.streamID = msg6.streamID ∧
      new.remainingLength = msg6.remainingLength ∧
      (msg6.remainingLength = 0 → new.writer = none ∧ s1.closed = s.closed ++ msg6.writer.toList) ∧
      (msg6.remainingLength ≠ 0 → new.writer = msg6.writer ∧ s1.closed = s.closed) := by
    rw [hs1]
    unfold closeOut
    by_cases h0 : msg6.remainingLength = 0
    · rw [if_pos h0]
      exact ⟨_, rfl, rfl, rfl, rfl, rfl, rfl, rfl, fun _ => ⟨rfl, rfl⟩, fun hn => absurd h0 hn⟩
    · rw [if_neg h0]
      exact ⟨_, rfl, rfl, rfl, rfl, rfl, rfl, rfl, fun hn => absurd hn h0, fun _ => ⟨rfl, rfl⟩⟩
  obtain ⟨new, htrack, hab, hcs1, hnhdr, hnok, hnsid, hnrem, hnclose, hnopen⟩ := hnew
  -- the fields of the successive messages
  have h6hdr : msg6.hdr = msg3.hdr := by
    rw [hmsg6, hmsg5]
    unfold startMessage
    split_ifs <;> rfl
  have h6ok : msg6.headerOk = msg3.headerOk := by
    rw [hmsg6, hmsg5]
    unfold startMessage
    split_ifs <;> rfl
  have h6sid : msg6.streamID = msg3.streamID := by
    rw [hmsg6, hmsg5]
    unfold startMessage
    split_ifs <;> rfl
  have h3ok : msg3.headerOk = msg1.headerOk := by
    rw [hmsg3]
    unfold openWriter
    split_ifs <;> rfl
  have h3sid : msg3.streamID = msg1.streamID := by
    rw [hmsg3]
    unfold openWriter
    split_ifs <;> rfl
  have h3rem : msg3.remainingLength = msg1.remainingLength := by
    rw [hmsg3]
    unfold openWriter
    split_ifs <;> rfl
  have h3len : msg3.hdr.MessageLength = msg1.hdr.MessageLength := by
    rw [hmsg3]
    unfold openWriter
    split_ifs <;> rfl
  have h3ty : msg3.hdr.TypeID = msg1.hdr.TypeID := by
    rw [hmsg3]
    unfold openWriter
    split_ifs <;> rfl
  have h3w : msg3.writer = some (msg1.writer.getD (Pipe.mk msg1.hdr.TypeID [])) := by
    rw [hmsg3]
    split_ifs <;> exact openWriter_writer msg1
  have hstart : (startMessage msg3).remainingLength =
      (if msg1.remainingLength = 0 then beNat msg3.hdr.MessageLength % 2 ^ 32
        else msg1.remainingLength) := by
    unfold startMessage
    rw [h3rem]
    split_ifs <;> simp [h3rem]
  have hsty : (startMessage msg3).hdr = msg3.hdr := by
    unfold startMessage
    split_ifs <;> rfl
  have hsw : (startMessage msg3).writer = msg3.writer := by
    unfold startMessage
    split_ifs <;> rfl
  have h5rem : msg5.remainingLength = (startMessage msg3).remainingLength - cb.length := by rw [hmsg5]
  have h5w : msg5.writer = msg3.writer := by rw [hmsg5, hsw]
  have h6rem : msg6.remainingLength = msg5.remainingLength - bx.length := by rw [hmsg6]
  have h6w : msg6.writer = some (Pipe.mk (msg1.writer.getD (Pipe.mk msg1.hdr.TypeID [])).typeID
      ((msg1.writer.getD (Pipe.mk msg1.hdr.TypeID [])).data ++ bx)) := by
    rw [hmsg6]
    simp only [h5w, h3w, Option.map_some']
  have hcbrem : cb.length ≤ (startMessage msg3).remainingLength := by
    rw [hcblen]
    split_ifs with hc
    · exact hc.2
    · exact Nat.zero_le _
  refine ⟨hb, csid, (startMessage msg3).remainingLength, _, new, bh, mh0 ++ td, ext, cb, bx,
    ?_, hhead, hbhlen, ?_, ?_, rfl, htrack, hab, ?_, ?_, ?_, ?_, ?_, ?_, ?_, ?_, ?_, ?_, ?_, ?_⟩
  · rw [hbuf, hmh, htd, hcb, hbx]
    simp only [List.append_assoc]
  · rw [List.length_append, hmhlen, htdlen]
    unfold messageHeaderLen
    split_ifs <;> omega
  · rw [hnhdr, h6hdr]
    exact hextlen
  · rw [hstart, hrem1, hnhdr, h6hdr]
  · rw [hcblen, hsty, hnhdr, h6hdr]
  · rw [hcs1, hcs, hsty, hnhdr, h6hdr]
  · rw [hcs1, hbxlen, h5rem]
  · rw [hnrem, h6rem, h5rem]
    rw [h5rem] at hbxle
    omega
  · rw [hnok, h6ok, h3ok]
    exact hok
  · intro h0
    rw [hnrem] at h0
    obtain ⟨hw, hc⟩ := hnclose h0
    refine ⟨hw, ?_⟩
    rw [hc, h6w, hw1, hnhdr, h6hdr, h3ty]
    rfl
  · intro h0
    rw [hnrem] at h0
    obtain ⟨hw, hc⟩ := hnopen h0
    refine ⟨hc, ?_⟩
    rw [hw, h6w, hw1, hnhdr, h6hdr, h3ty]
  · intro hf
    have htd0 : td = [] := List.length_eq_zero.mp (by rw [htdlen]; simp [hf])
    have h2 : ¬ (hb / 64 = 2) := by omega
    obtain ⟨hh, -⟩ := hf01 (Or.inl hf)
    rw [htd0, List.append_nil, hnhdr, h6hdr, hnsid, h6sid, h3sid, hf0 hf, hmsg3, if_neg h2]
    refine ⟨?_, rfl⟩
    unfold openWriter
    split_ifs <;> exact hh
  · intro hf
    have htd0 : td = [] := List.length_eq_zero.mp (by rw [htdlen]; simp [hf])
    have h2 : ¬ (hb / 64 = 2) := by omega
    have h0 : hb / 64 ≠ 0 := by omega
    obtain ⟨hh, -⟩ := hf01 (Or.inr hf)
    rw [htd0, List.append_nil, hnhdr, h6hdr, hnsid, h6sid, h3sid, hfn0 h0, hmsg3, if_neg h2]
    refine ⟨?_, rfl⟩
    unfold openWriter
    split_ifs <;> exact hh
  · intro hf
    have h0 : hb / 64 ≠ 0 := by omega
    have h1' : hb / 64 ≠ 1 := by omega
    have hmh0 : mh0 = [] := List.length_eq_zero.mp (by rw [hmhlen]; simp [h0, h1'])
    have hm1 := hfn01 h0 h1'
    rw [hmh0, List.nil_append, hnhdr, h6hdr, hnsid, h6sid, h3sid, hmsg3, if_pos hf, hm1]
    refine ⟨?_, rfl⟩
    unfold openWriter
    split_ifs <;> rfl
  · intro h0 h1' h2
    have hm1 := hfn01 h0 h1'
    rw [hnhdr, h6hdr, hnsid, h6sid, h3sid, hmsg3, if_neg h2, hm1]
    refine ⟨?_, rfl⟩
    unfold openWriter
    split_ifs <;> rfl

/-- C19: for every call of `processChunk` that returns nil, the bytes read are
the basic header (1, 2 or 3 bytes), the message header (11, 7, 3 or 0 bytes
for format 0, 1, 2, 3), 4 bytes when the timestamp field of the slot after the
header update is `FF FF FF`, 4 bytes when the type is 0x01 and at least 4 bytes
are left to receive, then the payload; formats 0 and 1 overwrite timestamp,
length and type, format 0 also the message stream id (little-endian), format 2
only the timestamp, format 3 nothing. -/
theorem header_bytes_consumed (s s1 : rtmpStream) (buf buf6 : List Nat)
    (h : processChunk s buf = (none, s1, buf6)) :
    ∃ (hb csid start : Nat) (old new : RTMPMessage) (bh mh ext cb bx : List Nat),
      buf = bh ++ (mh ++ (ext ++ (cb ++ (bx ++ buf6)))) ∧
      bh.head? = some hb ∧ bh.length = basicHeaderLen hb ∧
      mh.length = messageHeaderLen (hb / 64) ∧
      ext.length = (if new.hdr.Timestamp = [255, 255, 255] then 4 else 0) ∧
      cb.length = (if new.hdr.TypeID = 1 ∧ start ≥ 4 then 4 else 0) ∧
      bx.length = min s1.chunkSize (start - cb.length) ∧
      old = (trackGet csid s.track).getD RTMPMessage.empty ∧
      trackGet csid s1.track = some new ∧
      start = (if old.remainingLength = 0 then beNat new.hdr.MessageLength % 2 ^ 32
        else old.remainingLength) ∧
      (hb / 64 = 0 →
        new.hdr = { Timestamp := mh.take 3, MessageLength := (mh.drop 3).take 3,
                    TypeID := (mh.drop 6).headI } ∧ new.streamID = leNat (mh.drop 7)) ∧
      (hb / 64 = 1 →
        new.hdr = { Timestamp := mh.take 3, MessageLength := (mh.drop 3).take 3,
                    TypeID := (mh.drop 6).headI } ∧ new.streamID = old.streamID) ∧
      (hb / 64 = 2 →
        new.hdr = { old.hdr with Timestamp := mh } ∧ new.streamID = old.streamID) ∧
      (hb / 64 ≠ 0 → hb / 64 ≠ 1 → hb / 64 ≠ 2 →
        new.hdr = old.hdr ∧ new.streamID = old.streamID) := by
  obtain ⟨hb, csid, start, old, new, bh, mh, ext, cb, bx, hbuf, hhead, hbh, hmh, hext, hold, htrack,
    -, hstart, hcb, -, hbx, -, -, -, -, hf0, hf1, hf2, hf3⟩ := processChunk_shape s s1 buf buf6 h
  refine ⟨hb, csid, start, old, new, bh, mh, ext, cb, bx, hbuf, hhead, hbh, hmh, hext, hcb, hbx,
    hold, ?_, hstart, hf0, hf1, hf2, hf3⟩
  rw [htrack]
  simp [trackGet]

theorem header_bytes_consumed_witness :
    ∃ (hb csid start : Nat) (old new : RTMPMessage) (bh mh ext cb bx : List Nat),
      [3, 255, 255, 255, 0, 0, 6, 1, 2, 0, 0, 0, 9, 9, 9, 9, 0, 0, 0, 1, 7, 8] =
        bh ++ (mh ++ (ext ++ (cb ++ (bx ++
          (processChunk rtmpStream.new
            [3, 255, 255, 255, 0, 0, 6, 1, 2, 0, 0, 0, 9, 9, 9, 9, 0, 0, 0, 1, 7, 8]).2.2)))) ∧
      bh.head? = some hb ∧ bh.length = basicHeaderLen hb ∧
      mh.length = messageHeaderLen (hb / 64) ∧
      ext.length = (if new.hdr.Timestamp = [255, 255, 255] then 4 else 0) ∧
      cb.length = (if new.hdr.TypeID = 1 ∧ start ≥ 4 then 4 else 0) ∧
      bx.length = min (processChunk rtmpStream.new
            [3, 255, 255, 255, 0, 0, 6, 1, 2, 0, 0, 0, 9, 9, 9, 9, 0, 0, 0, 1, 7, 8]).2.1.chunkSize
          (start - cb.length) ∧
      old = (trackGet csid rtmpStream.new.track).getD RTMPMessage.empty ∧
      trackGet csid (processChunk rtmpStream.new
            [3, 255, 255, 255, 0, 0, 6, 1, 2, 0, 0, 0, 9, 9, 9, 9, 0, 0, 0, 1, 7, 8]).2.1.track =
        some new ∧
      start = (if old.remainingLength = 0 then beNat new.hdr.MessageLength % 2 ^ 32
        else old.remainingLength) ∧
      (hb / 64 = 0 →
        new.hdr = { Timestamp := mh.take 3, MessageLength := (mh.drop 3).take 3,
                    TypeID := (mh.drop 6).headI } ∧ new.streamID = leNat (mh.drop 7)) ∧
      (hb / 64 = 1 →
        new.hdr = { Timestamp := mh.take 3, MessageLength := (mh.drop 3).take 3,
                    TypeID := (mh.drop 6).headI } ∧ new.streamID = old.streamID) ∧
      (hb / 64 = 2 →
        new.hdr = { old.hdr with Timestamp := mh } ∧ new.streamID = old.streamID) ∧
      (hb / 64 ≠ 0 → hb / 64 ≠ 1 → hb / 64 ≠ 2 →
        new.hdr = old.hdr ∧ new.streamID = old.streamID) :=
  header_bytes_consumed rtmpStream.new _ _ _ (by rfl)

theorem processChunk_consumes (s s1 : rtmpStream) (buf buf6 : List Nat)
    (h : processChunk s buf = (none, s1, buf6)) : buf6.length < buf.length := by
  obtain ⟨hb, csid, start, old, new, bh, mh, ext, cb, bx, hbuf, hhead, hbh, -⟩ :=
    processChunk_shape s s1 buf buf6 h
  have : 1 ≤ bh.length := by
    rw [hbh]
    unfold basicHeaderLen
    split_ifs <;> omega
  rw [hbuf]
  simp only [List.length_append]
  omega

/-- The chunk loop on fuel above the number of bytes: some number `k` of calls
that return nil, not more than there are bytes, then a call that returns an
error, at which the loop ends. -/
theorem chunkLoop_ends : ∀ (n : Nat) (s : rtmpStream) (buf : List Nat), buf.length ≤ n →
    ∃ k s2 buf2 e s3 buf3, k ≤ buf.length ∧ processChunks k s buf = (none, s2, buf2) ∧
      processChunk s2 buf2 = (some e, s3, buf3) ∧
      ∀ fuel, n < fuel → chunkLoop fuel s buf = some s3 := by
  intro n
  induction n with
  | zero =>
    intro s buf hlen
    rcases hc : processChunk s buf with ⟨_ | e, s1, buf1⟩
    · have := processChunk_consumes s s1 buf buf1 hc
      omega
    · refine ⟨0, s, buf, e, s1, buf1, Nat.zero_le _, rfl, hc, ?_⟩
      intro fuel hf
      obtain ⟨f, rfl⟩ : ∃ f, fuel = f + 1 := ⟨fuel - 1, by omega⟩
      simp only [chunkLoop, hc]
  | succ n ih =>
    intro s buf hlen
    rcases hc : processChunk s buf with ⟨_ | e, s1, buf1⟩
    · have hlt := processChunk_consumes s s1 buf buf1 hc
      obtain ⟨k, s2, buf2, e, s3, buf3, hk, hrun, hfail, hloop⟩ := ih s1 buf1 (by omega)
      refine ⟨k + 1, s2, buf2, e, s3, buf3, by omega, ?_, hfail, ?_⟩
      · simp only [processChunks, hc]
        exact hrun
      · intro fuel hf
        obtain ⟨f, rfl⟩ : ∃ f, fuel = f + 1 := ⟨fuel - 1, by omega⟩
        simp only [chunkLoop, hc]
        exact hloop f (by omega)
    · refine ⟨0, s, buf, e, s1, buf1, Nat.zero_le _, rfl, hc, ?_⟩
      intro fuel hf
      obtain ⟨f, rfl⟩ : ∃ f, fuel = f + 1 := ⟨fuel - 1, by omega⟩
      simp only [chunkLoop, hc]

theorem parseStream_returns (r : List Nat) : ∃ s, parseStream r = some s := by
  unfold parseStream parseStreamBody
  cases r with
  | nil => exact ⟨_, rfl⟩
  | cons d buf =>
    dsimp only
    split_ifs
    · exact ⟨_, rfl⟩
    · rcases h1 : readFull .EOF 0x600 buf with e | ⟨x, buf1⟩
      · exact ⟨_, rfl⟩
      · dsimp only
        rcases h2 : readFull .EOF 0x600 buf1 with e | ⟨y, buf2⟩
        · exact ⟨_, rfl⟩
        · dsimp only
          obtain ⟨k, s2, b2, e, s3, b3, -, -, -, hloop⟩ :=
            chunkLoop_ends buf2.length rtmpStream.new buf2 (le_refl _)
          rw [hloop _ (Nat.lt_succ_self _)]
          exact ⟨_, rfl⟩

theorem parseStream_handshake (hs buf : List Nat) (hhs : hs.length = 3072) :
    parseStream (3 :: (hs ++ buf)) =
      (chunkLoop (buf.length + 1) rtmpStream.new buf).map rtmpStream.exit := by
  have hsplit : hs = hs.take 1536 ++ hs.drop 1536 := (List.take_append_drop _ _).symm
  have hl1 : (hs.take 1536).length = 1536 := by rw [List.length_take]; omega
  have hl2 : (hs.drop 1536).length = 1536 := by rw [List.length_drop]; omega
  unfold parseStream parseStreamBody
  simp only [ne_eq, not_true_eq_false, if_false]
  rw [hsplit, List.append_assoc, readFull_append_of_length _ _ _ _ hl1]
  simp only
  rw [readFull_append_of_length _ _ _ _ hl2]

/-- The first call that returns nil on a stream with no slot reads a message
header of format 0 or 1: at least 8 bytes. -/
theorem processChunk_first_consumes (s s1 : rtmpStream) (buf buf6 : List Nat)
    (h : processChunk s buf = (none, s1, buf6)) (hs : s.track = []) :
    buf6.length + 8 ≤ buf.length := by
  obtain ⟨hb, csid, start, old, new, bh, mh, ext, cb, bx, hbuf, hhead, hbh, hmh, -⟩ :=
    processChunk_shape s s1 buf buf6 h
  obtain ⟨hb2, csid2, bh2, buf2, hbuf2, hhead2, -, hcall⟩ := processChunk_header_ok s s1 buf buf6 h
  obtain ⟨msg1, buf3, -, -, -, -, -, -, h1, hok, -⟩ := processMessageChunk_ok s s1 _ csid2 buf2 buf6 hcall
  obtain ⟨-, -, -, -, -, -, -, -, hsame⟩ := readMessageHeader_ok _ _ _ _ _ h1
  have hhb : hb2 = hb := by
    have e1 : buf.head? = some hb := by
      rw [hbuf]
      cases bh with
      | nil => simp at hhead
      | cons x xs => simpa using hhead
    have e2 : buf.head? = some hb2 := by
      rw [hbuf2]
      cases bh2 with
      | nil => simp at hhead2
      | cons x xs => simpa using hhead2
    rw [e1] at e2
    exact (Option.some.inj e2).symm
  subst hhb
  have hfmt : hb2 / 64 = 0 ∨ hb2 / 64 = 1 := by
    by_contra hne
    rw [not_or] at hne
    have := hsame hne.1 hne.2
    rw [this, hs] at hok
    simp [trackGet, RTMPMessage.empty] at hok
  have h7 : 7 ≤ mh.length := by
    rw [hmh]
    unfold messageHeaderLen
    rcases hfmt with hf | hf <;> rw [hf] <;> decide
  have h1 : 1 ≤ bh.length := by
    rw [hbh]
    unfold basicHeaderLen
    split_ifs <;> omega
  rw [hbuf]
  simp only [List.length_append]
  omega

/-- The chunk loop of `parseStream`, which starts on a new stream: the calls
that return nil and the call that ends the loop are together not more than
the bytes, when there is a byte at all. -/
theorem chunkLoop_new_ends (buf : List Nat) :
    ∃ k s2 buf2 e s3 buf3, processChunks k rtmpStream.new buf = (none, s2, buf2) ∧
      processChunk s2 buf2 = (some e, s3, buf3) ∧
      chunkLoop (buf.length + 1) rtmpStream.new buf = some s3 ∧
      k ≤ buf.length ∧ (buf ≠ [] → k + 1 ≤ buf.length) := by
  rcases hc : processChunk rtmpStream.new buf with ⟨_ | e, s1, buf1⟩
  · have h8 := processChunk_first_consumes rtmpStream.new s1 buf buf1 hc rfl
    obtain ⟨k, s2, buf2, e, s3, buf3, hk, hrun, hfail, hloop⟩ :=
      chunkLoop_ends buf1.length s1 buf1 (le_refl _)
    refine ⟨k + 1, s2, buf2, e, s3, buf3, ?_, hfail, ?_, by omega, fun _ => by omega⟩
    · simp only [processChunks, hc]
      exact hrun
    · simp only [chunkLoop, hc]
      obtain ⟨f, hf⟩ : ∃ f, buf.length = f + 1 := ⟨buf.length - 1, by omega⟩
      rw [hf]
      exact hloop (f + 1) (by omega)
  · refine ⟨0, rtmpStream.new, buf, e, s1, buf1, rfl, hc, ?_, Nat.zero_le _, ?_⟩
    · simp only [chunkLoop, hc]
    · intro hne
      have : buf.length ≠ 0 := fun h0 => hne (List.length_eq_zero.mp h0)
      omega

/-- C20: every call of `processChunk` that returns nil, whatever the stream
(chunk size 0 too), leaves fewer bytes in the reader than it found, and the
subtractions from the remaining length are exact: what is left after the call
plus the payload bytes transferred (`min` of the chunk size and what was left)
plus the 4 bytes of a chunk size (taken only when at least 4 were left) is
what was left before; so on every input the chunk loop makes a number of calls
that return nil not above the number of bytes, meets a call that returns an
error and ends, and `parseStream` returns. In the loop of `parseStream`,
which starts on a new stream, the calls that return nil and the call that ends
the loop are together not more than the bytes after the handshake when there
is at least one byte; with none the loop is the one call that fails. -/
theorem chunk_loop_progress (s : rtmpStream) (buf : List Nat) :
    (∀ s1 buf6, processChunk s buf = (none, s1, buf6) →
      buf6.length < buf.length ∧
      ∃ (csid start skip rl : Nat) (old new : RTMPMessage),
        old = (trackGet csid s.track).getD RTMPMessage.empty ∧
        trackGet csid s1.track = some new ∧
        start = (if old.remainingLength = 0 then beNat new.hdr.MessageLength % 2 ^ 32
          else old.remainingLength) ∧
        skip = (if new.hdr.TypeID = 1 ∧ start ≥ 4 then 4 else 0) ∧
        rl = min s1.chunkSize (start - skip) ∧
        skip ≤ start ∧ rl ≤ start - skip ∧
        new.remainingLength = start - skip - rl) ∧
    (∃ k s2 buf2 e s3 buf3, k ≤ buf.length ∧ processChunks k s buf = (none, s2, buf2) ∧
      processChunk s2 buf2 = (some e, s3, buf3) ∧
      chunkLoop (buf.length + 1) s buf = some s3) ∧
    (∃ k s2 buf2 e s3 buf3, processChunks k rtmpStream.new buf = (none, s2, buf2) ∧
      processChunk s2 buf2 = (some e, s3, buf3) ∧
      chunkLoop (buf.length + 1) rtmpStream.new buf = some s3 ∧
      k ≤ buf.length ∧ (buf ≠ [] → k + 1 ≤ buf.length)) ∧
    (∀ hs, hs.length = 3072 →
      parseStream (3 :: (hs ++ buf)) =
        (chunkLoop (buf.length + 1) rtmpStream.new buf).map rtmpStream.exit) ∧
    (∀ r, ∃ s9, parseStream r = some s9) := by
  refine ⟨?_, ?_, chunkLoop_new_ends buf, ?_, parseStream_returns⟩
  · intro s1 buf6 h
    refine ⟨processChunk_consumes s s1 buf buf6 h, ?_⟩
    obtain ⟨hb, csid, start, old, new, bh, mh, ext, cb, bx, -, -, -, -, -, hold, htrack, -, hstart,
      hcb, -, hbx, hsum, -⟩ := processChunk_shape s s1 buf buf6 h
    refine ⟨csid, start, cb.length, bx.length, old, new, hold, ?_, hstart, hcb, hbx, by omega,
      by omega, by omega⟩
    rw [htrack]
    simp [trackGet]
  · obtain ⟨k, s2, buf2, e, s3, buf3, hk, hrun, hfail, hloop⟩ := chunkLoop_ends buf.length s buf (le_refl _)
    exact ⟨k, s2, buf2, e, s3, buf3, hk, hrun, hfail, hloop _ (Nat.lt_succ_self _)⟩
  · intro hs hhs
    exact parseStream_handshake hs buf hhs

/-- A format-3 chunk on a slot whose last message is closed starts another
message as per the header the slot has kept. -/
theorem processChunk_fmt3_again (s : rtmpStream) (M : WireMessage) (piece rest : List Nat)
    (hM : M.ok) (hslot : trackGet M.csid s.track = some (M.slot 0 none))
    (hp : piece.length = min s.chunkSize M.payload.length) :
    processChunk s (fmt3Chunk M piece ++ rest) =
      if M.payload.length - piece.length = 0 then
        (none, { s with closed := s.closed ++ [Pipe.mk M.typeID piece] }.store M.csid (M.slot 0 none), rest)
      else
        (none, s.store M.csid (M.slot (M.payload.length - piece.length) (some (Pipe.mk M.typeID piece))),
          rest) := by
  obtain ⟨h2, h3, hts, hff, hty, hsid, hL⟩ := hM
  have hshape : fmt3Chunk M piece ++ rest = basicHeader 3 M.csid ++ (piece ++ rest) := by
    simp [fmt3Chunk, List.append_assoc]
  have hlen : beNat (u24be M.payload.length) % 2 ^ 32 = M.payload.length := by
    rw [beNat_u24be _ hL]
    exact Nat.mod_eq_of_lt (lt_trans hL (by norm_num))
  rw [hshape, processChunk_basicHeader s 3 M.csid _ h2 h3]
  rw [processMessageChunk_piece s 3 M.csid _ piece rest (M.slot 0 none) M.payload.length
    (by simp [readMessageHeader, hslot]) rfl (by decide) hff hty
    (by simp only [WireMessage.slot, if_true]; exact hlen.symm) hp]
  simp [WireMessage.slot]

/-- C18 (counterexample): the call of `processChunk` on a new stream with
the one-chunk message `03 00 00 00 00 00 01 14 00 00 00 00 05` brings the
remaining length to 0 and returns nil, and the slot of chunk stream 3 is then
not the empty message: it keeps the header, with `headerOk` true. -/
theorem slot_not_cleared :
    (processChunk rtmpStream.new [3, 0, 0, 0, 0, 0, 1, 20, 0, 0, 0, 0, 5]).1 = none ∧
      trackGet 3 (processChunk rtmpStream.new [3, 0, 0, 0, 0, 0, 1, 20, 0, 0, 0, 0, 5]).2.1.track =
        some { hdr := { Timestamp := [0, 0, 0], MessageLength := [0, 0, 1], TypeID := 20 },
               headerOk := true, streamID := 0, remainingLength := 0, writer := none } ∧
      (processChunk rtmpStream.new [3, 0, 0, 0, 0, 0, 1, 20, 0, 0, 0, 0, 5]).2.1.closed =
        [{ typeID := 20, data := [5] }] ∧
      trackGet 3 (processChunk rtmpStream.new [3, 0, 0, 0, 0, 0, 1, 20, 0, 0, 0, 0, 5]).2.1.track ≠
        some RTMPMessage.empty := by
  decide

/-- C18 (amended): when a call of `processChunk` that returns nil brings the
remaining length of the slot to 0, the pipe is closed (one pipe more in the
closed ones) and the writer of the slot is nil, but the slot is not the empty
message: `headerOk` stays true and the header and the stream id stay as the
header of this chunk left them; a later format-3 chunk on that slot starts
another message of the length and type of that header. -/
theorem close_keeps_header (s s1 : rtmpStream) (buf buf6 : List Nat)
    (h : processChunk s buf = (none, s1, buf6)) :
    (∃ (hb csid : Nat) (old new : RTMPMessage),
      buf.head? = some hb ∧
      old = (trackGet csid s.track).getD RTMPMessage.empty ∧
      trackGet csid s1.track = some new ∧
      new.headerOk = true ∧ new ≠ RTMPMessage.empty ∧
      (hb / 64 ≠ 0 → hb / 64 ≠ 1 → hb / 64 ≠ 2 → new.hdr = old.hdr ∧ new.streamID = old.streamID) ∧
      (new.remainingLength = 0 → new.writer = none ∧ ∃ p, s1.closed = s.closed ++ [p]) ∧
      (new.remainingLength ≠ 0 → new.writer ≠ none ∧ s1.closed = s.closed)) ∧
    (∀ (t : rtmpStream) (M : WireMessage) (rest : List Nat), M.ok →
      trackGet M.csid t.track = some (M.slot 0 none) → M.payload.length ≤ t.chunkSize →
      processChunk t (fmt3Chunk M M.payload ++ rest) =
        (none, { t with closed := t.closed ++ [M.pipe] }.store M.csid (M.slot 0 none), rest)) := by
  constructor
  · obtain ⟨hb, csid, start, old, new, bh, mh, ext, cb, bx, hbuf, hhead, hbh, -, -, hold, htrack, -, -,
      -, -, -, -, hok, hclose, hopen, -, -, -, hf3⟩ := processChunk_shape s s1 buf buf6 h
    refine ⟨hb, csid, old, new, ?_, hold, ?_, hok, ?_, hf3, ?_, ?_⟩
    · rw [hbuf]
      cases bh with
      | nil => simp at hhead
      | cons x xs => simpa using hhead
    · rw [htrack]
      simp [trackGet]
    · intro hne
      rw [hne] at hok
      exact absurd hok (by decide)
    · intro h0
      obtain ⟨hw, hc⟩ := hclose h0
      exact ⟨hw, _, hc⟩
    · intro h0
      obtain ⟨hc, hw⟩ := hopen h0
      exact ⟨by rw [hw]; simp, hc⟩
  · intro t M rest hM hslot hle
    rw [processChunk_fmt3_again t M M.payload rest hM hslot (length_last_chunk _ _ hle)]
    rw [if_pos (by omega)]
    rfl

theorem close_keeps_header_witness :
    (∃ (hb csid : Nat) (old new : RTMPMessage),
      [3, 0, 0, 0, 0, 0, 1, 20, 0, 0, 0, 0, 5].head? = some hb ∧
      old = (trackGet csid rtmpStream.new.track).getD RTMPMessage.empty ∧
      trackGet csid
        (processChunk rtmpStream.new [3, 0, 0, 0, 0, 0, 1, 20, 0, 0, 0, 0, 5]).2.1.track = some new ∧
      new.headerOk = true ∧ new ≠ RTMPMessage.empty ∧
      (hb / 64 ≠ 0 → hb / 64 ≠ 1 → hb / 64 ≠ 2 → new.hdr = old.hdr ∧ new.streamID = old.streamID) ∧
      (new.remainingLength = 0 → new.writer = none ∧
        ∃ p, (processChunk rtmpStream.new [3, 0, 0, 0, 0, 0, 1, 20, 0, 0, 0, 0, 5]).2.1.closed =
          rtmpStream.new.closed ++ [p]) ∧
      (new.remainingLength ≠ 0 → new.writer ≠ none ∧
        (processChunk rtmpStream.new [3, 0, 0, 0, 0, 0, 1, 20, 0, 0, 0, 0, 5]).2.1.closed =
          rtmpStream.new.closed)) ∧
    (∀ (t : rtmpStream) (M : WireMessage) (rest : List Nat), M.ok →
      trackGet M.csid t.track = some (M.slot 0 none) → M.payload.length ≤ t.chunkSize →
      processChunk t (fmt3Chunk M M.payload ++ rest) =
        (none, { t with closed := t.closed ++ [M.pipe] }.store M.csid (M.slot 0 none), rest)) :=
  close_keeps_header rtmpStream.new _ _ _ (by rfl)

theorem processChunk_csid (s s1 : rtmpStream) (buf buf6 : List Nat)
    (h : processChunk s buf = (none, s1, buf6)) :
    ∃ csid new, chunkStreamIDOf buf = some csid ∧ s1.track = (csid, new) :: s.track := by
  unfold processChunk at h
  unfold chunkStreamIDOf
  rcases h1 : readFull .EOF 1 buf with e | ⟨b1, buf1⟩
  · rw [h1] at h
    simp at h
  · rw [h1] at h
    dsimp only at h ⊢
    rcases h2 : readChunkStreamID (b1.headI % 64) buf1 with e | ⟨csid, buf2⟩
    · rw [h2] at h
      simp at h
    · rw [h2] at h
      dsimp only at h ⊢
      obtain ⟨msg1, buf3, msg3, buf4, cs, msg5, buf5, msg6, -, -, -, -, -, hs1⟩ :=
        processMessageChunk_ok s s1 _ csid buf2 buf6 h
      refine ⟨csid, ?_⟩
      rw [hs1]
      unfold closeOut
      split_ifs
      · exact ⟨_, rfl, rfl⟩
      · exact ⟨_, rfl, rfl⟩

theorem min_zero_right (a : Nat) : min a 0 = 0 := by
  unfold min
  split_ifs <;> omega

/-- A "set chunk size" message of length 4 in one format-0 chunk. -/
theorem processChunk_setChunkSize (s : rtmpStream) (csid : Nat) (ts sid nb rest : List Nat)
    (h2 : 2 ≤ csid) (h3 : csid ≤ 65599) (hts : ts.length = 3) (hff : ts ≠ [255, 255, 255])
    (hsid : sid.length = 4) (hnb : nb.length = 4) (hidle : idle s csid) :
    processChunk s (basicHeader 0 csid ++ (ts ++ [0, 0, 4] ++ [1] ++ (sid ++ (nb ++ rest)))) =
      (none,
        { s with chunkSize := beNat nb, closed := s.closed ++ [Pipe.mk 1 []] }.store csid
          { hdr := { Timestamp := ts, MessageLength := [0, 0, 4], TypeID := 1 }, headerOk := true,
            streamID := leNat sid, remainingLength := 0, writer := none },
        rest) := by
  have hrem : ((trackGet csid s.track).getD RTMPMessage.empty).remainingLength = 0 ∧
      ((trackGet csid s.track).getD RTMPMessage.empty).writer = none := by
    rcases hg : trackGet csid s.track with _ | m
    · exact ⟨rfl, rfl⟩
    · exact hidle m hg
  rw [processChunk_basicHeader s 0 csid _ h2 h3, processMessageChunk_eq,
    readMessageHeader_fmt0 _ ts [0, 0, 4] sid (nb ++ rest) 1 hts rfl hsid]
  simp only [not_true_eq_false, if_false]
  have hrt : ∀ m : RTMPMessage, m.hdr.Timestamp = ts →
      readTimestamps 0 m (nb ++ rest) = (none, m, nb ++ rest) := by
    intro m hm
    exact readTimestamps_none 0 m _ (by decide) (by rw [hm]; exact hff)
  rw [hrt _ (by unfold openWriter; split_ifs <;> rfl)]
  simp only
  have hcs : readFull .EOF 4 (nb ++ rest) = .ok (nb, rest) := readFull_append_of_length _ _ _ _ hnb
  simp [openWriter, startMessage, readChunkSize, sendMessagePayload, hrem.1, hrem.2, beNat, hcs,
    min_zero_right, rtmpStream.store]

/-- C17: a type 0x01 message of declared length 4 with payload `nb` on a chunk
stream with no message in progress makes `processChunk` set the chunk size of
the flow to the big-endian value of `nb`, write none of the 4 bytes to a pipe
and close the message (its pipe is closed empty). Every later call that
returns nil on a stream with that chunk size, on the chunk stream id `k` read
from its basic header, takes from the reader the header bytes, then the bytes
`bx`, and leaves the rest; `bx` is appended to the pipe of the message of `k`
(a new pipe when none is open), which is closed when nothing is left to
receive; `bx` has `min` of the chunk size and the remaining length bytes,
unless the call is itself a chunk-size read, which first takes 4 bytes as the
chunk size. In particular a later message of length `L` not above the chunk
size is transferred and closed by one call. -/
theorem set_chunk_size_is_flow_wide (s : rtmpStream) (csid : Nat) (ts sid nb rest : List Nat)
    (h2 : 2 ≤ csid) (h3 : csid ≤ 65599) (hts : ts.length = 3) (hff : ts ≠ [255, 255, 255])
    (hsid : sid.length = 4) (hnb : nb.length = 4) (hidle : idle s csid) :
    ∃ s1, processChunk s (basicHeader 0 csid ++ (ts ++ [0, 0, 4] ++ [1] ++ (sid ++ (nb ++ rest)))) =
        (none, s1, rest) ∧
      s1.chunkSize = beNat nb ∧
      s1.closed = s.closed ++ [{ typeID := 1, data := [] }] ∧
      (∃ m, trackGet csid s1.track = some m ∧ m.remainingLength = 0 ∧ m.writer = none) ∧
      (∀ j, j ≠ csid → trackGet j s1.track = trackGet j s.track) ∧
      (∀ (t t1 : rtmpStream) (buf buf6 : List Nat), t.chunkSize = beNat nb →
        processChunk t buf = (none, t1, buf6) →
        ∃ (hb k start : Nat) (old new : RTMPMessage) (bh mh ext cb bx : List Nat),
          buf = bh ++ (mh ++ (ext ++ (cb ++ (bx ++ buf6)))) ∧
          bh.head? = some hb ∧ bh.length = basicHeaderLen hb ∧
          mh.length = messageHeaderLen (hb / 64) ∧
          ext.length = (if new.hdr.Timestamp = [255, 255, 255] then 4 else 0) ∧
          chunkStreamIDOf buf = some k ∧
          old = (trackGet k t.track).getD RTMPMessage.empty ∧
          trackGet k t1.track = some new ∧
          (∀ j, j ≠ k → trackGet j t1.track = trackGet j t.track) ∧
          start = (if old.remainingLength = 0 then beNat new.hdr.MessageLength % 2 ^ 32
            else old.remainingLength) ∧
          cb.length = (if new.hdr.TypeID = 1 ∧ start ≥ 4 then 4 else 0) ∧
          t1.chunkSize = (if new.hdr.TypeID = 1 ∧ start ≥ 4 then beNat cb else beNat nb) ∧
          bx.length = min t1.chunkSize (start - cb.length) ∧
          new.remainingLength = start - cb.length - bx.length ∧
          (new.remainingLength = 0 → new.writer = none ∧
            t1.closed = t.closed ++ [Pipe.mk (old.writer.getD (Pipe.mk new.hdr.TypeID [])).typeID
              ((old.writer.getD (Pipe.mk new.hdr.TypeID [])).data ++ bx)]) ∧
          (new.remainingLength ≠ 0 → t1.closed = t.closed ∧
            new.writer = some (Pipe.mk (old.writer.getD (Pipe.mk new.hdr.TypeID [])).typeID
              ((old.writer.getD (Pipe.mk new.hdr.TypeID [])).data ++ bx))) ∧
          (¬ (new.hdr.TypeID = 1 ∧ start ≥ 4) →
            cb = [] ∧ bx.length = min (beNat nb) start ∧
            new.remainingLength = start - bx.length ∧ t1.chunkSize = beNat nb)) ∧
      (∀ (t : rtmpStream) (M : WireMessage) (rest1 : List Nat), t.chunkSize = beNat nb → M.ok →
        idle t M.csid → M.payload.length ≤ beNat nb →
        processChunk t (fmt0Chunk M M.payload ++ rest1) =
          (none, { t with closed := t.closed ++ [M.pipe] }.store M.csid (M.slot 0 none), rest1)) := by
  refine ⟨_, processChunk_setChunkSize s csid ts sid nb rest h2 h3 hts hff hsid hnb hidle, rfl, rfl,
    ⟨_, trackGet_store_self _ _ _, rfl, rfl⟩, fun j hj => trackGet_store_other _ _ _ _ hj, ?_, ?_⟩
  · intro t t1 buf buf6 hcs hcall
    obtain ⟨hb, k, start, old, new, bh, mh, ext, cb, bx, hbuf, hhead, hbh, hmh, hext, hold, htrack, -,
      hstart, hcb, hcs1, hbx, hsum, -, hclose, hopen, -⟩ := processChunk_shape t t1 buf buf6 hcall
    obtain ⟨k1, new1, hk1, htrack1⟩ := processChunk_csid t t1 buf buf6 hcall
    have hsame : k1 = k := by
      rw [htrack] at htrack1
      simp only [List.cons.injEq, Prod.mk.injEq] at htrack1
      exact htrack1.1.1.symm
    subst hsame
    rw [hcs] at hcs1
    refine ⟨hb, k1, start, old, new, bh, mh, ext, cb, bx, hbuf, hhead, hbh, hmh, hext, hk1, hold, ?_,
      ?_, hstart, hcb, hcs1, hbx, by omega, hclose, hopen, ?_⟩
    · rw [htrack]
      simp [trackGet]
    · intro j hj
      rw [htrack]
      simp [trackGet, hj]
    · intro hno
      rw [if_neg hno] at hcb hcs1
      have hc0 : cb = [] := List.length_eq_zero.mp hcb
      rw [hcb] at hbx hsum
      rw [hcs1] at hbx
      exact ⟨hc0, by simpa using hbx, by omega, hcs1⟩
  · intro t M rest1 hcs hM hid hle
    rw [processChunk_fmt0 t M M.payload rest1 hM hid (by rw [hcs]; exact length_last_chunk _ _ hle)]
    rw [if_pos (by omega)]
    rfl

theorem set_chunk_size_is_flow_wide_witness :
    ∃ s1, processChunk rtmpStream.new
        (basicHeader 0 2 ++ ([0, 0, 0] ++ [0, 0, 4] ++ [1] ++ ([0, 0, 0, 0] ++ ([0, 0, 16, 0] ++ [])))) =
        (none, s1, []) ∧
      s1.chunkSize = 4096 ∧
      s1.closed = [{ typeID := 1, data := [] }] ∧
      processChunk s1
          (fmt0Chunk ⟨3, [0, 0, 0], 20, [0, 0, 0, 0], List.replicate 3000 7⟩ (List.replicate 3000 7) ++ []) =
        (none,
          { s1 with closed := s1.closed ++ [Pipe.mk 20 (List.replicate 3000 7)] }.store 3
            (WireMessage.slot ⟨3, [0, 0, 0], 20, [0, 0, 0, 0], List.replicate 3000 7⟩ 0 none), []) ∧
      processChunk s1
          (fmt0Chunk ⟨3, [0, 0, 0], 20, [0, 0, 0, 0], List.replicate 5000 7⟩ (List.replicate 4096 7) ++
            [195]) =
        (none,
          s1.store 3 (WireMessage.slot ⟨3, [0, 0, 0], 20, [0, 0, 0, 0], List.replicate 5000 7⟩ 904
            (some (Pipe.mk 20 (List.replicate 4096 7)))), [195]) ∧
      ∃ (hb k start : Nat) (old new : RTMPMessage) (bh mh ext cb bx : List Nat),
        fmt0Chunk ⟨3, [0, 0, 0], 20, [0, 0, 0, 0], List.replicate 5000 7⟩ (List.replicate 4096 7) ++
            [195] = bh ++ (mh ++ (ext ++ (cb ++ (bx ++ [195])))) ∧
        bh.head? = some hb ∧ bh.length = basicHeaderLen hb ∧
        mh.length = messageHeaderLen (hb / 64) ∧
        ext.length = (if new.hdr.Timestamp = [255, 255, 255] then 4 else 0) ∧
        chunkStreamIDOf (fmt0Chunk ⟨3, [0, 0, 0], 20, [0, 0, 0, 0], List.replicate 5000 7⟩
            (List.replicate 4096 7) ++ [195]) = some k ∧
        old = (trackGet k s1.track).getD RTMPMessage.empty ∧
        trackGet k (s1.store 3 (WireMessage.slot ⟨3, [0, 0, 0], 20, [0, 0, 0, 0], List.replicate 5000 7⟩
            904 (some (Pipe.mk 20 (List.replicate 4096 7))))).track = some new ∧
        (∀ j, j ≠ k →
          trackGet j (s1.store 3 (WireMessage.slot ⟨3, [0, 0, 0], 20, [0, 0, 0, 0], List.replicate 5000 7⟩
            904 (some (Pipe.mk 20 (List.replicate 4096 7))))).track = trackGet j s1.track) ∧
        start = (if old.remainingLength = 0 then beNat new.hdr.MessageLength % 2 ^ 32
          else old.remainingLength) ∧
        cb.length = (if new.hdr.TypeID = 1 ∧ start ≥ 4 then 4 else 0) ∧
        (s1.store 3 (WireMessage.slot ⟨3, [0, 0, 0], 20, [0, 0, 0, 0], List.replicate 5000 7⟩
            904 (some (Pipe.mk 20 (List.replicate 4096 7))))).chunkSize =
          (if new.hdr.TypeID = 1 ∧ start ≥ 4 then beNat cb else beNat [0, 0, 16, 0]) ∧
        bx.length = min (s1.store 3 (WireMessage.slot ⟨3, [0, 0, 0], 20, [0, 0, 0, 0],
            List.replicate 5000 7⟩ 904 (some (Pipe.mk 20 (List.replicate 4096 7))))).chunkSize
          (start - cb.length) ∧
        new.remainingLength = start - cb.length - bx.length ∧
        (new.remainingLength = 0 → new.writer = none ∧
          (s1.store 3 (WireMessage.slot ⟨3, [0, 0, 0], 20, [0, 0, 0, 0], List.replicate 5000 7⟩
            904 (some (Pipe.mk 20 (List.replicate 4096 7))))).closed =
            s1.closed ++ [Pipe.mk (old.writer.getD (Pipe.mk new.hdr.TypeID [])).typeID
              ((old.writer.getD (Pipe.mk new.hdr.TypeID [])).data ++ bx)]) ∧
        (new.remainingLength ≠ 0 →
          (s1.store 3 (WireMessage.slot ⟨3, [0, 0, 0], 20, [0, 0, 0, 0], List.replicate 5000 7⟩
            904 (some (Pipe.mk 20 (List.replicate 4096 7))))).closed = s1.closed ∧
          new.writer = some (Pipe.mk (old.writer.getD (Pipe.mk new.hdr.TypeID [])).typeID
            ((old.writer.getD (Pipe.mk new.hdr.TypeID [])).data ++ bx))) ∧
        (¬ (new.hdr.TypeID = 1 ∧ start ≥ 4) →
          cb = [] ∧ bx.length = min (beNat [0, 0, 16, 0]) start ∧
          new.remainingLength = start - bx.length ∧
          (s1.store 3 (WireMessage.slot ⟨3, [0, 0, 0], 20, [0, 0, 0, 0], List.replicate 5000 7⟩
            904 (some (Pipe.mk 20 (List.replicate 4096 7))))).chunkSize = beNat [0, 0, 16, 0]) := by
  obtain ⟨s1, h1, hcs, hcl, -, hoth, hlater, hone⟩ :=
    set_chunk_size_is_flow_wide rtmpStream.new 2 [0, 0, 0] [0, 0, 0, 0] [0, 0, 16, 0] []
      (by decide) (by decide) rfl (by decide) rfl rfl
      (by intro m h; simp [trackGet, rtmpStream.new] at h)
  have hidle3 : ∀ q : List Nat, idle s1 (WireMessage.mk 3 [0, 0, 0] 20 [0, 0, 0, 0] q).csid := by
    intro q m h
    rw [show (WireMessage.mk 3 [0, 0, 0] 20 [0, 0, 0, 0] q).csid = 3 from rfl,
      hoth 3 (by decide)] at h
    simp [trackGet, rtmpStream.new] at h
  have hlen : (List.replicate 5000 7).length - (List.replicate 4096 7).length = 904 := by
    rw [List.length_replicate, List.length_replicate]
  have hcall : processChunk s1
      (fmt0Chunk ⟨3, [0, 0, 0], 20, [0, 0, 0, 0], List.replicate 5000 7⟩ (List.replicate 4096 7) ++
        [195]) =
      (none,
        s1.store 3 (WireMessage.slot ⟨3, [0, 0, 0], 20, [0, 0, 0, 0], List.replicate 5000 7⟩ 904
          (some (Pipe.mk 20 (List.replicate 4096 7)))), [195]) := by
    rw [processChunk_fmt0 s1 ⟨3, [0, 0, 0], 20, [0, 0, 0, 0], List.replicate 5000 7⟩
      (List.replicate 4096 7) [195]
      ⟨by decide, by decide, rfl, by decide, by decide, rfl,
        by show (List.replicate 5000 7).length < 2 ^ 24; rw [List.length_replicate]; decide⟩
      (hidle3 _)
      (by
        show (List.replicate 4096 7).length = min s1.chunkSize (List.replicate 5000 7).length
        rw [hcs, List.length_replicate, List.length_replicate]
        decide)]
    dsimp only
    rw [hlen, if_neg (by decide)]
  refine ⟨s1, h1, hcs.trans (by decide), hcl, ?_, hcall, hlater s1 _ _ _ hcs hcall⟩
  exact hone s1 ⟨3, [0, 0, 0], 20, [0, 0, 0, 0], List.replicate 3000 7⟩ [] hcs
    ⟨by decide, by decide, rfl, by decide, by decide, rfl,
      by show (List.replicate 3000 7).length < 2 ^ 24; rw [List.length_replicate]; decide⟩
    (hidle3 _)
    (by show (List.replicate 3000 7).length ≤ beNat [0, 0, 16, 0]; rw [List.length_replicate]; decide)

theorem fmt1_flow_decoders :
    (chunkLoop (([0x43, 0, 0, 0, 0, 0, 35, 20] ++ connectPayload ++
          ([0x43, 0, 0, 0, 0, 0, 25, 20] ++ playPayload)).length + 1) rtmpStream.new
        ([0x43, 0, 0, 0, 0, 0, 35, 20] ++ connectPayload ++
          ([0x43, 0, 0, 0, 0, 0, 25, 20] ++ playPayload))).map (fun s => decoders s.exit) =
      some [(Err.EOF, Pipe.mk 0x14 connectPayload), (Err.EOF, Pipe.mk 0x14 playPayload)] := by
  decide

theorem decoders_then_command (o : Option rtmpStream)
    (h : o.map (fun s => decoders s.exit) =
      some [(Err.EOF, Pipe.mk 0x14 connectPayload), (Err.EOF, Pipe.mk 0x14 playPayload)]) :
    (o.map rtmpStream.exit).bind
        (fun s => (runDecoders (fun _ => []) MessageFinalizer.init (decoders s)).map (fun c => c.r)) =
      some [lit "rtmpdump -y 'stream' -a 'live' -R -o 'stream'"] := by
  cases o with
  | none => simp at h
  | some sC =>
    simp only [Option.map_some', Option.some.injEq] at h
    show (runDecoders (fun _ => []) MessageFinalizer.init (decoders sC.exit)).map (fun c => c.r) = _
    rw [h]
    exact runDecoders_connect_play _


theorem readMessageHeader_fmt1 (msg : RTMPMessage) (ts len Y : List Nat) (ty : Nat)
    (hts : ts.length = 3) (hlen : len.length = 3) :
    readMessageHeader 1 msg (ts ++ len ++ [ty] ++ Y) =
      (none, { msg with hdr := { Timestamp := ts, MessageLength := len, TypeID := ty },
                        headerOk := true }, Y) := by
  have h7 : readFull .EOF 7 (ts ++ len ++ [ty] ++ Y) = .ok (ts ++ len ++ [ty], Y) :=
    readFull_append_of_length _ _ _ _ (by simp [hts, hlen])
  have t1 : (ts ++ len ++ [ty]).take 3 = ts := by
    rw [List.append_assoc, List.take_append_of_le_length (by omega), List.take_of_length_le (by omega)]
  have t2 : ((ts ++ len ++ [ty]).drop 3).take 3 = len := by
    rw [List.append_assoc, List.drop_append_of_le_length (by omega), List.drop_of_length_le (by omega),
      List.nil_append, List.take_append_of_le_length (by omega), List.take_of_length_le (by omega)]
  have t3 : ((ts ++ len ++ [ty]).drop 6).headI = ty := by
    have : (ts ++ len).length = 6 := by simp [hts, hlen]
    rw [List.drop_append_of_le_length (by omega), List.drop_of_length_le (by omega)]
    rfl
  simp only [readMessageHeader, or_true, if_true, h7, t1, t2, t3]
  simp

/-- A format-1 chunk on a chunk stream that has no slot yet. -/
theorem processChunk_fmt1_first (s : rtmpStream) (csid ty L : Nat) (ts piece rest : List Nat)
    (h2 : 2 ≤ csid) (h3 : csid ≤ 65599) (hnone : trackGet csid s.track = none)
    (hts : ts.length = 3) (hff : ts ≠ [255, 255, 255]) (hty : ty ≠ 1) (hL : L < 2 ^ 24)
    (hp : piece.length = min s.chunkSize L) :
    processChunk s (basicHeader 1 csid ++ (ts ++ u24be L ++ [ty] ++ (piece ++ rest))) =
      if L - piece.length = 0 then
        (none, { s with closed := s.closed ++ [Pipe.mk ty piece] }.store csid
          { hdr := { Timestamp := ts, MessageLength := u24be L, TypeID := ty }, headerOk := true,
            streamID := 0, remainingLength := 0, writer := none }, rest)
      else
        (none, s.store csid
          { hdr := { Timestamp := ts, MessageLength := u24be L, TypeID := ty }, headerOk := true,
            streamID := 0, remainingLength := L - piece.length, writer := some (Pipe.mk ty piece) },
          rest) := by
  rw [processChunk_basicHeader s 1 csid _ h2 h3]
  rw [processMessageChunk_piece s 1 csid _ piece rest _ L
    (readMessageHeader_fmt1 _ ts (u24be L) (piece ++ rest) ty hts (by simp [u24be])) rfl (by decide)
    hff hty
    (by
      simp only [hnone, Option.getD_none, RTMPMessage.empty, if_true, beNat_u24be _ hL]
      have : L < 2 ^ 32 := lt_trans hL (by norm_num)
      exact (Nat.mod_eq_of_lt this).symm) hp]
  simp [hnone, RTMPMessage.empty]

/-- C15 (counterexample): a flow whose first chunk on chunk stream 3 has
format 1 (first byte 0x43, no slot for id 3 yet) is not aborted there:
`processChunk` returns no error for that chunk, and the flow, here a
"connect" and a "play" command both sent with format-1 headers, makes
the collator emit the command line. -/
theorem fmt1_first_chunk_is_accepted :
    trackGet 3 rtmpStream.new.track = none ∧
    (processChunk rtmpStream.new ([0x43, 0, 0, 0, 0, 0, 35, 20] ++ connectPayload ++
        ([0x43, 0, 0, 0, 0, 0, 25, 20] ++ playPayload))).1 = none ∧
    (parseStream (3 :: (List.replicate 3072 0 ++ ([0x43, 0, 0, 0, 0, 0, 35, 20] ++ connectPayload ++
        ([0x43, 0, 0, 0, 0, 0, 25, 20] ++ playPayload))))).bind
      (fun s => (runDecoders (fun _ => []) MessageFinalizer.init (decoders s)).map (fun c => c.r)) =
      some [lit "rtmpdump -y 'stream' -a 'live' -R -o 'stream'"] := by
  refine ⟨rfl, by decide, ?_⟩
  rw [parseStream_handshake (List.replicate 3072 0) ([0x43, 0, 0, 0, 0, 0, 35, 20] ++ connectPayload ++
          ([0x43, 0, 0, 0, 0, 0, 25, 20] ++ playPayload)) (List.length_replicate _ _)]
  exact decoders_then_command _ fmt1_flow_decoders

/-- C15 (amended): a first chunk of format 1 on a chunk stream with no slot
yet is accepted. With a timestamp other than 0xFFFFFF and a type other
than 1, `processChunk` returns no error, records the header of the chunk
with message stream id 0, forwards `min(chunk size, length)` payload bytes
to a new pipe, and closes the pipe when that is the whole message. -/
theorem fmt1_first_chunk_starts_message (s : rtmpStream) (csid ty L : Nat) (ts piece rest : List Nat)
    (h2 : 2 ≤ csid) (h3 : csid ≤ 65599) (hnone : trackGet csid s.track = none)
    (hts : ts.length = 3) (hff : ts ≠ [255, 255, 255]) (hty : ty ≠ 1) (hL : L < 2 ^ 24)
    (hp : piece.length = min s.chunkSize L) :
    processChunk s (basicHeader 1 csid ++ (ts ++ u24be L ++ [ty] ++ (piece ++ rest))) =
      if L - piece.length = 0 then
        (none, { s with closed := s.closed ++ [Pipe.mk ty piece] }.store csid
          { hdr := { Timestamp := ts, MessageLength := u24be L, TypeID := ty }, headerOk := true,
            streamID := 0, remainingLength := 0, writer := none }, rest)
      else
        (none, s.store csid
          { hdr := { Timestamp := ts, MessageLength := u24be L, TypeID := ty }, headerOk := true,
            streamID := 0, remainingLength := L - piece.length, writer := some (Pipe.mk ty piece) },
          rest) :=
  processChunk_fmt1_first s csid ty L ts piece rest h2 h3 hnone hts hff hty hL hp

theorem fmt1_first_chunk_starts_message_witness :
    processChunk rtmpStream.new (basicHeader 1 3 ++ ([0, 0, 0] ++ u24be 3 ++ [20] ++ ([7, 8, 9] ++ [195]))) =
      if 3 - [7, 8, 9].length = 0 then
        (none, { rtmpStream.new with closed := rtmpStream.new.closed ++ [Pipe.mk 20 [7, 8, 9]] }.store 3
          { hdr := { Timestamp := [0, 0, 0], MessageLength := u24be 3, TypeID := 20 }, headerOk := true,
            streamID := 0, remainingLength := 0, writer := none }, [195])
      else
        (none, rtmpStream.new.store 3
          { hdr := { Timestamp := [0, 0, 0], MessageLength := u24be 3, TypeID := 20 }, headerOk := true,
            streamID := 0, remainingLength := 3 - [7, 8, 9].length,
            writer := some (Pipe.mk 20 [7, 8, 9]) },
          [195]) :=
  fmt1_first_chunk_starts_message rtmpStream.new 3 20 3 [0, 0, 0] [7, 8, 9] [195]
    (by decide) (by decide) rfl rfl (by decide) (by decide) (by decide) (by decide)

theorem accountGet_mem (c : Nat) (a : Account) (xs : List (Nat × Account))
    (h : accountGet c xs = some a) : (c, a) ∈ xs := by
  induction xs with
  | nil => simp [accountGet] at h
  | cons x xs ih =>
    obtain ⟨k, b⟩ := x
    unfold accountGet at h
    by_cases hk : c = k
    · rw [if_pos hk] at h
      simp only [Option.some.injEq] at h
      subst hk
      subst h
      exact List.mem_cons_self _ _
    · rw [if_neg hk] at h
      exact List.mem_cons_of_mem _ (ih h)

theorem forall2_snoc {α β : Type} (R : α → β → Prop) (xs : List α) (ys : List β) (x : α) (y : β)
    (h : List.Forall₂ R xs ys) (hxy : R x y) : List.Forall₂ R (xs ++ [x]) (ys ++ [y]) := by
  induction h with
  | nil => exact List.Forall₂.cons hxy List.Forall₂.nil
  | cons hab _ ih => exact List.Forall₂.cons hab ih

/-- One call of `processChunk` that returns nil keeps the ledger in agreement
with the stream. -/
theorem processChunk_accounted (s s1 : rtmpStream) (l : Ledger) (buf buf6 : List Nat)
    (hA : Accounted s l) (h : processChunk s buf = (none, s1, buf6)) :
    Accounted s1 (l.record s s1 buf) := by
  obtain ⟨hF, hT, hZ⟩ := hA
  obtain ⟨hb, csid, start, old, new, bh, mh, ext, cb, bx, -, -, -, -, -, hold, htrack, -, hstart,
    hcb, -, -, hsum, -, hclose, hopen, -, -, -, -⟩ := processChunk_shape s s1 buf buf6 h
  obtain ⟨csid1, new1, hcs, htrack1⟩ := processChunk_csid s s1 buf buf6 h
  have hsame : csid1 = csid := by
    rw [htrack] at htrack1
    simp only [List.cons.injEq, Prod.mk.injEq] at htrack1
    exact htrack1.1.1.symm
  subst hsame
  have hnewget : (trackGet csid1 s1.track).getD RTMPMessage.empty = new := by
    rw [htrack]
    simp [trackGet]
  -- the account of the message the call works on
  have hold0 : old.remainingLength = 0 → old.writer = none := by
    intro h0
    rcases hg : trackGet csid1 s.track with _ | m
    · rw [hg] at hold
      rw [hold]
      rfl
    · rw [hg] at hold
      simp only [Option.getD_some] at hold
      subst hold
      exact (hT csid1 old hg).1 h0
  have hold1 : old.remainingLength ≠ 0 → ∃ p a, old.writer = some p ∧
      accountGet csid1 l.inProgress = some a ∧
      p.data.length + a.skipped + old.remainingLength = a.declared := by
    intro h0
    rcases hg : trackGet csid1 s.track with _ | m
    · rw [hg] at hold
      rw [hold] at h0
      exact absurd rfl h0
    · rw [hg] at hold
      simp only [Option.getD_some] at hold
      subst hold
      exact (hT csid1 old hg).2 h0
  have hbegun : ∃ D K : Nat,
      (if old.remainingLength = 0 then ({ declared := declaredLength new, skipped := 0 } : Account)
        else (accountGet csid1 l.inProgress).getD { declared := 0, skipped := 0 }) =
        { declared := D, skipped := K } ∧
      (old.writer.getD (Pipe.mk new.hdr.TypeID [])).data.length + K + start = D ∧
      ((∀ c a, (c, a) ∈ l.inProgress → a.skipped = 0) → K = 0) := by
    by_cases h0 : old.remainingLength = 0
    · refine ⟨declaredLength new, 0, by rw [if_pos h0], ?_, fun _ => rfl⟩
      rw [hold0 h0, hstart, if_pos h0]
      simp [declaredLength]
    · obtain ⟨p, a, hw, ha, hpa⟩ := hold1 h0
      refine ⟨a.declared, a.skipped, by rw [if_neg h0, ha]; rfl, ?_, fun hz => hz _ _ (accountGet_mem _ _ _ ha)⟩
      rw [hw, hstart, if_neg h0]
      exact hpa
  obtain ⟨D, K, hbeg, hDK, hK0⟩ := hbegun
  have hrec : l.record s s1 buf =
      if new.remainingLength = 0 then
        { l with closed := l.closed ++ [{ declared := D, skipped := K + cb.length }] }
      else { l with inProgress := (csid1, { declared := D, skipped := K + cb.length }) :: l.inProgress } := by
    unfold Ledger.record
    rw [hcs]
    simp only [hnewget, ← hold, hbeg]
    rw [hcb, hstart]
    rfl
  rw [hrec]
  by_cases hn : new.remainingLength = 0
  · rw [if_pos hn]
    obtain ⟨hw, hc⟩ := hclose hn
    refine ⟨?_, ?_, ?_⟩
    · rw [hc]
      refine forall2_snoc _ _ _ _ _ hF ?_
      simp only [List.length_append]
      omega
    · intro c m hg
      rw [htrack] at hg
      unfold trackGet at hg
      by_cases hc1 : c = csid1
      · rw [if_pos hc1] at hg
        simp only [Option.some.injEq] at hg
        subst hg
        exact ⟨fun _ => hw, fun hne => absurd hn hne⟩
      · rw [if_neg hc1] at hg
        exact hT c m hg
    · intro hty
      have hty0 : ∀ c m, (c, m) ∈ s.track → m.hdr.TypeID ≠ 1 := by
        intro c m hm
        exact hty c m (by rw [htrack]; exact List.mem_cons_of_mem _ hm)
      have hnew1 : new.hdr.TypeID ≠ 1 := hty csid1 new (by rw [htrack]; exact List.mem_cons_self _ _)
      obtain ⟨hz1, hz2⟩ := hZ hty0
      have hcb0 : cb.length = 0 := by
        rw [hcb, if_neg (fun hx => hnew1 hx.1)]
      refine ⟨?_, hz2⟩
      intro a ha
      simp only [List.mem_append, List.mem_singleton] at ha
      rcases ha with ha | ha
      · exact hz1 a ha
      · rw [ha]
        simp only
        rw [hK0 hz2, hcb0]
  · rw [if_neg hn]
    obtain ⟨hc, hw⟩ := hopen hn
    refine ⟨?_, ?_, ?_⟩
    · rw [hc]
      exact hF
    · intro c m hg
      rw [htrack] at hg
      unfold trackGet at hg
      by_cases hc1 : c = csid1
      · rw [if_pos hc1] at hg
        simp only [Option.some.injEq] at hg
        subst hg
        subst hc1
        refine ⟨fun h0 => absurd h0 hn,
          fun _ => ⟨_, { declared := D, skipped := K + cb.length }, hw, ?_, ?_⟩⟩
        · simp [accountGet]
        · simp only [List.length_append]
          omega
      · rw [if_neg hc1] at hg
        obtain ⟨g0, g1⟩ := hT c m hg
        refine ⟨g0, fun hne => ?_⟩
        obtain ⟨p, a, hp, ha, hpa⟩ := g1 hne
        refine ⟨p, a, hp, ?_, hpa⟩
        simp only [accountGet, if_neg hc1]
        exact ha
    · intro hty
      have hty0 : ∀ c m, (c, m) ∈ s.track → m.hdr.TypeID ≠ 1 := by
        intro c m hm
        exact hty c m (by rw [htrack]; exact List.mem_cons_of_mem _ hm)
      have hnew1 : new.hdr.TypeID ≠ 1 := hty csid1 new (by rw [htrack]; exact List.mem_cons_self _ _)
      obtain ⟨hz1, hz2⟩ := hZ hty0
      have hcb0 : cb.length = 0 := by
        rw [hcb, if_neg (fun hx => hnew1 hx.1)]
      refine ⟨hz1, ?_⟩
      intro c a ha
      simp only [List.mem_cons, Prod.mk.injEq] at ha
      rcases ha with ha | ha
      · rw [ha.2]
        simp only
        rw [hK0 hz2, hcb0]
      · exact hz2 c a ha

theorem processChunks_accounted (n : Nat) : ∀ (s s1 : rtmpStream) (l : Ledger) (buf rest : List Nat),
    Accounted s l → processChunks n s buf = (none, s1, rest) → Accounted s1 (ledgerOf n s buf l) := by
  induction n with
  | zero =>
    intro s s1 l buf rest hA h
    simp only [processChunks, Prod.mk.injEq, true_and] at h
    rw [← h.1]
    exact hA
  | succ n ih =>
    intro s s1 l buf rest hA h
    unfold processChunks at h
    unfold ledgerOf
    rcases hp : processChunk s buf with ⟨e, s2, buf2⟩
    rw [hp] at h
    cases e with
    | some e => simp at h
    | none =>
      dsimp only at h ⊢
      exact ih s2 s1 _ buf2 rest (processChunk_accounted s s2 l buf buf2 hA hp) h

theorem accounted_new : Accounted rtmpStream.new Ledger.empty := by
  refine ⟨List.Forall₂.nil, ?_, ?_⟩
  · intro c m h
    simp [rtmpStream.new, trackGet] at h
  · intro _
    exact ⟨fun a ha => by simp [Ledger.empty] at ha, fun c a ha => by simp [Ledger.empty] at ha⟩

theorem forall2_sum (ps : List Pipe) (as : List Account)
    (h : List.Forall₂ (fun (p : Pipe) (a : Account) => p.data.length + a.skipped = a.declared) ps as) :
    (ps.map (fun p => p.data.length)).sum + (as.map (fun a => a.skipped)).sum =
      (as.map (fun a => a.declared)).sum := by
  induction h with
  | nil => rfl
  | cons hab _ ih =>
    simp only [List.map_cons, List.sum_cons]
    omega

/-- C16 (counterexample): a "set chunk size" message (type 0x01) of declared
length 4 on a new stream is closed by a successful call of `processChunk`
with an empty pipe: its 4 bytes set the chunk size and are not written, so 0
bytes are written for a declared length of 4. -/
theorem set_chunk_size_bytes_bypass_pipe :
    (processChunk rtmpStream.new [2, 0, 0, 0, 0, 0, 4, 1, 0, 0, 0, 0, 0, 0, 16, 0]).1 = none ∧
    (processChunk rtmpStream.new [2, 0, 0, 0, 0, 0, 4, 1, 0, 0, 0, 0, 0, 0, 16, 0]).2.1.closed =
      [Pipe.mk 1 []] ∧
    (processChunk rtmpStream.new [2, 0, 0, 0, 0, 0, 4, 1, 0, 0, 0, 0, 0, 0, 16, 0]).2.1.chunkSize = 4096 ∧
    (trackGet 2 (processChunk rtmpStream.new
        [2, 0, 0, 0, 0, 0, 4, 1, 0, 0, 0, 0, 0, 0, 16, 0]).2.1.track).map
      (fun m => (declaredLength m, m.remainingLength, m.writer)) = some (4, 0, none) ∧
    ((processChunk rtmpStream.new [2, 0, 0, 0, 0, 0, 4, 1, 0, 0, 0, 0, 0, 0, 16, 0]).2.1.closed.map
      (fun p => p.data.length)).sum = 0 := by
  decide

/-- C16 (amended): after `n` successful calls of `processChunk` from the
start of a flow, each closed pipe holds the length declared by the header in
force when its message began, less the bytes the "set chunk size" case
skipped (4 for each chunk of the message read with header type 0x01 and at
least 4 bytes left). So the bytes written to closed pipes plus the skipped
bytes add up to the declared lengths, and nothing is skipped when no header
of type 0x01 was stored. -/
theorem closed_bytes_account (n : Nat) (buf rest : List Nat) (s1 : rtmpStream)
    (h : processChunks n rtmpStream.new buf = (none, s1, rest)) :
    List.Forall₂ (fun (p : Pipe) (a : Account) => p.data.length + a.skipped = a.declared)
      s1.closed (ledgerOf n rtmpStream.new buf Ledger.empty).closed ∧
    (s1.closed.map (fun p => p.data.length)).sum +
        ((ledgerOf n rtmpStream.new buf Ledger.empty).closed.map (fun a => a.skipped)).sum =
      ((ledgerOf n rtmpStream.new buf Ledger.empty).closed.map (fun a => a.declared)).sum ∧
    ((∀ c m, (c, m) ∈ s1.track → m.hdr.TypeID ≠ 1) →
      (∀ a ∈ (ledgerOf n rtmpStream.new buf Ledger.empty).closed, a.skipped = 0) ∧
      (s1.closed.map (fun p => p.data.length)).sum =
        ((ledgerOf n rtmpStream.new buf Ledger.empty).closed.map (fun a => a.declared)).sum) := by
  obtain ⟨hF, -, hZ⟩ := processChunks_accounted n rtmpStream.new s1 Ledger.empty buf rest accounted_new h
  have hsum := forall2_sum _ _ hF
  refine ⟨hF, hsum, fun hty => ?_⟩
  obtain ⟨hz, -⟩ := hZ hty
  refine ⟨hz, ?_⟩
  have h0 : ((ledgerOf n rtmpStream.new buf Ledger.empty).closed.map (fun a => a.skipped)).sum = 0 := by
    apply List.sum_eq_zero
    intro x hx
    obtain ⟨a, ha, rfl⟩ := List.mem_map.mp hx
    exact hz a ha
  omega

theorem closed_bytes_account_witness :
    (ledgerOf 2 rtmpStream.new
        ([2, 0, 0, 0, 0, 0, 4, 1, 0, 0, 0, 0, 0, 0, 16, 0] ++ [3, 0, 0, 0, 0, 0, 1, 20, 0, 0, 0, 0, 5])
        Ledger.empty).closed = [{ declared := 4, skipped := 4 }, { declared := 1, skipped := 0 }] ∧
    (processChunks 2 rtmpStream.new
        ([2, 0, 0, 0, 0, 0, 4, 1, 0, 0, 0, 0, 0, 0, 16, 0] ++
          [3, 0, 0, 0, 0, 0, 1, 20, 0, 0, 0, 0, 5])).2.1.closed = [Pipe.mk 1 [], Pipe.mk 20 [5]] ∧
    List.Forall₂ (fun (p : Pipe) (a : Account) => p.data.length + a.skipped = a.declared)
      (processChunks 2 rtmpStream.new
        ([2, 0, 0, 0, 0, 0, 4, 1, 0, 0, 0, 0, 0, 0, 16, 0] ++
          [3, 0, 0, 0, 0, 0, 1, 20, 0, 0, 0, 0, 5])).2.1.closed
      (ledgerOf 2 rtmpStream.new
        ([2, 0, 0, 0, 0, 0, 4, 1, 0, 0, 0, 0, 0, 0, 16, 0] ++ [3, 0, 0, 0, 0, 0, 1, 20, 0, 0, 0, 0, 5])
        Ledger.empty).closed :=
  ⟨by decide, by decide,
    (closed_bytes_account 2
      ([2, 0, 0, 0, 0, 0, 4, 1, 0, 0, 0, 0, 0, 0, 16, 0] ++ [3, 0, 0, 0, 0, 0, 1, 20, 0, 0, 0, 0, 5]) []
      _ (by rfl)).1⟩

theorem valuesLoopF_step (e : Err) (f : Nat) (vals : List Value) (i r : List Nat) (v : Value)
    (h : nextObject e i = .ok v r) :
    valuesLoopF e (f + 1) vals i =
      valuesLoopF e f (vals ++ [v].filter (fun v => !v.isNull)) r := by
  rw [valuesLoopF, h]
  cases v <;> simp [Value.isNull]

theorem valuesLoopF_end (e : Err) (f : Nat) (vals : List Value) (t : List Nat) (err : Err)
    (h : nextObject e t = .err err) :
    valuesLoopF e (f + 1) vals t =
      if err = .ErrUnexpectedEOF ∨ err = .EOF then some (.ok vals) else some (.error err) := by
  rw [valuesLoopF, h]

theorem valuesLoopF_items (e : Err) (t : List Nat) (err : Err) (ht : nextObject e t = .err err) :
    ∀ (items : List EncodedValue) (vals : List Value) (f : Nat),
      (∀ x ∈ items, ∀ more, nextObject e (x.bytes ++ more) = .ok x.value more) →
      items.length < f →
      valuesLoopF e f vals (encValues items ++ t) =
        if err = .ErrUnexpectedEOF ∨ err = .EOF then some (.ok (vals ++ keptValues items))
        else some (.error err) := by
  intro items
  induction items with
  | nil =>
    intro vals f _ hf
    obtain ⟨f, rfl⟩ : ∃ g, f = g + 1 := ⟨f - 1, by simp at hf; omega⟩
    simp only [encValues, List.nil_append, keptValues, List.map_nil, List.filter_nil, List.append_nil]
    exact valuesLoopF_end e f vals t err ht
  | cons x xs ih =>
    intro vals f hv hf
    obtain ⟨f, rfl⟩ : ∃ g, f = g + 1 := ⟨f - 1, by simp at hf; omega⟩
    have hx := hv x (List.mem_cons_self _ _) (encValues xs ++ t)
    simp only [encValues, List.append_assoc]
    rw [valuesLoopF_step e f vals _ _ _ hx,
      ih _ f (fun y hy => hv y (List.mem_cons_of_mem _ hy)) (by simpa using hf)]
    have hk : [x.value].filter (fun v => !v.isNull) ++ keptValues xs = keptValues (x :: xs) := by
      cases hn : x.value.isNull <;> simp [keptValues, List.filter_cons, hn]
    rw [List.append_assoc, hk]

theorem encValues_length (e : Err) (items : List EncodedValue)
    (hv : ∀ x ∈ items, ∀ more, nextObject e (x.bytes ++ more) = .ok x.value more) :
    items.length ≤ (encValues items).length := by
  induction items with
  | nil => simp
  | cons x xs ih =>
    have hx := hv x (List.mem_cons_self _ _) []
    have hp := (decode_progress e _).1 _ _ _ hx
    have := ih (fun y hy => hv y (List.mem_cons_of_mem _ hy))
    simp only [encValues, List.length_cons, List.length_append, List.append_nil, List.length_nil] at hp ⊢
    omega

theorem readValues_items (e : Err) (items : List EncodedValue) (t : List Nat) (err : Err)
    (hv : ∀ x ∈ items, ∀ more, nextObject e (x.bytes ++ more) = .ok x.value more)
    (ht : nextObject e t = .err err) :
    readValues e 0x14 (encValues items ++ t) =
      if err = .ErrUnexpectedEOF ∨ err = .EOF then some (.ok (keptValues items))
      else some (.error err) := by
  have hl := encValues_length e items hv
  unfold readValues
  simp only [true_or, if_true, show ¬ (0x14 = 0x11) by decide, if_false]
  rw [valuesLoopF_items e t err ht items [] _ hv (by rw [List.length_append]; omega)]
  simp

theorem nextObject_nil (e : Err) : nextObject e [] = .err e := by
  simp [nextObject, nextObjectF, readFull]

theorem processNewMessage_items (fmtOther : Value → GoString) (e : Err) (c : MessageFinalizer)
    (items : List EncodedValue) (t : List Nat) (err : Err)
    (hv : ∀ x ∈ items, ∀ more, nextObject e (x.bytes ++ more) = .ok x.value more)
    (ht : nextObject e t = .err err) :
    processNewMessage fmtOther e (encValues items ++ t) c 0x14 =
      if err = .ErrUnexpectedEOF ∨ err = .EOF then
        some (none, if (keptValues items).length > 0 then add fmtOther c (keptValues items) else .ok c)
      else some (some err, .ok c) := by
  unfold processNewMessage
  rw [readValues_items e items t err hv ht]
  by_cases h : err = .ErrUnexpectedEOF ∨ err = .EOF
  · rw [if_pos h, if_pos h]
    dsimp only
    by_cases hl : (keptValues items).length > 0
    · rw [if_pos hl, if_pos hl]
    · rw [if_neg hl, if_neg hl]
  · rw [if_neg h, if_neg h]

theorem nextObjectF_string (e : Err) (f : Nat) (rest : List Nat) :
    nextObjectF e (f + 1) (2 :: rest) =
      match readString e rest with
      | .error e => .err e
      | .ok (s, r) => .ok (.str s) r := by
  simp [nextObjectF, readFull]

theorem nextObject_number_cut (p : List Nat) (hp : p.length < 8) :
    nextObject .EOF (0 :: p) = .err (if p = [] then .EOF else .ErrUnexpectedEOF) := by
  have h8 : ¬ 8 ≤ p.length := by omega
  simp [nextObject, nextObjectF, readFull, h8]
  split_ifs <;> rfl

theorem nextObject_boolean_cut : nextObject .EOF [1] = .err .EOF := by
  simp [nextObject, nextObjectF, readFull]

theorem nextObject_string_length_cut (p : List Nat) (hp : p.length < 2) :
    nextObject .EOF (2 :: p) = .err (.readLengthFailed (if p = [] then .EOF else .ErrUnexpectedEOF)) := by
  have h2 : ¬ 2 ≤ p.length := by omega
  unfold nextObject
  rw [nextObjectF_string]
  simp [readString, readFull, h2]
  split_ifs <;> rfl

theorem nextObject_string_bytes_cut (n : Nat) (p : List Nat) (hn : n < 65536) (hp : p.length < n) :
    nextObject .EOF (2 :: (u16be n ++ p)) =
      .err (.readFoundStrFailed (if p = [] then .EOF else .ErrUnexpectedEOF)) := by
  have h2 : readFull .EOF 2 (u16be n ++ p) = .ok (u16be n, p) :=
    readFull_append_of_length _ _ _ _ (by simp [u16be])
  have hn0 : ¬ n = 0 := by omega
  have hle : ¬ n ≤ p.length := by omega
  have h3 : readFull .EOF n p = .error (if p = [] then .EOF else .ErrUnexpectedEOF) := by
    unfold readFull
    rw [if_neg hn0, if_neg hle, if_pos rfl]
    split_ifs <;> rfl
  unfold nextObject
  rw [nextObjectF_string]
  unfold readString
  rw [h2]
  dsimp only
  rw [beNat_u16be n hn, h3]

theorem nextObject_map_value_cut (k : GoString) (hk : k.length < 65536) :
    nextObject .EOF (3 :: encKey k) = .err .EOF := by
  have hs : readString .EOF (encKey k) = .ok (k, []) := by
    have := readString_encKey .EOF k [] hk
    rwa [List.append_nil] at this
  have hl : (3 :: encKey k).length + 1 = (k.length + 2) + 1 + 1 := by
    simp [encKey, u16be]
  have hm : ∀ f, nextObjectF .EOF (f + 1) (3 :: encKey k) =
      match readMapF .EOF f [] (encKey k) with
      | .ok m input2 => .ok (.map m) input2
      | .err e => .err e
      | .fuel => .fuel := by
    intro f
    simp [nextObjectF, readFull]
  unfold nextObject
  rw [hl, hm, readMapF_succ, hs]
  simp [nextObjectF, readFull]

/-- C11 (counterexample): a type-0x14 payload made of the complete "connect"
command followed by the tag of a number and one of its eight bytes (a proper
prefix of a value encoding) is no error: `processNewMessage` returns nil and
the values read before the cut are delivered to the collator, which records
the connect map. The same holds after the string "a" for a number cut after
one byte and for a boolean cut after its tag. -/
theorem truncated_number_is_not_an_error :
    processNewMessage (fun _ => []) .EOF (connectPayload ++ [0, 63]) MessageFinalizer.init 0x14 =
      some (none, .ok { r := [], complete := false,
                        connect := some [(lit "app", .str (lit "live"))], play := [] }) ∧
    readValues .EOF 0x14 ([2, 0, 1, 97] ++ [0, 63]) = some (.ok [.str (lit "a")]) ∧
    readValues .EOF 0x14 ([2, 0, 1, 97] ++ [1]) = some (.ok [.str (lit "a")]) :=
  ⟨rfl, rfl, rfl⟩

/-- C11 (amended): after complete value encodings, the end of the stream
inside a value is an error only where the decoder wraps the read error. At a
value boundary, inside a number or a boolean, and where the tag of a map
value is expected, `processNewMessage` returns nil and delivers the values
read so far that are not nil, when there is at least one. Inside the length
or the bytes of a string it returns the wrapped error and delivers nothing.
In general the outcome is fixed by the error `nextObject` returns on the cut
value. -/
theorem truncated_payload (fmtOther : Value → GoString) (c : MessageFinalizer)
    (items : List EncodedValue)
    (hv : ∀ x ∈ items, ∀ more, nextObject .EOF (x.bytes ++ more) = .ok x.value more) :
    processNewMessage fmtOther .EOF (encValues items) c 0x14 =
      some (none, if (keptValues items).length > 0 then add fmtOther c (keptValues items) else .ok c) ∧
    (∀ p, p.length < 8 →
      processNewMessage fmtOther .EOF (encValues items ++ 0 :: p) c 0x14 =
        some (none, if (keptValues items).length > 0 then add fmtOther c (keptValues items) else .ok c)) ∧
    processNewMessage fmtOther .EOF (encValues items ++ [1]) c 0x14 =
      some (none, if (keptValues items).length > 0 then add fmtOther c (keptValues items) else .ok c) ∧
    (∀ k : GoString, k.length < 65536 →
      processNewMessage fmtOther .EOF (encValues items ++ 3 :: encKey k) c 0x14 =
        some (none, if (keptValues items).length > 0 then add fmtOther c (keptValues items) else .ok c)) ∧
    (∀ p, p.length < 2 →
      processNewMessage fmtOther .EOF (encValues items ++ 2 :: p) c 0x14 =
        some (some (.readLengthFailed (if p = [] then .EOF else .ErrUnexpectedEOF)), .ok c)) ∧
    (∀ n p, n < 65536 → p.length < n →
      processNewMessage fmtOther .EOF (encValues items ++ 2 :: (u16be n ++ p)) c 0x14 =
        some (some (.readFoundStrFailed (if p = [] then .EOF else .ErrUnexpectedEOF)), .ok c)) ∧
    (∀ t err, nextObject .EOF t = .err err →
      processNewMessage fmtOther .EOF (encValues items ++ t) c 0x14 =
        if err = .ErrUnexpectedEOF ∨ err = .EOF then
          some (none, if (keptValues items).length > 0 then add fmtOther c (keptValues items) else .ok c)
        else some (some err, .ok c)) := by
  refine ⟨?_, ?_, ?_, ?_, ?_, ?_, ?_⟩
  · have h := processNewMessage_items fmtOther .EOF c items [] .EOF hv (nextObject_nil .EOF)
    rw [List.append_nil, if_pos (Or.inr rfl)] at h
    exact h
  · intro p hp
    rw [processNewMessage_items fmtOther .EOF c items _ _ hv (nextObject_number_cut p hp)]
    by_cases h : p = []
    · rw [if_pos h, if_pos (Or.inr rfl)]
    · rw [if_neg h, if_pos (Or.inl rfl)]
  · rw [processNewMessage_items fmtOther .EOF c items _ _ hv nextObject_boolean_cut,
      if_pos (Or.inr rfl)]
  · intro k hk
    rw [processNewMessage_items fmtOther .EOF c items _ _ hv (nextObject_map_value_cut k hk),
      if_pos (Or.inr rfl)]
  · intro p hp
    rw [processNewMessage_items fmtOther .EOF c items _ _ hv (nextObject_string_length_cut p hp),
      if_neg (by simp)]
  · intro n p hn hp
    rw [processNewMessage_items fmtOther .EOF c items _ _ hv (nextObject_string_bytes_cut n p hn hp),
      if_neg (by simp)]
  · intro t err ht
    exact processNewMessage_items fmtOther .EOF c items t err hv ht

theorem truncated_payload_witness :
    keptValues [⟨[2, 0, 1, 97], .str (lit "a")⟩, ⟨[5], .null⟩, ⟨[1, 1], .bool true⟩] =
      [.str (lit "a"), .bool true] ∧
    processNewMessage (fun _ => []) .EOF
        (encValues [⟨[2, 0, 1, 97], .str (lit "a")⟩, ⟨[5], .null⟩, ⟨[1, 1], .bool true⟩] ++ 2 :: [0])
        MessageFinalizer.init 0x14 =
      some (some (.readLengthFailed (if [0] = [] then .EOF else .ErrUnexpectedEOF)),
        .ok MessageFinalizer.init) ∧
    processNewMessage (fun _ => []) .EOF
        (encValues [⟨[2, 0, 1, 97], .str (lit "a")⟩, ⟨[5], .null⟩, ⟨[1, 1], .bool true⟩] ++ 0 :: [63])
        MessageFinalizer.init 0x14 =
      some (none,
        if (keptValues [⟨[2, 0, 1, 97], .str (lit "a")⟩, ⟨[5], .null⟩, ⟨[1, 1], .bool true⟩]).length > 0
        then add (fun _ => []) MessageFinalizer.init
          (keptValues [⟨[2, 0, 1, 97], .str (lit "a")⟩, ⟨[5], .null⟩, ⟨[1, 1], .bool true⟩])
        else .ok MessageFinalizer.init) :=
  have h := truncated_payload (fun _ => []) MessageFinalizer.init
    [⟨[2, 0, 1, 97], .str (lit "a")⟩, ⟨[5], .null⟩, ⟨[1, 1], .bool true⟩]
    (by
      intro x hx
      simp only [List.mem_cons, List.mem_singleton, List.not_mem_nil, or_false] at hx
      rcases hx with h | h | h <;> subst h <;> intro more <;>
        simp [nextObject, nextObjectF, readFull, readString, beNat, lit])
  ⟨rfl, h.2.2.2.2.1 [0] (by decide), h.2.1 [63] (by decide)⟩

/-! ## Theorems: the values bound by `readMap` -/

theorem nextObject_scalar (e : Err) (v : Scalar) (hv : v.ok) (more : List Nat) :
    nextObject e (v.enc ++ more) = .ok v.value more := by
  cases v with
  | num bits =>
    have h8 : readFull e 8 (bits ++ more) = .ok (bits, more) := readFull_append_of_length _ _ _ _ hv
    have h1 : ∀ f, nextObjectF e (f + 1) (0 :: (bits ++ more)) =
        match readFull e 8 (bits ++ more) with
        | .error e => .err e
        | .ok (num, input2) => .ok (.num num) input2 := by
      intro f
      simp [nextObjectF, readFull]
    show nextObjectF e _ (0 :: (bits ++ more)) = _
    rw [h1, h8]
    rfl
  | bool b =>
    cases b <;> simp [Scalar.enc, Scalar.value, nextObject, nextObjectF, readFull]
  | str s =>
    show nextObjectF e _ (2 :: (encKey s ++ more)) = _
    rw [nextObjectF_string, readString_encKey e s more hv]
    rfl

theorem scalar_head (v : Scalar) : v.enc.head? ≠ some 5 ∧ v.enc.head? ≠ some 9 := by
  cases v <;> simp [Scalar.enc]

theorem getLast?_filter_scalarEntry (entries : List (GoString × Scalar)) (k : GoString) :
    (((entries.map scalarEntry).filter (fun x => decide (x.key = k))).getLast?).map (fun x => x.value) =
      ((entries.filter (fun x => decide (x.1 = k))).getLast?).map (fun x => x.2.value) := by
  have hf : (entries.map scalarEntry).filter (fun x => decide (x.key = k)) =
      (entries.filter (fun x => decide (x.1 = k))).map scalarEntry := by
    induction entries with
    | nil => rfl
    | cons x xs ih =>
      simp only [List.map_cons, List.filter_cons, scalarEntry] at ih ⊢
      by_cases hx : x.1 = k
      · simp only [hx, decide_True, if_true, List.map_cons]
        rw [ih]
        subst hx
        rfl
      · simp only [hx, decide_False, Bool.false_eq_true, if_false]
        exact ih
  rw [hf, List.getLast?_map, Option.map_map]
  rfl

/-- C10 (fails on the code): on `00 01 61 08 00 00 00 01 01 01 00 00 09`, the
entry `a` with the strict array holding the one value `true`, then the empty
key and the end marker, `readMap` uses up the bytes and binds `a` to a slice
of two elements, the nil interface and then `true`, not to the encoded array
of one element: the value comes from `readArray`, which appends to a slice
made with the declared length. For entries whose values are numbers, booleans
or strings (encoded with their tag, a key shorter than 65536 bytes before
each), followed by a key and one byte 0x05 or 0x09, `readMap` uses up exactly
those bytes and binds every key to the value of the last entry with that key;
the final key is bound only when an entry has it. -/
theorem readMap_array_value_has_nil_prefix :
    readMap .EOF [0, 1, 97, 8, 0, 0, 0, 1, 1, 1, 0, 0, 9] =
      .ok [(lit "a", .arr [.null, .bool true])] [] ∧
    mapGet (lit "a") [(lit "a", Value.arr [.null, .bool true])] = some (.arr [.null, .bool true]) ∧
    Value.arr [.null, .bool true] ≠ Value.arr [.bool true] ∧
    (∀ (e : Err) (entries : List (GoString × Scalar)) (kT : GoString) (t : Nat) (rest : List Nat),
      kT.length < 65536 → (t = 5 ∨ t = 9) →
      (∀ x ∈ entries, x.1.length < 65536 ∧ x.2.ok) →
      ∃ m, readMap e (encEntries (entries.map scalarEntry) ++ (encKey kT ++ t :: rest)) = .ok m rest ∧
        (∀ k, mapGet k m =
          ((entries.filter (fun x => decide (x.1 = k))).getLast?).map (fun x => x.2.value)) ∧
        ((mapGet kT m).isSome = true → ∃ x ∈ entries, x.1 = kT)) := by
  refine ⟨rfl, rfl, ?_, ?_⟩
  · intro h
    injection h with h
    simp at h
  · intro e entries kT t rest hkT ht hok
    obtain ⟨m, hm, hget, hlast⟩ := readMap_entries e (entries.map scalarEntry) kT t rest hkT ht
      (by
        intro x hx
        obtain ⟨y, hy, rfl⟩ := List.mem_map.mp hx
        exact (hok y hy).1)
      (by
        intro x hx
        obtain ⟨y, hy, rfl⟩ := List.mem_map.mp hx
        exact ⟨scalar_head y.2, fun more => nextObject_scalar e y.2 (hok y hy).2 more⟩)
    refine ⟨m, hm, ?_, ?_⟩
    · intro k
      rw [hget k, getLast?_filter_scalarEntry]
    · intro h
      obtain ⟨x, hx, hxk⟩ := hlast h
      obtain ⟨y, hy, rfl⟩ := List.mem_map.mp hx
      exact ⟨y, hy, hxk⟩

end RtmpDebug
